import Mathlib

/-!
Verification development for the raid scheduling engine of the
`dwarf_discord_bot` repository.

The development shallowly embeds the two engine components the claims are
about:

* `RQ` — the queue-based assignment engine (`src/utils/raid_queue.py`):
  `RaidQueue.enqueue`, `RaidQueue.dequeue` and
  `RaidQueue.generate_schedule_message` (its round-assignment part).
* `RS` — the text-reconciliation engine
  (`src/cogs/raid_scheduler_common.py`): `parse_message_to_data`,
  `format_data_to_message`, `apply_changes_to_data`, `is_empty_round`,
  `clean_empty_rounds`, `get_round_number`.

Python `str` values are embedded as `List Char`; Python `int` as `Int`
(`Nat` where the source can only ever produce non-negative values, noted
at each definition).  Python's stable `list.sort(key=..., reverse=True)`
is embedded as a stable insertion sort on the descending key order.
-/

namespace RaidSpec

/-- Embedding of Python `str`: a list of characters. -/
abbrev Str := List Char

/-- Python whitespace as stripped by `str.strip()` (the characters that can
actually occur in the engine's texts). -/
def pyIsSpace (c : Char) : Bool :=
  c == ' ' || c == '\t' || c == '\n' || c == '\r' || c == '\x0b' || c == '\x0c'

/-- Embedding of Python `str.lower()` (ASCII case folding; the Korean and
symbol characters used by the engine are unaffected, as in Python). -/
def lowerStr (s : Str) : Str := s.map Char.toLower

/-- Left strip, as in Python `str.lstrip()`. -/
def ltrim (s : Str) : Str := s.dropWhile pyIsSpace

/-- Right strip, as in Python `str.rstrip()`. -/
def rtrim (s : Str) : Str := (s.reverse.dropWhile pyIsSpace).reverse

/-- Embedding of Python `str.strip()`. -/
def trim (s : Str) : Str := ltrim (rtrim s)

/-- `isPre p s` iff `p` is a prefix of `s`: Python `s.startswith(p)`. -/
def isPre : Str → Str → Bool
  | [], _ => true
  | _ :: _, [] => false
  | c :: p, d :: s => c == d && isPre p s

/-- `containsSub p s` iff `p` occurs contiguously in `s`: Python `p in s`. -/
def containsSub (p : Str) : Str → Bool
  | [] => isPre p []
  | c :: t => isPre p (c :: t) || containsSub p t

/-- Split on a separator character, keeping empty segments:
Python `s.split(sep)` for a one-character separator. -/
def splitOnChar (sep : Char) : Str → List Str
  | [] => [[]]
  | c :: rest =>
    if c == sep then [] :: splitOnChar sep rest
    else
      match splitOnChar sep rest with
      | [] => [[c]]
      | s :: ss => (c :: s) :: ss

/-- Join lines with a newline: Python `"\n".join(lines)`. -/
def joinNL : List Str → Str
  | [] => []
  | [l] => l
  | l :: l' :: ls => l ++ '\n' :: joinNL (l' :: ls)

/-- Join with `", "`: Python `", ".join(parts)`. -/
def joinCS : List Str → Str
  | [] => []
  | [n] => n
  | n :: n' :: ns => n ++ ',' :: ' ' :: joinCS (n' :: ns)

/-- Everything after the first occurrence of `c`:
Python `s.split(c, 1)[1]` (or `""` when `c` does not occur). -/
def afterFirst (c : Char) : Str → Str
  | [] => []
  | x :: xs => if x == c then xs else afterFirst c xs

/-- The decimal digit character for `d < 10`. -/
def digitChar (d : Nat) : Char :=
  if d = 0 then '0' else if d = 1 then '1' else if d = 2 then '2'
  else if d = 3 then '3' else if d = 4 then '4' else if d = 5 then '5'
  else if d = 6 then '6' else if d = 7 then '7' else if d = 8 then '8'
  else '9'

/-- Fuelled digit rendering (structural recursion so that the kernel can
evaluate it; the fuel `n + 1` always suffices since `n / 10 < n`). -/
def natToStrAux : Nat → Nat → Str
  | 0, _ => []
  | fuel + 1, n =>
    if n < 10 then [digitChar n] else natToStrAux fuel (n / 10) ++ [digitChar (n % 10)]

/-- Decimal rendering of a natural number: Python `str(n)` / f-string
interpolation of a non-negative `int`. -/
def natToStr (n : Nat) : Str := natToStrAux (n + 1) n

/-- Numeric value of a digit string: Python `int(s)` for a string of
decimal digits. -/
def digitsToNat (s : Str) : Nat :=
  s.foldl (fun a c => 10 * a + (c.toNat - 48)) 0

/-- Decimal rendering of an integer: Python `str(i)`. -/
def intToStr (i : Int) : Str :=
  if i < 0 then '-' :: natToStr i.natAbs else natToStr i.natAbs

/-- Prefix match of the regex `<@(\d+)>` (Python `re.match`): an optional
capture of the digit group.  Greedy `\d+` followed by a mandatory `>` is
exactly "maximal digit run, then `>`". -/
def parseMention (s : Str) : Option Str :=
  match s with
  | '<' :: '@' :: rest =>
    let ds := rest.takeWhile Char.isDigit
    match rest.drop ds.length with
    | '>' :: _ => if ds = [] then none else some ds
    | _ => none
  | _ => none

/-- Fuelled matcher for `idsInRun` (each step consumes 20 characters, so
`run.length` fuel always suffices). -/
def idsInRunAux : Nat → Str → List Str
  | 0, _ => []
  | fuel + 1, run =>
    if 17 ≤ run.length then run.take 20 :: idsInRunAux fuel (run.drop 20) else []

/-- All matches of the regex `(\d{17,20})` inside one maximal digit run
(`re.findall` semantics: greedy, non-overlapping, left to right). -/
def idsInRun (run : Str) : List Str := idsInRunAux run.length run

/-- Scanner state for `findContainedIds`: `run` is the digit run read so
far, in reverse order. -/
def findIdsAux (run : Str) : Str → List Str
  | [] => idsInRun run.reverse
  | c :: cs =>
    if c.isDigit then findIdsAux (c :: run) cs
    else idsInRun run.reverse ++ findIdsAux [] cs

/-- Python `re.findall(r'(\d{17,20})', s)`: scan for maximal digit runs and
emit the greedy non-overlapping matches inside each. -/
def findContainedIds (s : Str) : List Str := findIdsAux [] s

namespace RQ

/-- `RaidQueueElement` (src/utils/raid_queue.py, lines 11-18). -/
structure QElem where
  round : Int
  user_participation_count : Int
  role : Str
  user_name : Str
  user_id : Str
deriving DecidableEq

/-- `UserParticipationData` (lines 21-26). -/
structure UserPD where
  user_id : Str
  user_name : Str
  participation_count : Int
deriving DecidableEq

/-- `RoundInfo` of the queue engine (lines 29-36).  The member lists hold
`(user_name, user_id)` pairs. -/
structure RoundInfo where
  round_index : Int
  when : Str := []
  support : List (Str × Str) := []
  dealer : List (Str × Str) := []
  note : Str := []
deriving DecidableEq

/-- The mutable state of a `RaidQueue` (lines 39-50).  The `thread_id`
field is omitted: it is only used for logging.  `user_data` embeds the
Python dict `user_id -> UserParticipationData` as an association list
with unique keys (first-match lookup). -/
structure RaidQueue where
  queue : List QElem := []
  user_data : List UserPD := []
deriving DecidableEq

/-- The sort key of `_sort_queue` (lines 55-59):
`(-1 if round > 0 else 0, user_participation_count, 1 if support else 0)`. -/
def sortKey (e : QElem) : Int × Int × Int :=
  (if e.round > 0 then -1 else 0,
   e.user_participation_count,
   if lowerStr e.role = "support".data then 1 else 0)

/-- Lexicographic `≥` on sort keys.  `list.sort(key=k, reverse=True)` is a
stable descending sort: `a` may stay before `b` iff `k a ≥ k b`. -/
def keyGe (a b : Int × Int × Int) : Bool :=
  a.1 > b.1 || (a.1 = b.1 && (a.2.1 > b.2.1 || (a.2.1 = b.2.1 && a.2.2 ≥ b.2.2)))

/-- Stable descending insertion: place `x` before the first element whose
key is not strictly greater than `x`'s. -/
def insDesc (x : QElem) : List QElem → List QElem
  | [] => [x]
  | y :: ys => if keyGe (sortKey x) (sortKey y) then x :: y :: ys else y :: insDesc x ys

/-- Embedding of `_sort_queue` (lines 52-59): Python's stable
`sort(key=..., reverse=True)` as a stable insertion sort on the
descending key order. -/
def sortQueue : List QElem → List QElem
  | [] => []
  | x :: xs => insDesc x (sortQueue xs)

/-- Count lookup in `user_data` (Python `user_id in self.user_data` /
`self.user_data[user_id]`). -/
def lookupUD (ud : List UserPD) (uid : Str) : Option UserPD :=
  ud.find? (fun u => u.user_id = uid)

/-- `add_user_participation` (lines 61-70): increment the user's counter,
creating the entry (count 1) when absent. -/
def addUP (ud : List UserPD) (uid uname : Str) : List UserPD :=
  match ud with
  | [] => [⟨uid, uname, 1⟩]
  | u :: us =>
    if u.user_id = uid then { u with participation_count := u.participation_count + 1 } :: us
    else u :: addUP us uid uname

/-- `decrease_user_participation` (lines 72-77): decrement only when the
entry exists and its count is positive. -/
def decUP (ud : List UserPD) (uid : Str) : List UserPD :=
  match ud with
  | [] => []
  | u :: us =>
    if u.user_id = uid then
      (if u.participation_count > 0 then { u with participation_count := u.participation_count - 1 } else u) :: us
    else u :: decUP us uid

/-- `RaidQueue.enqueue` (lines 79-107): bump the participation counter,
append an element carrying the post-increment count, and re-sort. -/
def enqueue (q : RaidQueue) (uid uname role : Str) (round_num : Int) : RaidQueue :=
  let ud := addUP q.user_data uid uname
  let c : Int := match lookupUD ud uid with
    | some u => u.participation_count
    | none => 0
  { queue := sortQueue (q.queue ++ [⟨round_num, c, role, uname, uid⟩]),
    user_data := ud }

/-- The per-element match test of `RaidQueue.dequeue` (lines 147-186):
the four-way `if`/`elif` name test, then the role filter (applied only
for a non-`None`, non-empty `role`), then the round filter (applied only
when `round_num` is not `None` and `> 0`). -/
def deqMatches (uname : Str) (role : Option Str) (round_num : Option Int) (e : QElem) : Bool :=
  let mention := parseMention uname
  let contained := findContainedIds uname
  let nameMatch : Bool :=
    if lowerStr e.user_name = lowerStr uname then true
    else if (match mention with | some mid => decide (e.user_id = mid) | none => false) then true
    else if isPre "<@".data e.user_name && (e.user_name ≠ [] && e.user_name.getLast? = some '>') then
      (match parseMention e.user_name with
       | some eid => containsSub eid uname
       | none => false)
    else if contained ≠ [] && contained.contains e.user_id then true
    else false
  let roleOk : Bool :=
    match role with
    | some r => if r = [] then true else lowerStr e.role = lowerStr r
    | none => true
  let roundOk : Bool :=
    match round_num with
    | some rn => if rn > 0 then e.round = rn else true
    | none => true
  nameMatch && roleOk && roundOk

/-- Find the first match and pop it: the `matching_indices` collection of
`dequeue` followed by `pop(matching_indices[0])` (lines 144-196). -/
def popFirst (p : QElem → Bool) : List QElem → Option (QElem × List QElem)
  | [] => none
  | e :: es =>
    if p e then some (e, es)
    else match popFirst p es with
      | some (r, rest) => some (r, e :: rest)
      | none => none

/-- `RaidQueue.dequeue` (lines 109-204): remove the first matching
element; on success decrement the removed element's user counter, but
only when its `user_id` is non-empty (`if removed.user_id:`). -/
def dequeue (q : RaidQueue) (uname : Str) (role : Option Str) (round_num : Option Int) :
    Option QElem × RaidQueue :=
  match popFirst (deqMatches uname role round_num) q.queue with
  | none => (none, q)
  | some (e, rest) =>
    (some e,
     { queue := rest,
       user_data := if e.user_id ≠ [] then decUP q.user_data e.user_id else q.user_data })

/-- The `assigned_users` key `f"{user_name}:{round}"` (lines 311, 346). -/
def ukey (uname : Str) (round_index : Int) : Str :=
  uname ++ ':' :: intToStr round_index

/-- First round with the given index (lines 292-295: linear scan). -/
def findRound (rs : List RoundInfo) (i : Int) : Option RoundInfo :=
  rs.find? (fun r => r.round_index = i)

/-- Update the first round carrying index `i`.  In the Python source the
found `RoundInfo` object is mutated in place; since every reachable
`round_infos` list has pairwise distinct indices, updating the first
index match is the same operation. -/
def updIdx (rs : List RoundInfo) (i : Int) (f : RoundInfo → RoundInfo) : List RoundInfo :=
  match rs with
  | [] => []
  | r :: rest => if r.round_index = i then f r :: rest else r :: updIdx rest i f

/-- Insertion of a new round before the first round with a larger index,
else at the end (lines 299-307). -/
def insertRoundSorted (rs : List RoundInfo) (nr : RoundInfo) : List RoundInfo :=
  match rs with
  | [] => [nr]
  | r :: rest => if r.round_index > nr.round_index then nr :: r :: rest else r :: insertRoundSorted rest nr

/-- State threaded through the two assignment passes:
`(round_infos, assigned_users, queue_copy.queue)`. -/
structure GenState where
  rounds : List RoundInfo
  assigned : List Str
  rem : List QElem

/-- One iteration of the first pass of `generate_schedule_message`
(lines 285-325): explicit-round elements are assigned to their target
round when the user is not yet in it and the role list has spare
capacity; on success the element is removed from the working copy
(`queue_copy.queue.remove(element)`, first structurally-equal element). -/
def pass1Step (smax dmax : Int) (s : GenState) (e : QElem) : GenState :=
  if e.round > 0 then
    let rs1 := match findRound s.rounds e.round with
      | some _ => s.rounds
      | none => insertRoundSorted s.rounds { round_index := e.round }
    match findRound rs1 e.round with
    | none => { s with rounds := rs1 }
    | some r =>
      let k := ukey e.user_name e.round
      if k ∈ s.assigned then { s with rounds := rs1 }
      else if lowerStr e.role = "support".data ∧ (r.support.length : Int) < smax then
        { rounds := updIdx rs1 e.round (fun r => { r with support := r.support ++ [(e.user_name, e.user_id)] }),
          assigned := k :: s.assigned,
          rem := s.rem.erase e }
      else if lowerStr e.role = "dealer".data ∧ (r.dealer.length : Int) < dmax then
        { rounds := updIdx rs1 e.round (fun r => { r with dealer := r.dealer ++ [(e.user_name, e.user_id)] }),
          assigned := k :: s.assigned,
          rem := s.rem.erase e }
      else { s with rounds := rs1 }
  else s

/-- Ascending stable insertion by `round_index` (for
`sorted(round_infos, key=lambda x: x.round_index)`). -/
def insAscR (x : RoundInfo) : List RoundInfo → List RoundInfo
  | [] => [x]
  | y :: ys => if x.round_index ≤ y.round_index then x :: y :: ys else y :: insAscR x ys

/-- Python `sorted(round_infos, key=lambda x: x.round_index)`. -/
def sortRounds : List RoundInfo → List RoundInfo
  | [] => []
  | x :: xs => insAscR x (sortRounds xs)

/-- The second-pass sort key (lines 334-338):
`(user_participation_count, 1 if support else 0)`, descending. -/
def key2Ge (a b : QElem) : Bool :=
  let ka : Int × Int := (a.user_participation_count, if lowerStr a.role = "support".data then 1 else 0)
  let kb : Int × Int := (b.user_participation_count, if lowerStr b.role = "support".data then 1 else 0)
  ka.1 > kb.1 || (ka.1 = kb.1 && ka.2 ≥ kb.2)

/-- Stable descending insertion for the second-pass ordering. -/
def insDesc2 (x : QElem) : List QElem → List QElem
  | [] => [x]
  | y :: ys => if key2Ge x y then x :: y :: ys else y :: insDesc2 x ys

/-- Python `sorted(queue_copy.queue, key=..., reverse=True)` of the
second pass. -/
def sortRemaining : List QElem → List QElem
  | [] => []
  | x :: xs => insDesc2 x (sortRemaining xs)

/-- The inner loop of the second pass (lines 344-362): walk the rounds in
ascending index order and return the index of the first round where the
user is absent and the role list has capacity. -/
def tryAssignGo (smax dmax : Int) (e : QElem) (assigned : List Str) :
    List RoundInfo → Option Int
  | [] => none
  | r :: rest =>
    if ukey e.user_name r.round_index ∈ assigned then tryAssignGo smax dmax e assigned rest
    else if lowerStr e.role = "support".data ∧ (r.support.length : Int) < smax then some r.round_index
    else if lowerStr e.role = "dealer".data ∧ (r.dealer.length : Int) < dmax then some r.round_index
    else tryAssignGo smax dmax e assigned rest

/-- The next round index for a freshly created round (lines 366-368):
`max(round_index) + 1`, or `1` when no rounds exist. -/
def nextIdx (rs : List RoundInfo) : Int :=
  match rs with
  | [] => 1
  | r :: rest => (rest.foldl (fun m x => max m x.round_index) r.round_index) + 1

/-- One iteration of the second pass (lines 340-381): place the element
in the first fitting round, else append a brand-new round holding it
(`support` when the role is support, `dealer` otherwise). -/
def pass2Step (smax dmax : Int) (s : GenState) (e : QElem) : GenState :=
  match tryAssignGo smax dmax e s.assigned (sortRounds s.rounds) with
  | some i =>
    if lowerStr e.role = "support".data then
      { s with rounds := updIdx s.rounds i (fun r => { r with support := r.support ++ [(e.user_name, e.user_id)] }),
               assigned := ukey e.user_name i :: s.assigned }
    else
      { s with rounds := updIdx s.rounds i (fun r => { r with dealer := r.dealer ++ [(e.user_name, e.user_id)] }),
               assigned := ukey e.user_name i :: s.assigned }
  | none =>
    let i := nextIdx s.rounds
    let nr : RoundInfo :=
      if lowerStr e.role = "support".data then
        { round_index := i, support := [(e.user_name, e.user_id)] }
      else
        { round_index := i, dealer := [(e.user_name, e.user_id)] }
    { s with rounds := s.rounds ++ [nr], assigned := ukey e.user_name i :: s.assigned }

/-- The round-assignment computation of `generate_schedule_message`
(lines 252-381), returning the `round_infos` list.  The message-text
rendering of lines 383-423 is not embedded: the claims under scrutiny
only concern the returned rounds. -/
def generateScheduleRounds (q : RaidQueue) (smax dmax : Int) : List RoundInfo :=
  let s1 := q.queue.foldl (pass1Step smax dmax) { rounds := [], assigned := [], rem := q.queue }
  let hasRoundSpecified := q.queue.any (fun e => e.round > 0)
  let rounds1 := if ¬hasRoundSpecified ∧ s1.rounds = [] then [{ round_index := 1 }] else s1.rounds
  let s2 := (sortRemaining s1.rem).foldl (pass2Step smax dmax)
      { rounds := rounds1, assigned := s1.assigned, rem := [] }
  s2.rounds

/-- A queue-engine operation: one `enqueue` or `dequeue` call. -/
inductive Op where
  | enq (uid uname role : Str) (round_num : Int)
  | deq (uname : Str) (role : Option Str) (round_num : Option Int)
deriving DecidableEq

/-- Every member of the round is recorded in the `assigned_users` set
under the key of this round. -/
def memKeysR (r : RoundInfo) (as : List Str) : Prop :=
  (∀ m ∈ r.support, ukey m.1 r.round_index ∈ as) ∧
  (∀ m ∈ r.dealer, ukey m.1 r.round_index ∈ as)

/-- No user name occurs twice within a round: each role list is
duplicate-free and the two lists are disjoint by user name. -/
def noDupRound (r : RoundInfo) : Prop :=
  (r.support.map Prod.fst).Nodup ∧ (r.dealer.map Prod.fst).Nodup ∧
  ∀ n ∈ r.support.map Prod.fst, ¬ n ∈ r.dealer.map Prod.fst

/-- The joint state invariant of the two assignment passes: distinct
round indices, every member key recorded, and no duplicates. -/
def genInvA (rs : List RoundInfo) (as : List Str) : Prop :=
  (rs.map RoundInfo.round_index).Nodup ∧ ∀ r ∈ rs, memKeysR r as ∧ noDupRound r

/-- The capacity bound over a round list. -/
def capOK (smax dmax : Int) (rs : List RoundInfo) : Prop :=
  ∀ r ∈ rs, (r.support.length : Int) ≤ smax ∧ (r.dealer.length : Int) ≤ dmax

/-- Whether an operation is an enqueue carrying a non-empty user id
(dequeues qualify trivially). -/
def opEnqNonempty : Op → Bool
  | .enq uid _ _ _ => uid ≠ []
  | .deq _ _ _ => true

/-- Apply one operation to the queue state. -/
def applyOp (q : RaidQueue) : Op → RaidQueue
  | .enq uid uname role rn => enqueue q uid uname role rn
  | .deq uname role rn => (dequeue q uname role rn).2

/-- Apply a sequence of operations to the empty queue. -/
def applyOps (ops : List Op) : RaidQueue :=
  ops.foldl applyOp {}

/-- Bump a tally function at one key. -/
def bump (f : Str → Int) (k : Str) : Str → Int :=
  fun u => if u = k then f u + 1 else f u

/-- Run a sequence of operations while tallying, per user id, the number
of enqueues and the number of successful dequeues that removed one of
that user's requests. -/
def runOpsGo (q : RaidQueue) (enqs rems : Str → Int) :
    List Op → RaidQueue × (Str → Int) × (Str → Int)
  | [] => (q, enqs, rems)
  | op :: ops =>
    match op with
    | .enq uid uname role rn => runOpsGo (enqueue q uid uname role rn) (bump enqs uid) rems ops
    | .deq uname role rn =>
      match dequeue q uname role rn with
      | (some e, q') => runOpsGo q' enqs (bump rems e.user_id) ops
      | (none, q') => runOpsGo q' enqs rems ops

/-- Run a sequence of operations from the empty queue with tallies. -/
def runOps (ops : List Op) : RaidQueue × (Str → Int) × (Str → Int) :=
  runOpsGo {} (fun _ => 0) (fun _ => 0) ops

/-- The participation counter recorded in a `user_data` table for a user
id (`0` when the user has no entry). -/
def cntUD (ud : List UserPD) (uid : Str) : Int :=
  match lookupUD ud uid with
  | some u => u.participation_count
  | none => 0

/-- The participation counter currently recorded for a user id
(`0` when the user has no entry). -/
def countOf (q : RaidQueue) (uid : Str) : Int :=
  cntUD q.user_data uid

end RQ

namespace RS

/-- `RoundInfo` of the reconciliation engine
(src/cogs/raid_scheduler_common.py, lines 41-50).  Member lists hold
`(user_name, character_name)` pairs.  The two capacity fields can only
ever hold their defaults (2 and 6) in this code path, so they are
embedded as `Nat`. -/
structure RoundInfo where
  name : Str
  when : Str := []
  note : Str := []
  supporter_max : Nat := 2
  dealer_max : Nat := 6
  confirmed_supporters : List (Str × Str) := []
  confirmed_dealers : List (Str × Str) := []
deriving DecidableEq

/-- `RaidData` (lines 52-58).  The `user_preferences` map is omitted: it
is never read or written by the parse/format/apply functions embedded
here. -/
structure RaidData where
  header : Str
  info : List Str := []
  rounds : List RoundInfo := []
deriving DecidableEq

/-- `is_empty_round` (lines 129-138): a round is empty when it has no
participants and both its `when` and `note` strip to the empty string. -/
def is_empty_round (r : RoundInfo) : Bool :=
  let has_participants := !r.confirmed_supporters.isEmpty || !r.confirmed_dealers.isEmpty
  let has_information := !(trim r.when).isEmpty || !(trim r.note).isEmpty
  !(has_participants || has_information)

/-- `clean_empty_rounds` (lines 140-147): drop the empty rounds. -/
def clean_empty_rounds (d : RaidData) : RaidData :=
  { d with rounds := d.rounds.filter (fun r => !is_empty_round r) }

/-- `get_round_number` (lines 382-387): the first maximal digit run in
the name (`re.search(r'(\d+)', ...)`), else 9999. -/
def get_round_number : Str → Nat
  | [] => 9999
  | c :: cs =>
    if c.isDigit then digitsToNat (c :: cs.takeWhile Char.isDigit)
    else get_round_number cs

/-- An element of the `changes_data` list consumed by
`apply_changes_to_data`: a JSON object read through `change.get(key, "")`,
embedded as a record whose fields default to the empty string. -/
structure Change where
  ctype : Str
  user_name : Str := []
  round_name : Str := []
  role : Str := []
  schedule : Str := []
  note : Str := []
deriving DecidableEq

/-- The supporter role synonyms of `apply_changes_to_data`
(`["서포터", "서폿", "support", "supporter"]`). -/
def supSyn : List Str := ["서포터".data, "서폿".data, "support".data, "supporter".data]

/-- The dealer role synonyms (`["딜러", "딜", "dps", "dealer", "damage"]`). -/
def dealSyn : List Str := ["딜러".data, "딜".data, "dps".data, "dealer".data, "damage".data]

/-- Index of the first round with the given name (`for r in rounds: if
r.name == round_name`). -/
def findRoundIdxByName (rs : List RoundInfo) (name : Str) : Option Nat :=
  match rs with
  | [] => none
  | r :: rest =>
    if r.name = name then some 0
    else (findRoundIdxByName rest name).map (· + 1)

/-- Insertion position by round number (lines 185-192 and 344-351): the
position of the first round whose extracted number exceeds `rn`, else the
end of the list. -/
def insertPos (rs : List RoundInfo) (rn : Nat) : Nat :=
  match rs with
  | [] => 0
  | r :: rest => if get_round_number r.name > rn then 0 else insertPos rest rn + 1

/-- Insert at a position (Python `list.insert(idx, x)`). -/
def insAt (n : Nat) (x : RoundInfo) (rs : List RoundInfo) : List RoundInfo :=
  match n, rs with
  | 0, rs => x :: rs
  | _ + 1, [] => [x]
  | n + 1, r :: rest => r :: insAt n x rest

/-- Update the round at a list position. -/
def updAt (n : Nat) (f : RoundInfo → RoundInfo) (rs : List RoundInfo) : List RoundInfo :=
  match n, rs with
  | _, [] => []
  | 0, r :: rest => f r :: rest
  | n + 1, r :: rest => r :: updAt n f rest

/-- The participant-append step of the `add_participant` branch
(lines 196-208): append to the requested role list unless the user
already appears in that same list; no capacity check, and the other
role list is not consulted. -/
def addToRound (user role : Str) (r : RoundInfo) : RoundInfo :=
  if lowerStr role ∈ supSyn then
    (if r.confirmed_supporters.any (fun s => s.1 = user) then r
     else { r with confirmed_supporters := r.confirmed_supporters ++ [(user, [])] })
  else if lowerStr role ∈ dealSyn then
    (if r.confirmed_dealers.any (fun d => d.1 = user) then r
     else { r with confirmed_dealers := r.confirmed_dealers ++ [(user, [])] })
  else r

/-- The `^(\d+)(.+)$` rewrite of the `remove_participant` branch
(lines 220-226): a leading digit run followed by at least one more
character splits into a removal count and the remaining role text.  When
the role is all digits the regex backtracks, keeping the last digit as
the role text (such a role never matches any role synonym, so the final
data is unaffected either way). -/
def splitRoleCount (role : Str) : Nat × Str :=
  let ds := role.takeWhile Char.isDigit
  let rest := role.drop ds.length
  if ds = [] then (1, role)
  else if rest ≠ [] then (digitsToNat ds, rest)
  else if 2 ≤ ds.length then (digitsToNat (ds.take (ds.length - 1)), ds.drop (ds.length - 1))
  else (1, role)

/-- Strip a user from one round's supporter list. -/
def stripSup (user : Str) (r : RoundInfo) : RoundInfo :=
  { r with confirmed_supporters := r.confirmed_supporters.filter (fun s => ¬(s.1 = user)) }

/-- Strip a user from one round's dealer list. -/
def stripDeal (user : Str) (r : RoundInfo) : RoundInfo :=
  { r with confirmed_dealers := r.confirmed_dealers.filter (fun d => ¬(d.1 = user)) }

/-- The reversed-order walk of the round-unspecified removal
(lines 258-291), acting on the reversed round list: remove the user's
role entries from up to `cnt` rounds where the user appears, last round
first, leaving the remainder untouched once the count is exhausted. -/
def removeRevGo (present : RoundInfo → Bool) (strip : RoundInfo → RoundInfo) :
    Nat → List RoundInfo → List RoundInfo
  | _, [] => []
  | 0, rs => rs
  | cnt + 1, r :: rest =>
    if present r then strip r :: removeRevGo present strip cnt rest
    else r :: removeRevGo present strip (cnt + 1) rest

/-- Apply one change object to the data (the body of the `for change in
changes_data` loop of `apply_changes_to_data`, lines 157-370).  The
`changes_applied` description strings are not embedded: the claims only
concern the resulting data. -/
def applyChange (d : RaidData) (c : Change) : RaidData :=
  if c.ctype = "add_participant".data then
    if c.user_name = [] ∨ c.round_name = [] ∨ c.role = [] then d
    else
      match findRoundIdxByName d.rounds c.round_name with
      | some i => { d with rounds := updAt i (addToRound c.user_name c.role) d.rounds }
      | none =>
        let rn := get_round_number c.round_name
        if rn > 0 then
          let idx := insertPos d.rounds rn
          let inserted := insAt idx { name := c.round_name } d.rounds
          { d with rounds := updAt idx (addToRound c.user_name c.role) inserted }
        else d
  else if c.ctype = "remove_participant".data then
    if c.user_name = [] then d
    else
      let rc := if c.round_name = [] ∧ c.role ≠ [] then splitRoleCount c.role else (1, c.role)
      let cnt := rc.1
      let role := rc.2
      if c.round_name ≠ [] then
        match findRoundIdxByName d.rounds c.round_name with
        | some i =>
          if lowerStr role ∈ supSyn then { d with rounds := updAt i (stripSup c.user_name) d.rounds }
          else if lowerStr role ∈ dealSyn then { d with rounds := updAt i (stripDeal c.user_name) d.rounds }
          else if role = [] then
            { d with rounds := updAt i (fun r => stripDeal c.user_name (stripSup c.user_name r)) d.rounds }
          else d
        | none => d
      else
        if lowerStr role ∈ supSyn then
          { d with rounds := (removeRevGo
              (fun r => r.confirmed_supporters.any (fun s => s.1 = c.user_name))
              (stripSup c.user_name) cnt d.rounds.reverse).reverse }
        else if lowerStr role ∈ dealSyn then
          { d with rounds := (removeRevGo
              (fun r => r.confirmed_dealers.any (fun x => x.1 = c.user_name))
              (stripDeal c.user_name) cnt d.rounds.reverse).reverse }
        else if role = [] then
          { d with rounds := d.rounds.map (fun r => stripDeal c.user_name (stripSup c.user_name r)) }
        else d
  else if c.ctype = "update_schedule".data then
    if c.round_name = [] ∨ c.schedule = [] then d
    else
      match findRoundIdxByName d.rounds c.round_name with
      | some i => { d with rounds := updAt i (fun r => { r with when := c.schedule }) d.rounds }
      | none => d
  else if c.ctype = "add_round".data then
    if c.round_name = [] then d
    else if d.rounds.any (fun r => r.name = c.round_name) then d
    else
      let rn := get_round_number c.round_name
      let nr : RoundInfo := { name := c.round_name, when := c.schedule }
      { d with rounds := insAt (insertPos d.rounds rn) nr d.rounds }
  else if c.ctype = "update_note".data then
    if c.round_name = [] then d
    else
      match findRoundIdxByName d.rounds c.round_name with
      | some i => { d with rounds := updAt i (fun r => { r with note := c.note }) d.rounds }
      | none => d
  else d

/-- `apply_changes_to_data` (lines 149-380): apply every change in
order, then run the empty-round sweep once. -/
def apply_changes_to_data (d : RaidData) (cs : List Change) : RaidData :=
  clean_empty_rounds (cs.foldl applyChange d)

/-- The round-boundary test of `parse_message_to_data` (lines 470-473):
`^##\s+(\d+)차$`, falling back to the legacy `^(\d+)차$` form.  (The
whitespace and digit classes are matched over the ASCII characters the
renderer can produce.) -/
def roundHeaderNum (s : Str) : Option Nat :=
  let hh : Option Nat :=
    match s with
    | '#' :: '#' :: rest =>
      let sp := rest.takeWhile pyIsSpace
      let rest2 := rest.drop sp.length
      let ds := rest2.takeWhile Char.isDigit
      if sp ≠ [] ∧ ds ≠ [] ∧ rest2.drop ds.length = ['차'] then some (digitsToNat ds) else none
    | _ => none
  match hh with
  | some k => some k
  | none =>
    let ds := s.takeWhile Char.isDigit
    if ds ≠ [] ∧ s.drop ds.length = ['차'] then some (digitsToNat ds) else none

/-- Parser state: `current_section == "round"`, `current_round`, and the
accumulated `raid_data`. -/
structure PState where
  inRound : Bool
  cur : Option RoundInfo
  data : RaidData

/-- Closing a round under construction (lines 477-481 and 529-531): it is
kept only when it has at least one participant. -/
def flushCur (cur : Option RoundInfo) (d : RaidData) : RaidData :=
  match cur with
  | some r =>
    if 0 < r.confirmed_supporters.length ∨ 0 < r.confirmed_dealers.length then
      { d with rounds := d.rounds ++ [r] }
    else d
  | none => d

/-- The body of the parsing loop of `parse_message_to_data`
(lines 463-527), acting on the stripped line `s`. -/
def parseLineCore (st : PState) (s : Str) : PState :=
  if s = [] then st
  else
    match roundHeaderNum s with
    | some k =>
      { inRound := true,
        cur := some { name := natToStr k ++ ['차'] },
        data := flushCur st.cur st.data }
    | none =>
      if ¬ st.inRound then
        (if isPre "🔹".data s then
          { st with data := { st.data with info := st.data.info ++ [s] } }
         else st)
      else
        match st.cur with
        | none => st
        | some r =>
          if isPre "- when:".data s then { st with cur := some { r with when := trim (s.drop 7) } }
          else if isPre "when:".data s then { st with cur := some { r with when := trim (s.drop 5) } }
          else if isPre "- who:".data s ∨ isPre "who:".data s then st
          else if containsSub "서포터".data s ∧ containsSub [':'] s then
            (let after := afterFirst ':' s
             if trim after ≠ [] then
              { st with cur := some { r with confirmed_supporters :=
                  (splitOnChar ',' (trim after)).map (fun x => (trim x, ([] : Str))) } }
             else st)
          else if containsSub "딜러".data s ∧ containsSub [':'] s then
            (let after := afterFirst ':' s
             if trim after ≠ [] then
              { st with cur := some { r with confirmed_dealers :=
                  (splitOnChar ',' (trim after)).map (fun x => (trim x, ([] : Str))) } }
             else st)
          else if isPre "- note:".data s then { st with cur := some { r with note := trim (s.drop 7) } }
          else if isPre "note:".data s then { st with cur := some { r with note := trim (s.drop 5) } }
          else st

/-- One parsing iteration: the loop strips each line before dispatch. -/
def parseLine (st : PState) (line : Str) : PState :=
  parseLineCore st (trim line)

/-- `parse_message_to_data` (lines 447-533). -/
def parse_message_to_data (msg : Str) : RaidData :=
  let lines := splitOnChar '\n' (trim msg)
  match lines with
  | [] => { header := [] }
  | h :: rest =>
    let st := rest.foldl parseLine { inRound := false, cur := none, data := { header := h } }
    flushCur st.cur st.data

/-- The seven lines rendered for one non-empty round by
`format_data_to_message` (lines 550-564). -/
def roundLines (r : RoundInfo) : List Str :=
  [[],
   "## ".data ++ r.name,
   "- when: ".data ++ r.when,
   "- who:".data,
   "  - 서포터(".data ++ natToStr r.confirmed_supporters.length ++ ['/'] ++
     natToStr r.supporter_max ++ "): ".data ++ joinCS (r.confirmed_supporters.map Prod.fst),
   "  - 딜러(".data ++ natToStr r.confirmed_dealers.length ++ ['/'] ++
     natToStr r.dealer_max ++ "): ".data ++ joinCS (r.confirmed_dealers.map Prod.fst),
   "- note: ".data ++ r.note]

/-- The full line list rendered by `format_data_to_message`
(lines 535-566): header, optional info block, then the non-empty rounds. -/
def formatLines (d : RaidData) : List Str :=
  [d.header] ++ (if d.info.isEmpty then [] else ([] : Str) :: d.info) ++
    (d.rounds.map (fun r => if is_empty_round r then [] else roundLines r)).flatten

/-- `format_data_to_message` (lines 535-566). -/
def format_data_to_message (d : RaidData) : Str :=
  joinNL (formatLines d)

/-- The round reconstructed by the parser from the render of `r`: same
name, `when` and `note`, default capacities, and participant names with
empty character names. -/
def parsedRound (r : RoundInfo) : RoundInfo :=
  { name := r.name, when := r.when, note := r.note,
    confirmed_supporters := r.confirmed_supporters.map (fun m => (m.1, ([] : Str))),
    confirmed_dealers := r.confirmed_dealers.map (fun m => (m.1, ([] : Str))) }

/-- A text field that survives the line-oriented format: stripped and
newline-free. -/
def goodText (t : Str) : Prop := trim t = t ∧ ¬ '\n' ∈ t

/-- A participant name that survives the comma-separated list format:
non-empty, stripped, and free of commas and newlines. -/
def goodName (n : Str) : Prop := n ≠ [] ∧ trim n = n ∧ ¬ ',' ∈ n ∧ ¬ '\n' ∈ n

/-- The well-formedness conditions under which one round survives the
render/parse round trip. -/
def RoundGood (r : RoundInfo) : Prop :=
  (∃ k, r.name = natToStr k ++ "차".data) ∧
  (r.confirmed_supporters ≠ [] ∨ r.confirmed_dealers ≠ []) ∧
  goodText r.when ∧ goodText r.note ∧
  containsSub "서포터".data r.note = false ∧ containsSub "딜러".data r.note = false ∧
  (∀ n ∈ r.confirmed_supporters.map Prod.fst, goodName n) ∧
  (∀ n ∈ r.confirmed_dealers.map Prod.fst,
    goodName n ∧ containsSub "서포터".data n = false)

end RS

/-! ## Theorems -/

/-! ### Helper lemmas for the reconciliation engine -/

theorem findRIBN_none (rs : List RS.RoundInfo) (n : Str) (h : ∀ r ∈ rs, r.name ≠ n) :
    RS.findRoundIdxByName rs n = none := by
  induction rs with
  | nil => rfl
  | cons r rest ih =>
    have hr : r.name ≠ n := h r (by simp)
    simp only [RS.findRoundIdxByName, if_neg hr]
    rw [ih (fun x hx => h x (by simp [hx]))]
    rfl

theorem findRIBN_append (pre : List RS.RoundInfo) (r : RS.RoundInfo)
    (post : List RS.RoundInfo) (n : Str)
    (hpre : ∀ x ∈ pre, x.name ≠ n) (hr : r.name = n) :
    RS.findRoundIdxByName (pre ++ r :: post) n = some pre.length := by
  induction pre with
  | nil => simp [RS.findRoundIdxByName, hr]
  | cons x xs ih =>
    have hx : x.name ≠ n := hpre x (by simp)
    have ih' := ih (fun y hy => hpre y (by simp [hy]))
    simp [RS.findRoundIdxByName, hx, ih']

theorem updAt_append (pre : List RS.RoundInfo) (r : RS.RoundInfo)
    (post : List RS.RoundInfo) (f : RS.RoundInfo → RS.RoundInfo) :
    RS.updAt pre.length f (pre ++ r :: post) = pre ++ f r :: post := by
  induction pre with
  | nil => rfl
  | cons x xs ih => simp [RS.updAt, ih]

/-- C8 (amended): `update_schedule` sets the `when` of the first existing
round with the requested name, and is a silent no-op (up to the final
empty-round sweep) when no round carries that name: it never creates a
round. -/
theorem c8_update_schedule_amended (d : RS.RaidData) (rname sch : Str)
    (hrn : rname ≠ []) (hsch : sch ≠ []) :
    ((∀ r ∈ d.rounds, r.name ≠ rname) →
      RS.apply_changes_to_data d
        [{ ctype := "update_schedule".data, round_name := rname, schedule := sch }] =
      RS.clean_empty_rounds d) ∧
    (∀ pre r post, d.rounds = pre ++ r :: post → (∀ x ∈ pre, x.name ≠ rname) →
      r.name = rname →
      RS.apply_changes_to_data d
        [{ ctype := "update_schedule".data, round_name := rname, schedule := sch }] =
      RS.clean_empty_rounds { d with rounds := pre ++ { r with when := sch } :: post }) := by
  constructor
  · intro habs
    simp only [RS.apply_changes_to_data, List.foldl, RS.applyChange]
    rw [if_neg (by decide), if_neg (by decide), if_pos (by decide),
      if_neg (by simp [hrn, hsch]), findRIBN_none d.rounds rname habs]
  · intro pre r post hsplit hpre hr
    simp only [RS.apply_changes_to_data, List.foldl, RS.applyChange]
    rw [if_neg (by decide), if_neg (by decide), if_pos (by decide),
      if_neg (by simp [hrn, hsch]), hsplit, findRIBN_append pre r post rname hpre hr]
    dsimp only
    rw [updAt_append]

/-- C8 witness. -/
theorem c8_witness :
    (RS.apply_changes_to_data
      { header := "h".data, rounds := [{ name := "1차".data, when := "w".data }] }
      [{ ctype := "update_schedule".data, round_name := "1차".data,
         schedule := "sat".data }] =
      RS.clean_empty_rounds
        { header := "h".data, rounds := [{ name := "1차".data, when := "sat".data }] }) := by
  have h := (c8_update_schedule_amended
    { header := "h".data, rounds := [{ name := "1차".data, when := "w".data }] }
    "1차".data "sat".data (by decide) (by decide)).2
    [] { name := "1차".data, when := "w".data } [] rfl (by simp) rfl
  simpa using h

/-- C6 (amended): `add_participant` on an existing round appends the user
to the requested role list iff the user is not already in that same
list: the other role list is never consulted and no capacity bound is
checked; the change never surfaces an error (it only rewrites the
data). -/
theorem c6_add_participant_amended (d : RS.RaidData) (user rname : Str)
    (hu : user ≠ []) (hrn : rname ≠ [])
    (pre : List RS.RoundInfo) (r : RS.RoundInfo) (post : List RS.RoundInfo)
    (hsplit : d.rounds = pre ++ r :: post) (hpre : ∀ x ∈ pre, x.name ≠ rname)
    (hr : r.name = rname) :
    (RS.apply_changes_to_data d
      [{ ctype := "add_participant".data, user_name := user, round_name := rname,
         role := "서포터".data }] =
      RS.clean_empty_rounds { d with rounds :=
        pre ++ (if r.confirmed_supporters.any (fun s => s.1 = user) then r
                else { r with confirmed_supporters :=
                        r.confirmed_supporters ++ [(user, [])] }) :: post }) ∧
    (RS.apply_changes_to_data d
      [{ ctype := "add_participant".data, user_name := user, round_name := rname,
         role := "딜러".data }] =
      RS.clean_empty_rounds { d with rounds :=
        pre ++ (if r.confirmed_dealers.any (fun x => x.1 = user) then r
                else { r with confirmed_dealers :=
                        r.confirmed_dealers ++ [(user, [])] }) :: post }) := by
  have hfind := findRIBN_append pre r post rname hpre hr
  constructor
  · simp only [RS.apply_changes_to_data, List.foldl, RS.applyChange]
    rw [if_pos (by decide), if_neg (by simp [hu, hrn]), hsplit, hfind]
    dsimp only
    rw [updAt_append]
    simp only [RS.addToRound, if_pos (show lowerStr "서포터".data ∈ RS.supSyn by decide)]
  · simp only [RS.apply_changes_to_data, List.foldl, RS.applyChange]
    rw [if_pos (by decide), if_neg (by simp [hu, hrn]), hsplit, hfind]
    dsimp only
    rw [updAt_append]
    simp only [RS.addToRound, if_neg (show ¬ lowerStr "딜러".data ∈ RS.supSyn by decide),
      if_pos (show lowerStr "딜러".data ∈ RS.dealSyn by decide)]

/-- C6 witness. -/
theorem c6_witness :
    (RS.apply_changes_to_data
      { header := "h".data,
        rounds := [{ name := "1차".data,
                     confirmed_supporters := [("a".data, []), ("b".data, [])] }] }
      [{ ctype := "add_participant".data, user_name := "c".data,
         round_name := "1차".data, role := "서포터".data }] =
      RS.clean_empty_rounds
        { header := "h".data,
          rounds := [{ name := "1차".data, confirmed_supporters :=
                        [("a".data, []), ("b".data, []), ("c".data, [])] }] }) := by
  have h := (c6_add_participant_amended
    { header := "h".data,
      rounds := [{ name := "1차".data,
                   confirmed_supporters := [("a".data, []), ("b".data, [])] }] }
    "c".data "1차".data (by decide) (by decide)
    [] { name := "1차".data, confirmed_supporters := [("a".data, []), ("b".data, [])] }
    [] rfl (by simp) rfl).1
  rw [h]
  decide

theorem removeRevGo_zero (present : RS.RoundInfo → Bool) (strip : RS.RoundInfo → RS.RoundInfo)
    (l : List RS.RoundInfo) : RS.removeRevGo present strip 0 l = l := by
  cases l <;> rfl

theorem removeRevGo_skip (present : RS.RoundInfo → Bool) (strip : RS.RoundInfo → RS.RoundInfo)
    (a rest : List RS.RoundInfo) (cnt : Nat) (ha : ∀ x ∈ a, present x = false) :
    RS.removeRevGo present strip cnt (a ++ rest) = a ++ RS.removeRevGo present strip cnt rest := by
  induction a with
  | nil => rfl
  | cons x a' ih =>
    have hx : present x = false := ha x (by simp)
    have ih' := ih (fun y hy => ha y (by simp [hy]))
    cases cnt with
    | zero => rw [removeRevGo_zero, removeRevGo_zero]
    | succ k =>
      simp only [List.cons_append, RS.removeRevGo, hx]
      simp [ih']

/-- C7 (amended): with a role given and no round, `remove_participant`
strips the user from the matching role list of the *last* round where
the user appears (one round for the default count), leaving earlier
rounds untouched; with the role also omitted it strips the user from
both role lists of every round. -/
theorem c7_remove_amended (d : RS.RaidData) (user : Str) (hu : user ≠ [])
    (pre : List RS.RoundInfo) (r : RS.RoundInfo) (post : List RS.RoundInfo)
    (hsplit : d.rounds = pre ++ r :: post)
    (hr : r.confirmed_supporters.any (fun s => s.1 = user) = true)
    (hpost : ∀ x ∈ post, x.confirmed_supporters.any (fun s => s.1 = user) = false) :
    (RS.apply_changes_to_data d
      [{ ctype := "remove_participant".data, user_name := user, role := "서포터".data }] =
      RS.clean_empty_rounds { d with rounds := pre ++ RS.stripSup user r :: post }) ∧
    (∀ (d' : RS.RaidData) (u' : Str), u' ≠ [] →
      RS.apply_changes_to_data d'
        [{ ctype := "remove_participant".data, user_name := u' }] =
      RS.clean_empty_rounds
        { d' with rounds := d'.rounds.map (fun x => RS.stripDeal u' (RS.stripSup u' x)) }) := by
  constructor
  · have hrc : RS.splitRoleCount "서포터".data = (1, "서포터".data) := by decide
    have hwalk : (RS.removeRevGo
        (fun x => x.confirmed_supporters.any (fun s => s.1 = user))
        (RS.stripSup user) 1 d.rounds.reverse).reverse =
        pre ++ RS.stripSup user r :: post := by
      have hrev : d.rounds.reverse = post.reverse ++ (r :: pre.reverse) := by simp [hsplit]
      rw [hrev, removeRevGo_skip _ _ _ _ _ (fun x hx => hpost x (List.mem_reverse.mp hx))]
      simp only [RS.removeRevGo, hr, if_true]
      rw [removeRevGo_zero]
      simp
    simp +decide only [RS.apply_changes_to_data, List.foldl, RS.applyChange, hu, hrc,
      if_true, if_false]
    rw [hwalk]
  · intro d' u' hu'
    simp +decide only [RS.apply_changes_to_data, List.foldl, RS.applyChange, hu',
      if_true, if_false]

/-- C7 witness. -/
theorem c7_witness :
    RS.apply_changes_to_data
      { header := "h".data,
        rounds := [{ name := "1차".data, when := "t1".data,
                     confirmed_supporters := [("u".data, []), ("x".data, [])] },
                   { name := "2차".data, when := "t2".data,
                     confirmed_supporters := [("u".data, []), ("y".data, [])] }] }
      [{ ctype := "remove_participant".data, user_name := "u".data,
         role := "서포터".data }] =
    { header := "h".data,
      rounds := [{ name := "1차".data, when := "t1".data,
                   confirmed_supporters := [("u".data, []), ("x".data, [])] },
                 { name := "2차".data, when := "t2".data,
                   confirmed_supporters := [("y".data, [])] }] } := by
  rw [(c7_remove_amended
    { header := "h".data,
      rounds := [{ name := "1차".data, when := "t1".data,
                   confirmed_supporters := [("u".data, []), ("x".data, [])] },
                 { name := "2차".data, when := "t2".data,
                   confirmed_supporters := [("u".data, []), ("y".data, [])] }] }
    "u".data (by decide)
    [{ name := "1차".data, when := "t1".data,
       confirmed_supporters := [("u".data, []), ("x".data, [])] }]
    { name := "2차".data, when := "t2".data,
      confirmed_supporters := [("u".data, []), ("y".data, [])] }
    [] rfl (by decide) (by simp)).1]
  decide

/-! ### Helper lemmas for the queue engine's dequeue -/

theorem popFirst_none (p : RQ.QElem → Bool) (l : List RQ.QElem)
    (h : ∀ e ∈ l, p e = false) : RQ.popFirst p l = none := by
  induction l with
  | nil => rfl
  | cons e es ih =>
    have he : p e = false := h e (by simp)
    have ih' := ih (fun x hx => h x (by simp [hx]))
    simp [RQ.popFirst, he, ih']

theorem popFirst_first (p : RQ.QElem → Bool) (pre : List RQ.QElem) (e : RQ.QElem)
    (post : List RQ.QElem) (hpre : ∀ x ∈ pre, p x = false) (he : p e = true) :
    RQ.popFirst p (pre ++ e :: post) = some (e, pre ++ post) := by
  induction pre with
  | nil => simp [RQ.popFirst, he]
  | cons x xs ih =>
    have hx : p x = false := hpre x (by simp)
    have ih' := ih (fun y hy => hpre y (by simp [hy]))
    simp [RQ.popFirst, hx, ih']

/-- C10 (amended): `dequeue` removes exactly the first element matching
the cascading name test and the (truthy) role and positive-round
filters; on success the removed element's user counter is decremented
with a floor at zero when its `user_id` is non-empty and all counters
are left untouched when it is empty; with no match it returns `None`
and changes nothing. -/
theorem c10_dequeue_amended (q : RQ.RaidQueue) (uname : Str) (role : Option Str)
    (rnum : Option Int) :
    ((∀ e ∈ q.queue, RQ.deqMatches uname role rnum e = false) →
      RQ.dequeue q uname role rnum = (none, q)) ∧
    (∀ pre e post, q.queue = pre ++ e :: post →
      (∀ x ∈ pre, RQ.deqMatches uname role rnum x = false) →
      RQ.deqMatches uname role rnum e = true →
      RQ.dequeue q uname role rnum =
        (some e,
         { queue := pre ++ post,
           user_data := if e.user_id ≠ [] then RQ.decUP q.user_data e.user_id
                        else q.user_data })) := by
  constructor
  · intro h
    simp [RQ.dequeue, popFirst_none _ _ h]
  · intro pre e post hsplit hpre he
    simp [RQ.dequeue, hsplit, popFirst_first _ pre e post hpre he]

/-- C10 witness: a queue with a supporter `cat` sorted ahead of dealer
`bob`; dequeuing `bob` skips `cat`, removes `bob`'s request and
decrements `bob`'s counter. -/
theorem c10_witness :
    RQ.dequeue (RQ.applyOps [.enq "111".data "bob".data "dealer".data 0,
      .enq "222".data "cat".data "support".data 0]) "bob".data none none =
    (some { round := 0, user_participation_count := 1, role := "dealer".data,
            user_name := "bob".data, user_id := "111".data },
     { queue := [{ round := 0, user_participation_count := 1, role := "support".data,
                   user_name := "cat".data, user_id := "222".data }],
       user_data := [{ user_id := "111".data, user_name := "bob".data,
                       participation_count := 0 },
                     { user_id := "222".data, user_name := "cat".data,
                       participation_count := 1 }] }) := by
  have h := (c10_dequeue_amended (RQ.applyOps
      [.enq "111".data "bob".data "dealer".data 0,
       .enq "222".data "cat".data "support".data 0]) "bob".data none none).2
    [{ round := 0, user_participation_count := 1, role := "support".data,
       user_name := "cat".data, user_id := "222".data }]
    { round := 0, user_participation_count := 1, role := "dealer".data,
      user_name := "bob".data, user_id := "111".data }
    [] (by decide) (by decide) (by decide)
  rw [h]
  decide

/-! ### Helper lemmas for the participation counters -/

theorem cntUD_addUP_self (ud : List RQ.UserPD) (uid un : Str) :
    RQ.cntUD (RQ.addUP ud uid un) uid = RQ.cntUD ud uid + 1 := by
  induction ud with
  | nil => simp [RQ.addUP, RQ.cntUD, RQ.lookupUD, List.find?]
  | cons x xs ih =>
    by_cases hx : x.user_id = uid
    · simp [RQ.addUP, RQ.cntUD, RQ.lookupUD, List.find?, hx]
    · simp only [RQ.addUP, if_neg hx]
      simpa [RQ.cntUD, RQ.lookupUD, List.find?, hx] using ih

theorem cntUD_addUP_other (ud : List RQ.UserPD) (uid un u : Str) (h : u ≠ uid) :
    RQ.cntUD (RQ.addUP ud uid un) u = RQ.cntUD ud u := by
  have h' : ¬(uid = u) := fun hh => h hh.symm
  induction ud with
  | nil => simp [RQ.addUP, RQ.cntUD, RQ.lookupUD, List.find?, h']
  | cons x xs ih =>
    by_cases hx : x.user_id = uid
    · have hxu : ¬(x.user_id = u) := by rw [hx]; exact h'
      simp [RQ.addUP, RQ.cntUD, RQ.lookupUD, List.find?, hx, hxu, h']
    · by_cases hxu : x.user_id = u
      · simp [RQ.addUP, RQ.cntUD, RQ.lookupUD, List.find?, hx, hxu, h, h']
      · simp only [RQ.addUP, if_neg hx]
        simpa [RQ.cntUD, RQ.lookupUD, List.find?, hxu, h, h'] using ih

theorem cntUD_decUP_self (ud : List RQ.UserPD) (uid : Str) :
    RQ.cntUD (RQ.decUP ud uid) uid =
      if 0 < RQ.cntUD ud uid then RQ.cntUD ud uid - 1 else RQ.cntUD ud uid := by
  induction ud with
  | nil => simp [RQ.decUP, RQ.cntUD, RQ.lookupUD, List.find?]
  | cons x xs ih =>
    by_cases hx : x.user_id = uid
    · by_cases hc : 0 < x.participation_count
      · simp [RQ.decUP, RQ.cntUD, RQ.lookupUD, List.find?, hx, hc]
      · simp [RQ.decUP, RQ.cntUD, RQ.lookupUD, List.find?, hx, hc]
    · simp only [RQ.decUP, if_neg hx]
      simpa [RQ.cntUD, RQ.lookupUD, List.find?, hx] using ih

theorem cntUD_decUP_other (ud : List RQ.UserPD) (uid u : Str) (h : u ≠ uid) :
    RQ.cntUD (RQ.decUP ud uid) u = RQ.cntUD ud u := by
  have h' : ¬(uid = u) := fun hh => h hh.symm
  induction ud with
  | nil => simp [RQ.decUP, RQ.cntUD, RQ.lookupUD, List.find?]
  | cons x xs ih =>
    by_cases hx : x.user_id = uid
    · have hxu : ¬(x.user_id = u) := by rw [hx]; exact h'
      by_cases hc : 0 < x.participation_count
      · simp [RQ.decUP, RQ.cntUD, RQ.lookupUD, List.find?, hx, hc, hxu, h, h']
      · simp [RQ.decUP, RQ.cntUD, RQ.lookupUD, List.find?, hx, hc, hxu, h, h']
    · by_cases hxu : x.user_id = u
      · simp [RQ.decUP, RQ.cntUD, RQ.lookupUD, List.find?, hx, hxu, h, h']
      · simp only [RQ.decUP, if_neg hx]
        simpa [RQ.cntUD, RQ.lookupUD, List.find?, hxu, h, h'] using ih

theorem addUP_nonneg (ud : List RQ.UserPD) (uid un : Str)
    (h : ∀ x ∈ ud, 0 ≤ x.participation_count) :
    ∀ x ∈ RQ.addUP ud uid un, 0 ≤ x.participation_count := by
  induction ud with
  | nil => intro x hx; simp [RQ.addUP] at hx; simp [hx]
  | cons y ys ih =>
    intro x hx
    by_cases hy : y.user_id = uid
    · simp only [RQ.addUP, if_pos hy] at hx
      rcases List.mem_cons.mp hx with h1 | h1
      · have := h y (by simp); subst h1; simp; omega
      · exact h x (by simp [h1])
    · simp only [RQ.addUP, if_neg hy] at hx
      rcases List.mem_cons.mp hx with h1 | h1
      · subst h1; exact h x (by simp)
      · exact ih (fun z hz => h z (by simp [hz])) x h1

theorem decUP_nonneg (ud : List RQ.UserPD) (uid : Str)
    (h : ∀ x ∈ ud, 0 ≤ x.participation_count) :
    ∀ x ∈ RQ.decUP ud uid, 0 ≤ x.participation_count := by
  induction ud with
  | nil => intro x hx; simp [RQ.decUP] at hx
  | cons y ys ih =>
    intro x hx
    by_cases hy : y.user_id = uid
    · simp only [RQ.decUP, if_pos hy] at hx
      rcases List.mem_cons.mp hx with h1 | h1
      · have hyn := h y (by simp)
        by_cases hc : 0 < y.participation_count
        · rw [if_pos hc] at h1; subst h1; simp; omega
        · rw [if_neg hc] at h1; subst h1; exact hyn
      · exact h x (by simp [h1])
    · simp only [RQ.decUP, if_neg hy] at hx
      rcases List.mem_cons.mp hx with h1 | h1
      · subst h1; exact h x (by simp)
      · exact ih (fun z hz => h z (by simp [hz])) x h1

theorem cntUD_nonneg (ud : List RQ.UserPD) (u : Str)
    (h : ∀ x ∈ ud, 0 ≤ x.participation_count) : 0 ≤ RQ.cntUD ud u := by
  unfold RQ.cntUD
  cases hf : RQ.lookupUD ud u with
  | none => simp
  | some x => exact h x (List.mem_of_find?_eq_some hf)

theorem insDesc_perm (x : RQ.QElem) (l : List RQ.QElem) :
    (RQ.insDesc x l).Perm (x :: l) := by
  induction l with
  | nil => simp [RQ.insDesc]
  | cons y ys ih =>
    simp only [RQ.insDesc]
    split
    · exact List.Perm.refl _
    · exact (ih.cons y).trans (List.Perm.swap x y ys)

theorem sortQueue_perm (l : List RQ.QElem) : (RQ.sortQueue l).Perm l := by
  induction l with
  | nil => simp [RQ.sortQueue]
  | cons x xs ih =>
    exact (insDesc_perm x (RQ.sortQueue xs)).trans (ih.cons x)

theorem popFirst_some (p : RQ.QElem → Bool) (l : List RQ.QElem) (e : RQ.QElem)
    (rest : List RQ.QElem) (h : RQ.popFirst p l = some (e, rest)) :
    ∃ pre post, l = pre ++ e :: post ∧ rest = pre ++ post ∧ p e = true := by
  induction l generalizing rest with
  | nil => simp [RQ.popFirst] at h
  | cons x xs ih =>
    by_cases hx : p x = true
    · simp only [RQ.popFirst, if_pos hx] at h
      obtain ⟨he, hr⟩ := Prod.mk.injEq .. ▸ (Option.some.injEq .. ▸ h)
      exact ⟨[], xs, by simp [← he], by simp [← hr], he ▸ hx⟩
    · simp only [RQ.popFirst, if_neg hx] at h
      cases hrec : RQ.popFirst p xs with
      | none => rw [hrec] at h; simp at h
      | some pr =>
        rw [hrec] at h
        obtain ⟨r, rest'⟩ := pr
        simp only at h
        obtain ⟨he, hr⟩ := Prod.mk.injEq .. ▸ (Option.some.injEq .. ▸ h)
        obtain ⟨pre, post, h1, h2, h3⟩ := ih rest' (he ▸ hrec)
        exact ⟨x :: pre, post, by simp [h1], by simp [← hr, h2], h3⟩

theorem dequeue_none_eq (q : RQ.RaidQueue) (a : Str) (b : Option Str) (c : Option Int)
    (q' : RQ.RaidQueue) (h : RQ.dequeue q a b c = (none, q')) : q' = q := by
  unfold RQ.dequeue at h
  cases hp : RQ.popFirst (RQ.deqMatches a b c) q.queue with
  | none =>
    rw [hp] at h
    simp only [Prod.mk.injEq] at h
    exact h.2.symm
  | some pr => rw [hp] at h; obtain ⟨e, rest⟩ := pr; simp at h

theorem dequeue_some_eq (q : RQ.RaidQueue) (a : Str) (b : Option Str) (c : Option Int)
    (e : RQ.QElem) (q' : RQ.RaidQueue) (h : RQ.dequeue q a b c = (some e, q')) :
    ∃ pre post, q.queue = pre ++ e :: post ∧ q'.queue = pre ++ post ∧
      q'.user_data = (if e.user_id ≠ [] then RQ.decUP q.user_data e.user_id
                      else q.user_data) := by
  unfold RQ.dequeue at h
  cases hp : RQ.popFirst (RQ.deqMatches a b c) q.queue with
  | none => rw [hp] at h; simp at h
  | some pr =>
    rw [hp] at h
    obtain ⟨e', rest⟩ := pr
    simp only [Prod.mk.injEq, Option.some.injEq] at h
    obtain ⟨he, hq⟩ := h
    subst he
    obtain ⟨pre, post, h1, h2, _⟩ := popFirst_some _ _ _ _ hp
    exact ⟨pre, post, h1, by rw [← hq]; simpa using h2, by rw [← hq]⟩

theorem runOpsGo_nonneg (ops : List RQ.Op) :
    ∀ (q : RQ.RaidQueue) (E R : Str → Int),
      (∀ x ∈ q.user_data, 0 ≤ x.participation_count) →
      ∀ x ∈ (RQ.runOpsGo q E R ops).1.user_data, 0 ≤ x.participation_count := by
  induction ops with
  | nil => intro q E R h; simpa [RQ.runOpsGo] using h
  | cons op ops ih =>
    intro q E R h
    cases op with
    | enq uid un role rn =>
      simp only [RQ.runOpsGo]
      exact ih _ _ _ (by simpa [RQ.enqueue] using addUP_nonneg q.user_data uid un h)
    | deq un role rn =>
      simp only [RQ.runOpsGo]
      rcases hdq : RQ.dequeue q un role rn with ⟨r?, q'⟩
      cases r? with
      | none =>
        have hq := dequeue_none_eq q un role rn q' hdq
        subst hq
        exact ih _ _ _ h
      | some e =>
        obtain ⟨pre, post, _, _, h3⟩ := dequeue_some_eq q un role rn e q' hdq
        refine ih _ _ _ ?_
        rw [h3]
        by_cases hid : e.user_id ≠ []
        · rw [if_pos hid]; exact decUP_nonneg _ _ h
        · rw [if_neg hid]; exact h

theorem runOpsGo_inv (ops : List RQ.Op) (hops : ∀ op ∈ ops, RQ.opEnqNonempty op = true) :
    ∀ (q : RQ.RaidQueue) (E R : Str → Int),
      (∀ u, RQ.cntUD q.user_data u = ((q.queue.filter (fun e => e.user_id = u)).length : Int)) →
      (∀ u, E u - R u = RQ.cntUD q.user_data u) →
      (∀ e ∈ q.queue, e.user_id ≠ []) →
      (∀ u, RQ.cntUD (RQ.runOpsGo q E R ops).1.user_data u =
        (((RQ.runOpsGo q E R ops).1.queue.filter (fun e => e.user_id = u)).length : Int)) ∧
      (∀ u, (RQ.runOpsGo q E R ops).2.1 u - (RQ.runOpsGo q E R ops).2.2 u =
        RQ.cntUD (RQ.runOpsGo q E R ops).1.user_data u) := by
  induction ops with
  | nil => intro q E R h1 h2 h3; exact ⟨h1, h2⟩
  | cons op ops ih =>
    intro q E R h1 h2 h3
    have hops' : ∀ o ∈ ops, RQ.opEnqNonempty o = true := fun o ho => hops o (by simp [ho])
    cases op with
    | enq uid un role rn =>
      have huid : uid ≠ [] := by
        have := hops (.enq uid un role rn) (by simp)
        simpa [RQ.opEnqNonempty] using this
      simp only [RQ.runOpsGo]
      apply ih hops'
      · intro u
        simp only [RQ.enqueue]
        rw [((sortQueue_perm _).filter (fun e => decide (e.user_id = u))).length_eq]
        by_cases hu : u = uid
        · subst hu
          rw [cntUD_addUP_self, h1 u]
          simp [List.filter_append]
        · have h' : ¬(uid = u) := fun hh => hu hh.symm
          rw [cntUD_addUP_other _ _ _ _ hu, h1 u]
          simp [List.filter_append, h']
      · intro u
        simp only [RQ.enqueue, RQ.bump]
        by_cases hu : u = uid
        · subst hu
          rw [cntUD_addUP_self, if_pos rfl, ← h2 u]
          omega
        · rw [cntUD_addUP_other _ _ _ _ hu, if_neg hu]
          exact h2 u
      · intro e he
        simp only [RQ.enqueue] at he
        have hmm := (sortQueue_perm _).mem_iff.mp he
        rcases List.mem_append.mp hmm with h | h
        · exact h3 e h
        · simp at h; rw [h]; exact huid
    | deq un role rn =>
      simp only [RQ.runOpsGo]
      rcases hdq : RQ.dequeue q un role rn with ⟨r?, q'⟩
      cases r? with
      | none =>
        have hq := dequeue_none_eq q un role rn q' hdq
        subst hq
        exact ih hops' _ _ _ h1 h2 h3
      | some e =>
        obtain ⟨pre, post, hq1, hq2, hq3⟩ := dequeue_some_eq q un role rn e q' hdq
        have hmem : e ∈ q.queue := by rw [hq1]; simp
        have hid : e.user_id ≠ [] := h3 e hmem
        have hud : q'.user_data = RQ.decUP q.user_data e.user_id := by
          rw [hq3, if_pos hid]
        have hcnt : RQ.cntUD q.user_data e.user_id =
            ((pre.filter (fun x => x.user_id = e.user_id)).length : Int) + 1 +
            ((post.filter (fun x => x.user_id = e.user_id)).length : Int) := by
          have h1e := h1 e.user_id
          rw [hq1] at h1e
          rw [h1e]
          simp [List.filter_append]
          omega
        have hpos : 0 < RQ.cntUD q.user_data e.user_id := by
          rw [hcnt]; omega
        apply ih hops'
        · intro u
          rw [hud, hq2]
          by_cases hu : u = e.user_id
          · subst hu
            rw [cntUD_decUP_self, if_pos hpos, hcnt]
            simp [List.filter_append]
            omega
          · have h' : ¬(e.user_id = u) := fun hh => hu hh.symm
            rw [cntUD_decUP_other _ _ _ hu]
            have h1u := h1 u
            rw [hq1] at h1u
            rw [h1u]
            simp [List.filter_append, h']
        · intro u
          rw [hud]
          simp only [RQ.bump]
          by_cases hu : u = e.user_id
          · subst hu
            rw [if_pos rfl, cntUD_decUP_self, if_pos hpos, ← h2 e.user_id]
            omega
          · rw [if_neg hu, cntUD_decUP_other _ _ _ hu]
            exact h2 u
        · intro x hx
          refine h3 x ?_
          rw [hq1]
          rcases List.mem_append.mp (hq2 ▸ hx) with h | h
          · simp [h]
          · simp [h]

/-- C9 (amended): the participation counter is never negative, and —
provided every enqueue carries a non-empty user id — it equals, for
every user id, the number of enqueues minus the number of successful
dequeues that removed that user's requests. -/
theorem c9_counter_amended (ops : List RQ.Op) (u : Str) :
    0 ≤ RQ.countOf (RQ.runOps ops).1 u ∧
    ((∀ op ∈ ops, RQ.opEnqNonempty op = true) →
      RQ.countOf (RQ.runOps ops).1 u =
        (RQ.runOps ops).2.1 u - (RQ.runOps ops).2.2 u) := by
  constructor
  · have h := runOpsGo_nonneg ops {} (fun _ => 0) (fun _ => 0) (by simp)
    exact cntUD_nonneg _ _ h
  · intro hops
    have h := runOpsGo_inv ops hops {} (fun _ => 0) (fun _ => 0)
      (by intro v; simp [RQ.cntUD, RQ.lookupUD, List.find?])
      (by intro v; simp [RQ.cntUD, RQ.lookupUD, List.find?])
      (by simp)
    exact (h.2 u).symm

/-- C9 witness: two enqueues and one dequeue for the same user. -/
theorem c9_witness :
    0 ≤ RQ.countOf (RQ.runOps [.enq "1".data "a".data "support".data 0,
      .enq "1".data "a".data "dealer".data 0, .deq "a".data none none]).1 "1".data ∧
    RQ.countOf (RQ.runOps [.enq "1".data "a".data "support".data 0,
      .enq "1".data "a".data "dealer".data 0, .deq "a".data none none]).1 "1".data =
      (RQ.runOps [.enq "1".data "a".data "support".data 0,
        .enq "1".data "a".data "dealer".data 0, .deq "a".data none none]).2.1 "1".data -
      (RQ.runOps [.enq "1".data "a".data "support".data 0,
        .enq "1".data "a".data "dealer".data 0, .deq "a".data none none]).2.2 "1".data :=
  ⟨(c9_counter_amended [.enq "1".data "a".data "support".data 0,
      .enq "1".data "a".data "dealer".data 0, .deq "a".data none none] "1".data).1,
   (c9_counter_amended [.enq "1".data "a".data "support".data 0,
      .enq "1".data "a".data "dealer".data 0, .deq "a".data none none] "1".data).2
     (by decide)⟩

/-! ### Helper lemmas for the two-pass assignment -/

theorem foldl_pres {α σ : Type} (g : σ → α → σ) (P : σ → Prop)
    (h : ∀ s a, P s → P (g s a)) : ∀ (l : List α) (s : σ), P s → P (l.foldl g s) := by
  intro l
  induction l with
  | nil => intro s hs; exact hs
  | cons a l ih => intro s hs; exact ih (g s a) (h s a hs)

theorem updIdx_mem (rs : List RQ.RoundInfo) (i : Int) (f : RQ.RoundInfo → RQ.RoundInfo)
    (r' : RQ.RoundInfo) (h : r' ∈ RQ.updIdx rs i f) :
    r' ∈ rs ∨ ∃ r₀, RQ.findRound rs i = some r₀ ∧ r' = f r₀ := by
  induction rs with
  | nil => simp [RQ.updIdx] at h
  | cons r rest ih =>
    by_cases hr : r.round_index = i
    · simp only [RQ.updIdx, if_pos hr] at h
      rcases List.mem_cons.mp h with h1 | h1
      · exact Or.inr ⟨r, by simp [RQ.findRound, List.find?, hr], h1⟩
      · exact Or.inl (by simp [h1])
    · simp only [RQ.updIdx, if_neg hr] at h
      rcases List.mem_cons.mp h with h1 | h1
      · exact Or.inl (by simp [h1])
      · rcases ih h1 with h2 | ⟨r₀, hf, he⟩
        · exact Or.inl (by simp [h2])
        · exact Or.inr ⟨r₀, by simpa [RQ.findRound, List.find?, hr] using hf, he⟩

theorem updIdx_map_index (rs : List RQ.RoundInfo) (i : Int)
    (f : RQ.RoundInfo → RQ.RoundInfo) (hf : ∀ r, (f r).round_index = r.round_index) :
    (RQ.updIdx rs i f).map RQ.RoundInfo.round_index = rs.map RQ.RoundInfo.round_index := by
  induction rs with
  | nil => rfl
  | cons r rest ih =>
    by_cases hr : r.round_index = i
    · simp [RQ.updIdx, if_pos hr, hf]
    · simp [RQ.updIdx, if_neg hr, ih]

theorem insertRoundSorted_perm (rs : List RQ.RoundInfo) (nr : RQ.RoundInfo) :
    (RQ.insertRoundSorted rs nr).Perm (nr :: rs) := by
  induction rs with
  | nil => simp [RQ.insertRoundSorted]
  | cons r rest ih =>
    simp only [RQ.insertRoundSorted]
    split
    · exact List.Perm.refl _
    · exact (ih.cons r).trans (List.Perm.swap nr r rest)

theorem insAscR_perm (x : RQ.RoundInfo) (l : List RQ.RoundInfo) :
    (RQ.insAscR x l).Perm (x :: l) := by
  induction l with
  | nil => simp [RQ.insAscR]
  | cons y ys ih =>
    simp only [RQ.insAscR]
    split
    · exact List.Perm.refl _
    · exact (ih.cons y).trans (List.Perm.swap x y ys)

theorem sortRounds_perm (l : List RQ.RoundInfo) : (RQ.sortRounds l).Perm l := by
  induction l with
  | nil => simp [RQ.sortRounds]
  | cons x xs ih => exact (insAscR_perm x (RQ.sortRounds xs)).trans (ih.cons x)

theorem findRound_mem (rs : List RQ.RoundInfo) (i : Int) (r : RQ.RoundInfo)
    (h : RQ.findRound rs i = some r) : r ∈ rs ∧ r.round_index = i := by
  have h1 := List.mem_of_find?_eq_some h
  have h2 := List.find?_some h
  exact ⟨h1, by simpa using h2⟩

theorem findRound_unique (rs : List RQ.RoundInfo) (i : Int) (r : RQ.RoundInfo)
    (hd : (rs.map RQ.RoundInfo.round_index).Nodup) (hm : r ∈ rs)
    (hi : r.round_index = i) : RQ.findRound rs i = some r := by
  induction rs with
  | nil => simp at hm
  | cons x xs ih =>
    rcases List.mem_cons.mp hm with h1 | h1
    · subst h1
      simp [RQ.findRound, List.find?, hi]
    · by_cases hx : x.round_index = i
      · exfalso
        have : x.round_index ∈ xs.map RQ.RoundInfo.round_index :=
          List.mem_map.mpr ⟨r, h1, by rw [hi, hx]⟩
        exact (List.nodup_cons.mp hd).1 this
      · have := ih (List.nodup_cons.mp hd).2 h1
        simpa [RQ.findRound, List.find?, hx] using this

theorem tryAssignGo_some (smax dmax : Int) (e : RQ.QElem) (as : List Str)
    (rl : List RQ.RoundInfo) (i : Int) (h : RQ.tryAssignGo smax dmax e as rl = some i) :
    ∃ r ∈ rl, r.round_index = i ∧ ¬(RQ.ukey e.user_name i ∈ as) ∧
      ((lowerStr e.role = "support".data ∧ (r.support.length : Int) < smax) ∨
       (lowerStr e.role = "dealer".data ∧ (r.dealer.length : Int) < dmax)) := by
  induction rl with
  | nil => simp [RQ.tryAssignGo] at h
  | cons r rest ih =>
    by_cases hk : RQ.ukey e.user_name r.round_index ∈ as
    · rw [RQ.tryAssignGo, if_pos hk] at h
      obtain ⟨r', hm, hrest⟩ := ih h
      exact ⟨r', by simp [hm], hrest⟩
    · rw [RQ.tryAssignGo, if_neg hk] at h
      by_cases hs : lowerStr e.role = "support".data ∧ (r.support.length : Int) < smax
      · rw [if_pos hs] at h
        obtain hi := Option.some.injEq .. ▸ h
        exact ⟨r, by simp, hi, by rw [← hi]; exact hk, Or.inl hs⟩
      · rw [if_neg hs] at h
        by_cases hdl : lowerStr e.role = "dealer".data ∧ (r.dealer.length : Int) < dmax
        · rw [if_pos hdl] at h
          obtain hi := Option.some.injEq .. ▸ h
          exact ⟨r, by simp, hi, by rw [← hi]; exact hk, Or.inr hdl⟩
        · rw [if_neg hdl] at h
          obtain ⟨r', hm, hrest⟩ := ih h
          exact ⟨r', by simp [hm], hrest⟩

theorem foldl_max_init (l : List RQ.RoundInfo) :
    ∀ init : Int, init ≤ l.foldl (fun m x => max m x.round_index) init := by
  induction l with
  | nil => intro init; simp
  | cons x xs ih =>
    intro init
    exact le_trans (le_max_left init x.round_index) (ih (max init x.round_index))

theorem mem_le_foldl_max (l : List RQ.RoundInfo) (r : RQ.RoundInfo) (hm : r ∈ l) :
    ∀ init : Int, r.round_index ≤ l.foldl (fun m x => max m x.round_index) init := by
  induction l with
  | nil => simp at hm
  | cons x xs ih =>
    intro init
    rcases List.mem_cons.mp hm with h1 | h1
    · subst h1
      exact le_trans (le_max_right init r.round_index) (foldl_max_init xs _)
    · exact ih h1 _

theorem nextIdx_gt (rs : List RQ.RoundInfo) (r : RQ.RoundInfo) (hm : r ∈ rs) :
    r.round_index < RQ.nextIdx rs := by
  cases rs with
  | nil => simp at hm
  | cons x xs =>
    rw [RQ.nextIdx]
    rcases List.mem_cons.mp hm with h1 | h1
    · subst h1
      have := foldl_max_init xs r.round_index
      omega
    · have := mem_le_foldl_max xs r h1 x.round_index
      omega

theorem memKeysR_mono (r : RQ.RoundInfo) (as : List Str) (k : Str)
    (h : RQ.memKeysR r as) : RQ.memKeysR r (k :: as) :=
  ⟨fun m hm => List.mem_cons_of_mem _ (h.1 m hm),
   fun m hm => List.mem_cons_of_mem _ (h.2 m hm)⟩

theorem genInvA_append_support (rs : List RQ.RoundInfo) (as : List Str) (nm uid : Str)
    (i : Int) (r₀ : RQ.RoundInfo) (h : RQ.genInvA rs as)
    (hfind : RQ.findRound rs i = some r₀) (hk : ¬ RQ.ukey nm i ∈ as) :
    RQ.genInvA (RQ.updIdx rs i (fun r => { r with support := r.support ++ [(nm, uid)] }))
      (RQ.ukey nm i :: as) := by
  obtain ⟨hnd, hall⟩ := h
  obtain ⟨hr0mem, hr0idx⟩ := findRound_mem rs i r₀ hfind
  obtain ⟨⟨hks, hkd⟩, hnds, hndd, hcross⟩ := hall r₀ hr0mem
  have hnotsup : ¬ nm ∈ r₀.support.map Prod.fst := by
    intro hmem2
    obtain ⟨m, hm, hmeq⟩ := List.mem_map.mp hmem2
    have := hks m hm
    rw [hr0idx, hmeq] at this
    exact hk this
  have hnotdeal : ¬ nm ∈ r₀.dealer.map Prod.fst := by
    intro hmem2
    obtain ⟨m, hm, hmeq⟩ := List.mem_map.mp hmem2
    have := hkd m hm
    rw [hr0idx, hmeq] at this
    exact hk this
  constructor
  · rw [updIdx_map_index rs i
      (fun r => { r with support := r.support ++ [(nm, uid)] }) (fun r => rfl)]
    exact hnd
  · intro r' hr'
    rcases updIdx_mem rs i _ r' hr' with hmem | ⟨r₁, hf1, he1⟩
    · obtain ⟨hk1, hnd1⟩ := hall r' hmem
      exact ⟨memKeysR_mono _ _ _ hk1, hnd1⟩
    · have hr10 : r₁ = r₀ := by
        rw [hfind] at hf1
        exact (Option.some.injEq .. ▸ hf1).symm
      subst hr10
      subst he1
      refine ⟨⟨?_, ?_⟩, ?_, ?_, ?_⟩
      · intro m hm
        simp only [List.mem_append] at hm
        rcases hm with hm | hm
        · exact List.mem_cons_of_mem _ (by simpa [hr0idx] using hks m hm)
        · simp at hm
          simp [hm, hr0idx]
      · intro m hm
        exact List.mem_cons_of_mem _ (by simpa [hr0idx] using hkd m hm)
      · simp only [List.map_append]
        rw [List.nodup_append]
        refine ⟨hnds, by simp, ?_⟩
        intro a ha hb
        simp at hb
        rw [hb] at ha
        exact hnotsup ha
      · exact hndd
      · intro n hn
        simp only [List.map_append, List.mem_append] at hn
        rcases hn with hn | hn
        · exact hcross n hn
        · simp at hn
          rw [hn]
          exact hnotdeal

theorem genInvA_append_dealer (rs : List RQ.RoundInfo) (as : List Str) (nm uid : Str)
    (i : Int) (r₀ : RQ.RoundInfo) (h : RQ.genInvA rs as)
    (hfind : RQ.findRound rs i = some r₀) (hk : ¬ RQ.ukey nm i ∈ as) :
    RQ.genInvA (RQ.updIdx rs i (fun r => { r with dealer := r.dealer ++ [(nm, uid)] }))
      (RQ.ukey nm i :: as) := by
  obtain ⟨hnd, hall⟩ := h
  obtain ⟨hr0mem, hr0idx⟩ := findRound_mem rs i r₀ hfind
  obtain ⟨⟨hks, hkd⟩, hnds, hndd, hcross⟩ := hall r₀ hr0mem
  have hnotsup : ¬ nm ∈ r₀.support.map Prod.fst := by
    intro hmem2
    obtain ⟨m, hm, hmeq⟩ := List.mem_map.mp hmem2
    have := hks m hm
    rw [hr0idx, hmeq] at this
    exact hk this
  have hnotdeal : ¬ nm ∈ r₀.dealer.map Prod.fst := by
    intro hmem2
    obtain ⟨m, hm, hmeq⟩ := List.mem_map.mp hmem2
    have := hkd m hm
    rw [hr0idx, hmeq] at this
    exact hk this
  constructor
  · rw [updIdx_map_index rs i
      (fun r => { r with dealer := r.dealer ++ [(nm, uid)] }) (fun r => rfl)]
    exact hnd
  · intro r' hr'
    rcases updIdx_mem rs i _ r' hr' with hmem | ⟨r₁, hf1, he1⟩
    · obtain ⟨hk1, hnd1⟩ := hall r' hmem
      exact ⟨memKeysR_mono _ _ _ hk1, hnd1⟩
    · have hr10 : r₁ = r₀ := by
        rw [hfind] at hf1
        exact (Option.some.injEq .. ▸ hf1).symm
      subst hr10
      subst he1
      refine ⟨⟨?_, ?_⟩, ?_, ?_, ?_⟩
      · intro m hm
        exact List.mem_cons_of_mem _ (by simpa [hr0idx] using hks m hm)
      · intro m hm
        simp only [List.mem_append] at hm
        rcases hm with hm | hm
        · exact List.mem_cons_of_mem _ (by simpa [hr0idx] using hkd m hm)
        · simp at hm
          simp [hm, hr0idx]
      · exact hnds
      · simp only [List.map_append]
        rw [List.nodup_append]
        refine ⟨hndd, by simp, ?_⟩
        intro a ha hb
        simp at hb
        rw [hb] at ha
        exact hnotdeal ha
      · intro n hn
        simp only [List.map_append, List.mem_append]
        intro hmem
        rcases hmem with hm | hm
        · exact hcross n hn hm
        · simp at hm
          rw [hm] at hn
          exact hnotsup hn

theorem memKeysR_sub (r : RQ.RoundInfo) (as as' : List Str)
    (hsub : ∀ k ∈ as, k ∈ as') (h : RQ.memKeysR r as) : RQ.memKeysR r as' :=
  ⟨fun m hm => hsub _ (h.1 m hm), fun m hm => hsub _ (h.2 m hm)⟩

theorem findRound_insert_self (rs : List RQ.RoundInfo) (i : Int)
    (hfresh : ∀ r ∈ rs, ¬ r.round_index = i) :
    RQ.findRound (RQ.insertRoundSorted rs { round_index := i }) i =
      some { round_index := i } := by
  induction rs with
  | nil => simp [RQ.insertRoundSorted, RQ.findRound, List.find?]
  | cons r rest ih =>
    simp only [RQ.insertRoundSorted]
    split
    · simp [RQ.findRound, List.find?]
    · have hr := hfresh r (by simp)
      have := ih (fun x hx => hfresh x (by simp [hx]))
      simpa [RQ.findRound, List.find?, hr] using this

theorem genInvA_insert (rs : List RQ.RoundInfo) (as : List Str) (i : Int)
    (h : RQ.genInvA rs as) (hfresh : ∀ r ∈ rs, ¬ r.round_index = i) :
    RQ.genInvA (RQ.insertRoundSorted rs { round_index := i }) as := by
  obtain ⟨hnd, hall⟩ := h
  have hperm := insertRoundSorted_perm rs { round_index := i }
  constructor
  · have hp2 : ((RQ.insertRoundSorted rs { round_index := i }).map
        RQ.RoundInfo.round_index).Perm
        (i :: rs.map RQ.RoundInfo.round_index) := by
      simpa using hperm.map RQ.RoundInfo.round_index
    rw [hp2.nodup_iff, List.nodup_cons]
    refine ⟨?_, hnd⟩
    intro hmem
    obtain ⟨r, hr, hri⟩ := List.mem_map.mp hmem
    exact hfresh r hr hri
  · intro r' hr'
    rcases List.mem_cons.mp (hperm.mem_iff.mp hr') with h1 | h1
    · subst h1
      exact ⟨⟨by simp, by simp⟩, by simp [RQ.noDupRound]⟩
    · exact hall r' h1

theorem genInvA_snoc (rs : List RQ.RoundInfo) (as as' : List Str) (nr : RQ.RoundInfo)
    (h : RQ.genInvA rs as) (hsub : ∀ k ∈ as, k ∈ as')
    (hgt : ∀ r ∈ rs, r.round_index < nr.round_index)
    (hnrk : RQ.memKeysR nr as') (hnrd : RQ.noDupRound nr) :
    RQ.genInvA (rs ++ [nr]) as' := by
  obtain ⟨hnd, hall⟩ := h
  constructor
  · rw [List.map_append, List.nodup_append]
    refine ⟨hnd, by simp, ?_⟩
    intro a ha hb
    obtain ⟨r, hr, hri⟩ := List.mem_map.mp ha
    have := hgt r hr
    simp at hb
    omega
  · intro r' hr'
    rcases List.mem_append.mp hr' with h1 | h1
    · obtain ⟨hk1, hnd1⟩ := hall r' h1
      exact ⟨memKeysR_sub _ _ _ hsub hk1, hnd1⟩
    · simp at h1
      subst h1
      exact ⟨hnrk, hnrd⟩

theorem pass1Step_invA (smax dmax : Int) (s : RQ.GenState) (e : RQ.QElem)
    (h : RQ.genInvA s.rounds s.assigned) :
    RQ.genInvA (RQ.pass1Step smax dmax s e).rounds (RQ.pass1Step smax dmax s e).assigned := by
  unfold RQ.pass1Step
  by_cases hrd : e.round > 0
  swap
  · rw [if_neg hrd]; exact h
  rw [if_pos hrd]
  cases hf0 : RQ.findRound s.rounds e.round with
  | some r0 =>
    have h1 : RQ.genInvA s.rounds s.assigned := h
    simp only [hf0]
    by_cases hk : RQ.ukey e.user_name e.round ∈ s.assigned
    · rw [if_pos hk]; exact h1
    · rw [if_neg hk]
      by_cases hs : lowerStr e.role = "support".data ∧ ((r0.support.length : Int) < smax)
      · rw [if_pos hs]
        exact genInvA_append_support _ _ _ _ _ _ h1 hf0 hk
      · rw [if_neg hs]
        by_cases hdl : lowerStr e.role = "dealer".data ∧ ((r0.dealer.length : Int) < dmax)
        · rw [if_pos hdl]
          exact genInvA_append_dealer _ _ _ _ _ _ h1 hf0 hk
        · rw [if_neg hdl]
          exact h1
  | none =>
    have hfresh : ∀ r ∈ s.rounds, ¬ r.round_index = e.round := by
      intro r hr
      have := List.find?_eq_none.mp hf0 r hr
      simpa using this
    have h1 : RQ.genInvA (RQ.insertRoundSorted s.rounds { round_index := e.round })
        s.assigned := genInvA_insert _ _ _ h hfresh
    have hfind := findRound_insert_self s.rounds e.round hfresh
    simp only [hf0, hfind]
    by_cases hk : RQ.ukey e.user_name e.round ∈ s.assigned
    · rw [if_pos hk]; exact h1
    · rw [if_neg hk]
      by_cases hs : lowerStr e.role = "support".data ∧
          ((({ round_index := e.round } : RQ.RoundInfo).support.length : Int) < smax)
      · rw [if_pos hs]
        exact genInvA_append_support _ _ _ _ _ _ h1 hfind hk
      · rw [if_neg hs]
        by_cases hdl : lowerStr e.role = "dealer".data ∧
            ((({ round_index := e.round } : RQ.RoundInfo).dealer.length : Int) < dmax)
        · rw [if_pos hdl]
          exact genInvA_append_dealer _ _ _ _ _ _ h1 hfind hk
        · rw [if_neg hdl]
          exact h1

theorem pass2Step_invA (smax dmax : Int) (s : RQ.GenState) (e : RQ.QElem)
    (h : RQ.genInvA s.rounds s.assigned) :
    RQ.genInvA (RQ.pass2Step smax dmax s e).rounds (RQ.pass2Step smax dmax s e).assigned := by
  unfold RQ.pass2Step
  cases ht : RQ.tryAssignGo smax dmax e s.assigned (RQ.sortRounds s.rounds) with
  | some i =>
    dsimp only
    obtain ⟨rS, hmemS, hidx, hk, _⟩ := tryAssignGo_some _ _ _ _ _ _ ht
    have hmem : rS ∈ s.rounds := (sortRounds_perm s.rounds).mem_iff.mp hmemS
    have hfind : RQ.findRound s.rounds i = some rS := findRound_unique _ _ _ h.1 hmem hidx
    by_cases hrole : lowerStr e.role = "support".data
    · rw [if_pos hrole]
      exact genInvA_append_support _ _ _ _ _ _ h hfind hk
    · rw [if_neg hrole]
      exact genInvA_append_dealer _ _ _ _ _ _ h hfind hk
  | none =>
    dsimp only
    by_cases hrole : lowerStr e.role = "support".data
    · rw [if_pos hrole]
      refine genInvA_snoc _ _ _ _ h (fun k hk => List.mem_cons_of_mem _ hk)
        (fun r hr => nextIdx_gt s.rounds r hr) ⟨?_, ?_⟩ (by simp [RQ.noDupRound])
      · intro m hm
        simp at hm
        simp [hm]
      · intro m hm
        simp at hm
    · rw [if_neg hrole]
      refine genInvA_snoc _ _ _ _ h (fun k hk => List.mem_cons_of_mem _ hk)
        (fun r hr => nextIdx_gt s.rounds r hr) ⟨?_, ?_⟩ (by simp [RQ.noDupRound])
      · intro m hm
        simp at hm
      · intro m hm
        simp at hm
        simp [hm]

theorem capOK_insert (smax dmax : Int) (rs : List RQ.RoundInfo) (i : Int)
    (hs : 0 ≤ smax) (hd : 0 ≤ dmax) (hc : RQ.capOK smax dmax rs) :
    RQ.capOK smax dmax (RQ.insertRoundSorted rs { round_index := i }) := by
  intro r hr
  rcases List.mem_cons.mp ((insertRoundSorted_perm rs _).mem_iff.mp hr) with h1 | h1
  · subst h1; simpa using ⟨hs, hd⟩
  · exact hc r h1

theorem capOK_update_support (smax dmax : Int) (rs : List RQ.RoundInfo) (i : Int)
    (nm uid : Str) (r₀ : RQ.RoundInfo) (hfind : RQ.findRound rs i = some r₀)
    (hcap : (r₀.support.length : Int) < smax) (hc : RQ.capOK smax dmax rs) :
    RQ.capOK smax dmax
      (RQ.updIdx rs i (fun r => { r with support := r.support ++ [(nm, uid)] })) := by
  intro r' hr'
  rcases updIdx_mem rs i _ r' hr' with hmem | ⟨r₁, hf1, he1⟩
  · exact hc r' hmem
  · have hr10 : r₁ = r₀ := by
      rw [hfind] at hf1
      exact (Option.some.injEq .. ▸ hf1).symm
    have hcold := (hc r₀ (findRound_mem rs i r₀ hfind).1).2
    rw [hr10] at he1
    subst he1
    constructor
    · simp only [List.length_append, List.length_singleton]
      push_cast
      omega
    · exact hcold

theorem capOK_update_dealer (smax dmax : Int) (rs : List RQ.RoundInfo) (i : Int)
    (nm uid : Str) (r₀ : RQ.RoundInfo) (hfind : RQ.findRound rs i = some r₀)
    (hcap : (r₀.dealer.length : Int) < dmax) (hc : RQ.capOK smax dmax rs) :
    RQ.capOK smax dmax
      (RQ.updIdx rs i (fun r => { r with dealer := r.dealer ++ [(nm, uid)] })) := by
  intro r' hr'
  rcases updIdx_mem rs i _ r' hr' with hmem | ⟨r₁, hf1, he1⟩
  · exact hc r' hmem
  · have hr10 : r₁ = r₀ := by
      rw [hfind] at hf1
      exact (Option.some.injEq .. ▸ hf1).symm
    have hcold := (hc r₀ (findRound_mem rs i r₀ hfind).1).1
    rw [hr10] at he1
    subst he1
    refine ⟨hcold, ?_⟩
    simp only [List.length_append, List.length_singleton]
    push_cast
    omega

theorem pass1Step_cap (smax dmax : Int) (hs : 0 ≤ smax) (hd : 0 ≤ dmax)
    (s : RQ.GenState) (e : RQ.QElem) (hc : RQ.capOK smax dmax s.rounds) :
    RQ.capOK smax dmax (RQ.pass1Step smax dmax s e).rounds := by
  unfold RQ.pass1Step
  by_cases hrd : e.round > 0
  swap
  · rw [if_neg hrd]; exact hc
  rw [if_pos hrd]
  cases hf0 : RQ.findRound s.rounds e.round with
  | some r0 =>
    have h1 : RQ.capOK smax dmax s.rounds := hc
    simp only [hf0]
    by_cases hk : RQ.ukey e.user_name e.round ∈ s.assigned
    · rw [if_pos hk]; exact h1
    · rw [if_neg hk]
      by_cases hsup : lowerStr e.role = "support".data ∧ ((r0.support.length : Int) < smax)
      · rw [if_pos hsup]
        exact capOK_update_support _ _ _ _ _ _ _ hf0 hsup.2 h1
      · rw [if_neg hsup]
        by_cases hdl : lowerStr e.role = "dealer".data ∧ ((r0.dealer.length : Int) < dmax)
        · rw [if_pos hdl]
          exact capOK_update_dealer _ _ _ _ _ _ _ hf0 hdl.2 h1
        · rw [if_neg hdl]
          exact h1
  | none =>
    have hfresh : ∀ r ∈ s.rounds, ¬ r.round_index = e.round := by
      intro r hr
      have := List.find?_eq_none.mp hf0 r hr
      simpa using this
    have h1 := capOK_insert smax dmax s.rounds e.round hs hd hc
    have hfind := findRound_insert_self s.rounds e.round hfresh
    simp only [hf0, hfind]
    by_cases hk : RQ.ukey e.user_name e.round ∈ s.assigned
    · rw [if_pos hk]; exact h1
    · rw [if_neg hk]
      by_cases hsup : lowerStr e.role = "support".data ∧
          ((({ round_index := e.round } : RQ.RoundInfo).support.length : Int) < smax)
      · rw [if_pos hsup]
        exact capOK_update_support _ _ _ _ _ _ _ hfind hsup.2 h1
      · rw [if_neg hsup]
        by_cases hdl : lowerStr e.role = "dealer".data ∧
            ((({ round_index := e.round } : RQ.RoundInfo).dealer.length : Int) < dmax)
        · rw [if_pos hdl]
          exact capOK_update_dealer _ _ _ _ _ _ _ hfind hdl.2 h1
        · rw [if_neg hdl]
          exact h1

theorem pass2Step_cap (smax dmax : Int) (hs : 1 ≤ smax) (hd : 1 ≤ dmax)
    (s : RQ.GenState) (e : RQ.QElem) (hA : RQ.genInvA s.rounds s.assigned)
    (hc : RQ.capOK smax dmax s.rounds) :
    RQ.capOK smax dmax (RQ.pass2Step smax dmax s e).rounds := by
  unfold RQ.pass2Step
  cases ht : RQ.tryAssignGo smax dmax e s.assigned (RQ.sortRounds s.rounds) with
  | some i =>
    dsimp only
    obtain ⟨rS, hmemS, hidx, hk, hdisj⟩ := tryAssignGo_some _ _ _ _ _ _ ht
    have hmem : rS ∈ s.rounds := (sortRounds_perm s.rounds).mem_iff.mp hmemS
    have hfind : RQ.findRound s.rounds i = some rS := findRound_unique _ _ _ hA.1 hmem hidx
    by_cases hrole : lowerStr e.role = "support".data
    · rw [if_pos hrole]
      have hcap : (rS.support.length : Int) < smax := by
        rcases hdisj with ⟨_, h2⟩ | ⟨h1, _⟩
        · exact h2
        · exfalso
          rw [hrole] at h1
          exact absurd h1 (by decide)
      exact capOK_update_support _ _ _ _ _ _ _ hfind hcap hc
    · rw [if_neg hrole]
      have hcap : (rS.dealer.length : Int) < dmax := by
        rcases hdisj with ⟨h1, _⟩ | ⟨_, h2⟩
        · exact absurd h1 hrole
        · exact h2
      exact capOK_update_dealer _ _ _ _ _ _ _ hfind hcap hc
  | none =>
    dsimp only
    by_cases hrole : lowerStr e.role = "support".data
    · rw [if_pos hrole]
      intro r hr
      rcases List.mem_append.mp hr with h1 | h1
      · exact hc r h1
      · simp at h1
        subst h1
        constructor
        · simp; omega
        · simp; omega
    · rw [if_neg hrole]
      intro r hr
      rcases List.mem_append.mp hr with h1 | h1
      · exact hc r h1
      · simp at h1
        subst h1
        constructor
        · simp; omega
        · simp; omega

theorem generateRounds_noDup (q : RQ.RaidQueue) (smax dmax : Int) :
    ∀ r ∈ RQ.generateScheduleRounds q smax dmax, RQ.noDupRound r := by
  have h1 : RQ.genInvA
      (q.queue.foldl (RQ.pass1Step smax dmax)
        { rounds := [], assigned := [], rem := q.queue }).rounds
      (q.queue.foldl (RQ.pass1Step smax dmax)
        { rounds := [], assigned := [], rem := q.queue }).assigned := by
    refine foldl_pres (RQ.pass1Step smax dmax)
      (fun s => RQ.genInvA s.rounds s.assigned) ?_ q.queue _ ?_
    · intro s a hs
      exact pass1Step_invA _ _ _ _ hs
    · exact ⟨by simp, by simp⟩
  have h1' : RQ.genInvA
      (if ¬(q.queue.any (fun e => e.round > 0)) = true ∧
          (q.queue.foldl (RQ.pass1Step smax dmax)
            { rounds := [], assigned := [], rem := q.queue }).rounds = []
       then [{ round_index := 1 }]
       else (q.queue.foldl (RQ.pass1Step smax dmax)
            { rounds := [], assigned := [], rem := q.queue }).rounds)
      (q.queue.foldl (RQ.pass1Step smax dmax)
        { rounds := [], assigned := [], rem := q.queue }).assigned := by
    split
    · refine ⟨by simp, ?_⟩
      intro r hr
      simp at hr
      subst hr
      exact ⟨⟨by simp, by simp⟩, by simp [RQ.noDupRound]⟩
    · exact h1
  have h2 := foldl_pres (RQ.pass2Step smax dmax)
    (fun s => RQ.genInvA s.rounds s.assigned)
    (fun s a hs => pass2Step_invA _ _ _ _ hs)
    (RQ.sortRemaining (q.queue.foldl (RQ.pass1Step smax dmax)
        { rounds := [], assigned := [], rem := q.queue }).rem)
    { rounds := (if ¬(q.queue.any (fun e => e.round > 0)) = true ∧
          (q.queue.foldl (RQ.pass1Step smax dmax)
            { rounds := [], assigned := [], rem := q.queue }).rounds = []
        then [{ round_index := 1 }]
        else (q.queue.foldl (RQ.pass1Step smax dmax)
            { rounds := [], assigned := [], rem := q.queue }).rounds),
      assigned := (q.queue.foldl (RQ.pass1Step smax dmax)
        { rounds := [], assigned := [], rem := q.queue }).assigned,
      rem := [] } h1'
  intro r hr
  exact (h2.2 r hr).2

theorem generateRounds_cap (q : RQ.RaidQueue) (smax dmax : Int)
    (hs : 1 ≤ smax) (hd : 1 ≤ dmax) :
    RQ.capOK smax dmax (RQ.generateScheduleRounds q smax dmax) := by
  have h1 := foldl_pres (RQ.pass1Step smax dmax)
    (fun s => RQ.genInvA s.rounds s.assigned ∧ RQ.capOK smax dmax s.rounds)
    (fun s a hsa => ⟨pass1Step_invA _ _ _ _ hsa.1,
      pass1Step_cap _ _ (by omega) (by omega) _ _ hsa.2⟩)
    q.queue { rounds := [], assigned := [], rem := q.queue }
    ⟨⟨by simp, by simp⟩, by intro r hr; simp at hr⟩
  have h1' : RQ.genInvA
      (if ¬(q.queue.any (fun e => e.round > 0)) = true ∧
          (q.queue.foldl (RQ.pass1Step smax dmax)
            { rounds := [], assigned := [], rem := q.queue }).rounds = []
       then [{ round_index := 1 }]
       else (q.queue.foldl (RQ.pass1Step smax dmax)
            { rounds := [], assigned := [], rem := q.queue }).rounds)
      (q.queue.foldl (RQ.pass1Step smax dmax)
        { rounds := [], assigned := [], rem := q.queue }).assigned ∧
      RQ.capOK smax dmax
      (if ¬(q.queue.any (fun e => e.round > 0)) = true ∧
          (q.queue.foldl (RQ.pass1Step smax dmax)
            { rounds := [], assigned := [], rem := q.queue }).rounds = []
       then [{ round_index := 1 }]
       else (q.queue.foldl (RQ.pass1Step smax dmax)
            { rounds := [], assigned := [], rem := q.queue }).rounds) := by
    split
    · refine ⟨⟨by simp, ?_⟩, ?_⟩
      · intro r hr
        simp at hr
        subst hr
        exact ⟨⟨by simp, by simp⟩, by simp [RQ.noDupRound]⟩
      · intro r hr
        simp at hr
        subst hr
        exact ⟨by simp; omega, by simp; omega⟩
    · exact h1
  have h2 := foldl_pres (RQ.pass2Step smax dmax)
    (fun s => RQ.genInvA s.rounds s.assigned ∧ RQ.capOK smax dmax s.rounds)
    (fun s a hsa => ⟨pass2Step_invA _ _ _ _ hsa.1,
      pass2Step_cap _ _ hs hd _ _ hsa.1 hsa.2⟩)
    (RQ.sortRemaining (q.queue.foldl (RQ.pass1Step smax dmax)
        { rounds := [], assigned := [], rem := q.queue }).rem)
    { rounds := (if ¬(q.queue.any (fun e => e.round > 0)) = true ∧
          (q.queue.foldl (RQ.pass1Step smax dmax)
            { rounds := [], assigned := [], rem := q.queue }).rounds = []
        then [{ round_index := 1 }]
        else (q.queue.foldl (RQ.pass1Step smax dmax)
            { rounds := [], assigned := [], rem := q.queue }).rounds),
      assigned := (q.queue.foldl (RQ.pass1Step smax dmax)
        { rounds := [], assigned := [], rem := q.queue }).assigned,
      rem := [] } h1'
  exact h2.2

/-- C4: in every schedule generated from any sequence of enqueue/dequeue
operations, no user name appears in both the support and the dealer list
of one round, nor twice within either list. -/
theorem c4_no_duplicates (ops : List RQ.Op) (smax dmax : Int) :
    ∀ r ∈ RQ.generateScheduleRounds (RQ.applyOps ops) smax dmax,
      (r.support.map Prod.fst).Nodup ∧ (r.dealer.map Prod.fst).Nodup ∧
      ∀ n ∈ r.support.map Prod.fst, ¬ n ∈ r.dealer.map Prod.fst := by
  intro r hr
  exact generateRounds_noDup (RQ.applyOps ops) smax dmax r hr

/-- C4 witness: the concrete round generated for one supporter and one
dealer request has duplicate-free, disjoint member lists. -/
theorem c4_witness :
    ({ round_index := 1, support := [("A".data, "1".data)],
       dealer := [("B".data, "2".data)] } : RQ.RoundInfo) ∈
      RQ.generateScheduleRounds
        (RQ.applyOps [.enq "1".data "A".data "support".data 1,
          .enq "2".data "B".data "dealer".data 0]) 2 6 ∧
    (([("A".data, "1".data)] : List (Str × Str)).map Prod.fst).Nodup ∧
    (([("B".data, "2".data)] : List (Str × Str)).map Prod.fst).Nodup ∧
    ∀ n ∈ ([("A".data, "1".data)] : List (Str × Str)).map Prod.fst,
      ¬ n ∈ ([("B".data, "2".data)] : List (Str × Str)).map Prod.fst :=
  ⟨by decide,
   c4_no_duplicates [.enq "1".data "A".data "support".data 1,
     .enq "2".data "B".data "dealer".data 0] 2 6
     { round_index := 1, support := [("A".data, "1".data)],
       dealer := [("B".data, "2".data)] } (by decide)⟩

/-- C3 (amended): with at least one slot of capacity per role, every
generated round respects both capacity bounds, for any sequence of
enqueue/dequeue operations. -/
theorem c3_capacity_amended (ops : List RQ.Op) (smax dmax : Int)
    (hs : 1 ≤ smax) (hd : 1 ≤ dmax) :
    ∀ r ∈ RQ.generateScheduleRounds (RQ.applyOps ops) smax dmax,
      (r.support.length : Int) ≤ smax ∧ (r.dealer.length : Int) ≤ dmax := by
  intro r hr
  exact generateRounds_cap (RQ.applyOps ops) smax dmax hs hd r hr

/-- C3 witness. -/
theorem c3_witness :
    (1 : Int) ≤ 1 ∧
    ∀ r ∈ RQ.generateScheduleRounds
      (RQ.applyOps [.enq "1".data "A".data "support".data 1,
        .enq "2".data "B".data "support".data 1]) 1 6,
      (r.support.length : Int) ≤ 1 ∧ (r.dealer.length : Int) ≤ 6 :=
  ⟨by decide,
   c3_capacity_amended [.enq "1".data "A".data "support".data 1,
     .enq "2".data "B".data "support".data 1] 1 6 (by decide) (by decide)⟩

/-- C1: the claim states that an explicit-round request whose target
round is at capacity is never placed anywhere.  The code contradicts its
own comment (line 333: the second pass is for "elements whose round is
0"): the capacity-skipped explicit request stays in the working copy and
the second pass overflows it into a newly created round.  Here `B`
explicitly requests round 1 (support, capacity 1, already filled by `A`)
and ends up in a fresh round 2. -/
theorem c1_explicit_round_capacity_overflow :
    RQ.generateScheduleRounds (RQ.applyOps
      [.enq "1".data "A".data "support".data 1,
       .enq "2".data "B".data "support".data 1]) 1 6 =
    [{ round_index := 1, support := [("A".data, "1".data)] },
     { round_index := 2, support := [("B".data, "2".data)] }] := by decide

/-- C2: the claim states that explicit-round requests sort before
round-unspecified ones.  The sort key maps an explicit round to `-1` and
no round to `0` and then sorts descending (`reverse=True`), so the code
puts round-unspecified requests first, contradicting its own comments
(lines 54 and 56).  `A` enqueued first with round 1 ends up after `B`
with round 0. -/
theorem c2_sort_puts_unspecified_round_first :
    (RQ.applyOps [.enq "1".data "A".data "dealer".data 1,
                  .enq "2".data "B".data "dealer".data 0]).queue =
    [{ round := 0, user_participation_count := 1, role := "dealer".data,
       user_name := "B".data, user_id := "2".data },
     { round := 1, user_participation_count := 1, role := "dealer".data,
       user_name := "A".data, user_id := "1".data }] := by decide

/-- C3, counterexample: with `support_max = 0` the second pass still
creates a brand-new round holding one supporter, so a rendered round
exceeds the capacity argument. -/
theorem c3_counterexample :
    ∃ r ∈ RQ.generateScheduleRounds
      (RQ.applyOps [.enq "u1".data "A".data "support".data 0]) 0 6,
      ¬((r.support.length : Int) ≤ 0) := by decide

/-- C5, counterexample: a round with no participants but a non-empty
`when` is not an empty round (so the claim's premise holds), yet
`parse_message_to_data` keeps only rounds with at least one participant,
so the parse of the render loses the round: the round count drops from
1 to 0. -/
theorem c5_counterexample :
    (RS.parse_message_to_data (RS.format_data_to_message
      { header := "h".data,
        rounds := [{ name := "1차".data, when := "x".data }] })).rounds.length = 0 ∧
    RS.is_empty_round { name := "1차".data, when := "x".data } = false := by decide

/-- C6, counterexample: `add_participant` performs no capacity check: a
round whose supporter list is already at `supporter_max = 2` still gets
a third supporter appended, where the claim requires a silent no-op. -/
theorem c6_counterexample :
    (RS.apply_changes_to_data
      { header := "h".data,
        rounds := [{ name := "1차".data,
                     confirmed_supporters := [("a".data, []), ("b".data, [])] }] }
      [{ ctype := "add_participant".data, user_name := "c".data,
         round_name := "1차".data, role := "서포터".data }]).rounds.map
      (fun r => (r.confirmed_supporters.length, r.supporter_max)) = [(3, 2)] := by decide

/-- C7, counterexample: a `remove_participant` with a role but no round
removes the user from the *last* matching round only (removal count 1),
not from every round: after removing supporter `u` with no round given,
`u` is still a supporter of round `1차`. -/
theorem c7_counterexample :
    (RS.apply_changes_to_data
      { header := "h".data,
        rounds := [{ name := "1차".data, when := "t1".data,
                     confirmed_supporters := [("u".data, []), ("x".data, [])] },
                   { name := "2차".data, when := "t2".data,
                     confirmed_supporters := [("u".data, []), ("y".data, [])] }] }
      [{ ctype := "remove_participant".data, user_name := "u".data,
         role := "서포터".data }]).rounds.map
      (fun r => r.confirmed_supporters.map Prod.fst) =
    [["u".data, "x".data], ["y".data]] := by decide

/-- C8, counterexample: `update_schedule` never creates a round: applied
to a schedule with no rounds it leaves the round list empty, where the
claim requires the named round to be created. -/
theorem c8_counterexample :
    (RS.apply_changes_to_data { header := "h".data }
      [{ ctype := "update_schedule".data, round_name := "1차".data,
         schedule := "sat".data }]).rounds = [] := by decide

/-- C9, counterexample: an enqueue with an empty `user_id` is counted,
but a successful dequeue of that element skips the decrement
(`if removed.user_id:`), so the counter (1) differs from
enqueues minus successful dequeues (0). -/
theorem c9_counterexample :
    RQ.countOf (RQ.runOps [.enq [] "alice".data "support".data 0,
      .deq "alice".data none none]).1 [] = 1 ∧
    (RQ.runOps [.enq [] "alice".data "support".data 0,
      .deq "alice".data none none]).2.1 [] -
    (RQ.runOps [.enq [] "alice".data "support".data 0,
      .deq "alice".data none none]).2.2 [] = 0 := by decide

/-- C10, counterexample: a successful dequeue whose removed element has
an empty `user_id` does not decrement that user's participation counter
(the claim states every successful removal decrements, floored at
zero): the counter stays at 1. -/
theorem c10_counterexample :
    (RQ.dequeue (RQ.applyOps [.enq [] "bob".data "dealer".data 0])
      "bob".data none none).1.isSome = true ∧
    RQ.countOf (RQ.dequeue (RQ.applyOps [.enq [] "bob".data "dealer".data 0])
      "bob".data none none).2 [] = 1 := by decide


/-! ### String lemmas for the round-trip claim (C5) -/

/-- `dropWhile` distributes over an append whose left part is not fully
dropped. -/
theorem dropWhile_append_of_ne (p : Char → Bool) (x y : Str) (h : x.dropWhile p ≠ []) :
    (x ++ y).dropWhile p = x.dropWhile p ++ y := by
  induction x with
  | nil => exact absurd rfl h
  | cons c t ih =>
    by_cases hc : p c
    · simp only [List.dropWhile_cons, hc, if_true, List.cons_append] at *
      exact ih h
    · simp [List.dropWhile_cons, hc]

/-- A left strip acts only on the first block of an append when it leaves
something of it. -/
theorem ltrim_append (x y : Str) (h : ltrim x ≠ []) : ltrim (x ++ y) = ltrim x ++ y :=
  dropWhile_append_of_ne pyIsSpace x y h

/-- A right strip acts only on the last block of an append when it leaves
something of it. -/
theorem rtrim_append (x y : Str) (h : rtrim y ≠ []) : rtrim (x ++ y) = x ++ rtrim y := by
  have h2 : y.reverse.dropWhile pyIsSpace ≠ [] := by
    intro he
    apply h
    simp [rtrim, he]
  simp only [rtrim, List.reverse_append]
  rw [dropWhile_append_of_ne _ _ _ h2]
  simp [rtrim, List.reverse_append, List.reverse_reverse]

/-- Left strip keeps a string headed by a non-space character. -/
theorem ltrim_cons_nospace (c : Char) (l : Str) (h : pyIsSpace c = false) :
    ltrim (c :: l) = c :: l := by
  simp [ltrim, List.dropWhile_cons, h]

/-- Left strip drops a leading space character. -/
theorem ltrim_cons_space (c : Char) (l : Str) (h : pyIsSpace c = true) :
    ltrim (c :: l) = ltrim l := by
  simp [ltrim, List.dropWhile_cons, h]

/-- Right strip keeps a string ended by a non-space character. -/
theorem rtrim_snoc_nospace (x : Str) (c : Char) (h : pyIsSpace c = false) :
    rtrim (x ++ [c]) = x ++ [c] := by
  simp [rtrim, List.reverse_append, List.dropWhile_cons, h]

/-- Right strip drops a trailing space character. -/
theorem rtrim_snoc_space (x : Str) (c : Char) (h : pyIsSpace c = true) :
    rtrim (x ++ [c]) = rtrim x := by
  simp [rtrim, List.reverse_append, List.dropWhile_cons, h]

/-- A string right-strips to nothing exactly when it is all spaces. -/
theorem rtrim_eq_nil_iff (l : Str) : rtrim l = [] ↔ ∀ c ∈ l, pyIsSpace c = true := by
  simp [rtrim, List.dropWhile_eq_nil_iff]

/-- A string holding a non-space character does not right-strip to
nothing. -/
theorem rtrim_ne_nil_of_mem (l : Str) (c : Char) (hm : c ∈ l) (h : pyIsSpace c = false) :
    rtrim l ≠ [] := by
  intro he
  rw [rtrim_eq_nil_iff] at he
  rw [he c hm] at h
  exact absurd h (by simp)

/-- `dropWhile` is idempotent. -/
theorem dropWhile_idem (p : Char → Bool) (l : Str) :
    (l.dropWhile p).dropWhile p = l.dropWhile p := by
  induction l with
  | nil => rfl
  | cons c t ih =>
    by_cases hc : p c
    · simp [List.dropWhile_cons, hc, ih]
    · simp [List.dropWhile_cons, hc]

/-- Right strip is idempotent. -/
theorem rtrim_idem (l : Str) : rtrim (rtrim l) = rtrim l := by
  simp [rtrim, List.reverse_reverse, dropWhile_idem]

/-- Stripping ignores a prior right strip (the parse loop strips each
line, so a right-stripped last line parses identically). -/
theorem trim_rtrim (l : Str) : trim (rtrim l) = trim l := by
  show ltrim (rtrim (rtrim l)) = ltrim (rtrim l)
  rw [rtrim_idem]

/-- `dropWhile` yields a sublist. -/
theorem dropWhile_sub (p : Char → Bool) (l : Str) : List.Sublist (l.dropWhile p) l := by
  induction l with
  | nil => simp
  | cons c t ih =>
    by_cases hc : p c
    · simp only [List.dropWhile_cons, hc, if_true]
      exact .cons c ih
    · simp [List.dropWhile_cons, hc]

/-- Right strip yields a sublist. -/
theorem rtrim_sub (l : Str) : List.Sublist (rtrim l) l := by
  have h := (dropWhile_sub pyIsSpace l.reverse).reverse
  rwa [List.reverse_reverse] at h

/-- Characters of the right strip come from the string. -/
theorem mem_of_mem_rtrim (c : Char) (l : Str) (h : c ∈ rtrim l) : c ∈ l :=
  (rtrim_sub l).subset h

/-- Characters of the left strip come from the string. -/
theorem mem_of_mem_ltrim (c : Char) (l : Str) (h : c ∈ ltrim l) : c ∈ l :=
  (dropWhile_sub pyIsSpace l).subset h

/-- Characters of the strip come from the string. -/
theorem mem_of_mem_trim (c : Char) (l : Str) (h : c ∈ trim l) : c ∈ l :=
  mem_of_mem_rtrim c l (mem_of_mem_ltrim c (rtrim l) h)

/-- The length of a right strip. -/
theorem rtrim_length_le (l : Str) : (rtrim l).length ≤ l.length :=
  (rtrim_sub l).length_le

/-- A string equal to its strip is equal to each one-sided strip. -/
theorem trim_eq_self_split (l : Str) (h : trim l = l) : ltrim l = l ∧ rtrim l = l := by
  have h0 : ltrim (rtrim l) = l := h
  have hlen : l.length ≤ (rtrim l).length := by
    have h2 : (ltrim (rtrim l)).length ≤ (rtrim l).length :=
      (dropWhile_sub pyIsSpace (rtrim l)).length_le
    rw [h0] at h2
    exact h2
  have hr : rtrim l = l :=
    (rtrim_sub l).eq_of_length (le_antisymm (rtrim_sub l).length_le hlen)
  rw [hr] at h0
  exact ⟨h0, hr⟩

/-- Stripping a string headed by a space strips its tail. -/
theorem trim_cons_space (c : Char) (l : Str) (h : pyIsSpace c = true) :
    trim (c :: l) = trim l := by
  rcases he : rtrim l with _ | ⟨d, t⟩
  · have hall : ∀ x ∈ l, pyIsSpace x = true := (rtrim_eq_nil_iff l).mp he
    have h2 : rtrim (c :: l) = [] := by
      rw [rtrim_eq_nil_iff]
      intro x hx
      rcases List.mem_cons.mp hx with h3 | h3
      · rw [h3]; exact h
      · exact hall x h3
    show ltrim (rtrim (c :: l)) = ltrim (rtrim l)
    rw [h2, he]
  · have hne : rtrim l ≠ [] := by rw [he]; simp
    have h2 : rtrim (c :: l) = c :: rtrim l := by
      have h3 := rtrim_append [c] l hne
      simpa using h3
    show ltrim (rtrim (c :: l)) = ltrim (rtrim l)
    rw [h2, ltrim_cons_space c _ h]

/-- A non-empty stripped string starts with a non-space character. -/
theorem head_nospace_of_trimmed (n : Str) (h1 : n ≠ []) (h2 : trim n = n) :
    ∃ c t, n = c :: t ∧ pyIsSpace c = false := by
  obtain ⟨hl, hr⟩ := trim_eq_self_split n h2
  cases n with
  | nil => exact absurd rfl h1
  | cons c t =>
    refine ⟨c, t, rfl, ?_⟩
    by_cases hc : pyIsSpace c
    · exfalso
      rw [ltrim_cons_space c t hc] at hl
      have hlen : (ltrim t).length ≤ t.length := (dropWhile_sub pyIsSpace t).length_le
      rw [hl] at hlen
      simp only [List.length_cons] at hlen
      omega
    · simpa using hc

/-- A non-empty stripped string ends with a non-space character. -/
theorem concat_nospace_of_trimmed (n : Str) (h1 : n ≠ []) (h2 : trim n = n) :
    ∃ t c, n = t ++ [c] ∧ pyIsSpace c = false := by
  obtain ⟨hl, hr⟩ := trim_eq_self_split n h2
  rcases List.eq_nil_or_concat n with he | ⟨t, c, he⟩
  · exact absurd he h1
  · rw [List.concat_eq_append] at he
    refine ⟨t, c, he, ?_⟩
    by_cases hc : pyIsSpace c
    · exfalso
      have h3 : rtrim (t ++ [c]) = rtrim t := rtrim_snoc_space t c hc
      rw [he, h3] at hr
      have hlen := rtrim_length_le t
      rw [hr] at hlen
      simp only [List.length_append, List.length_cons, List.length_nil] at hlen
      omega
    · simpa using hc


/-- Splitting never yields an empty piece list. -/
theorem splitOnChar_ne_nil (sep : Char) (l : Str) : splitOnChar sep l ≠ [] := by
  cases l with
  | nil => simp [splitOnChar]
  | cons c t =>
    rw [splitOnChar]
    rcases h : splitOnChar sep t with _ | ⟨s, ss⟩
    · by_cases hc : c == sep <;> simp [hc, h]
    · by_cases hc : c == sep <;> simp [hc, h]

/-- A string free of the separator splits into itself alone. -/
theorem splitOnChar_nosep (sep : Char) (l : Str) (h : sep ∉ l) : splitOnChar sep l = [l] := by
  induction l with
  | nil => rfl
  | cons c t ih =>
    have hcs : ¬(c = sep) := fun he => h (by rw [← he]; exact List.mem_cons_self _ _)
    have ht : sep ∉ t := fun hm => h (List.mem_cons_of_mem c hm)
    rw [splitOnChar, ih ht]
    simp [hcs]

/-- Splitting peels off a leading separator-free piece. -/
theorem splitOnChar_append (sep : Char) (a b : Str) (h : sep ∉ a) :
    splitOnChar sep (a ++ sep :: b) = a :: splitOnChar sep b := by
  induction a with
  | nil => simp [splitOnChar]
  | cons c t ih =>
    have hcs : ¬(c = sep) := fun he => h (by rw [← he]; exact List.mem_cons_self _ _)
    have ht : sep ∉ t := fun hm => h (List.mem_cons_of_mem c hm)
    rw [List.cons_append, splitOnChar, ih ht]
    simp [hcs]

/-- The newline join of a list with a tail. -/
theorem joinNL_cons₂ (x : Str) (L : List Str) (h : L ≠ []) :
    joinNL (x :: L) = x ++ '\n' :: joinNL L := by
  cases L with
  | nil => exact absurd rfl h
  | cons y ys => rfl

/-- Splitting on newlines undoes a newline join of newline-free lines. -/
theorem splitNL_joinNL (L : List Str) (hne : L ≠ []) (h : ∀ l ∈ L, '\n' ∉ l) :
    splitOnChar '\n' (joinNL L) = L := by
  induction L with
  | nil => exact absurd rfl hne
  | cons x ys ih =>
    cases ys with
    | nil => exact splitOnChar_nosep _ _ (h x (List.mem_cons_self _ _))
    | cons y yt =>
      rw [joinNL_cons₂ x _ (by simp), splitOnChar_append _ _ _ (h x (List.mem_cons_self _ _)),
        ih (by simp) (fun l hl => h l (List.mem_cons_of_mem x hl))]

/-- A newline join ending in a non-empty line is non-empty. -/
theorem joinNL_concat_ne_nil (M : List Str) (y : Str) (h : y ≠ []) :
    joinNL (M ++ [y]) ≠ [] := by
  cases M with
  | nil => simpa [joinNL]
  | cons a M2 =>
    rw [List.cons_append, joinNL_cons₂ a _ (by simp)]
    simp

/-- Right-stripping a newline join only strips the last line, when that
leaves something of it. -/
theorem rtrim_joinNL_concat (init : List Str) (la : Str) (h : rtrim la ≠ []) :
    rtrim (joinNL (init ++ [la])) = joinNL (init ++ [rtrim la]) := by
  induction init with
  | nil => simp [joinNL]
  | cons a t ih =>
    have h1 : rtrim (joinNL (t ++ [la])) ≠ [] := by
      rw [ih]
      exact joinNL_concat_ne_nil t _ h
    have h2 : rtrim ('\n' :: joinNL (t ++ [la])) = '\n' :: joinNL (t ++ [rtrim la]) := by
      have h3 := rtrim_append ['\n'] (joinNL (t ++ [la])) h1
      rw [ih] at h3
      simpa using h3
    have h4 : rtrim ('\n' :: joinNL (t ++ [la])) ≠ [] := by rw [h2]; simp
    rw [List.cons_append, joinNL_cons₂ a _ (by simp), List.cons_append,
      joinNL_cons₂ a _ (by simp)]
    rw [rtrim_append a ('\n' :: joinNL (t ++ [la])) h4, h2]

/-- The comma join of a list with a tail. -/
theorem joinCS_cons₂ (x : Str) (L : List Str) (h : L ≠ []) :
    joinCS (x :: L) = x ++ ',' :: ' ' :: joinCS L := by
  cases L with
  | nil => exact absurd rfl h
  | cons y ys => rfl

/-- Characters of a comma join are separators or characters of the
parts. -/
theorem mem_joinCS (c : Char) (ns : List Str) (h : c ∈ joinCS ns) :
    c = ',' ∨ c = ' ' ∨ ∃ n ∈ ns, c ∈ n := by
  induction ns with
  | nil => simp [joinCS] at h
  | cons n t ih =>
    cases t with
    | nil => exact Or.inr (Or.inr ⟨n, List.mem_cons_self _ _, h⟩)
    | cons m ts =>
      rw [joinCS_cons₂ n _ (by simp)] at h
      rcases List.mem_append.mp h with h1 | h1
      · exact Or.inr (Or.inr ⟨n, List.mem_cons_self _ _, h1⟩)
      · rcases List.mem_cons.mp h1 with h2 | h2
        · exact Or.inl h2
        · rcases List.mem_cons.mp h2 with h3 | h3
          · exact Or.inr (Or.inl h3)
          · rcases ih h3 with h4 | h4 | ⟨n2, hn2, hc2⟩
            · exact Or.inl h4
            · exact Or.inr (Or.inl h4)
            · exact Or.inr (Or.inr ⟨n2, List.mem_cons_of_mem _ hn2, hc2⟩)

/-- A comma join of non-empty stripped parts is stripped and non-empty. -/
theorem joinCS_trimmed (ns : List Str) (hne : ns ≠ [])
    (h : ∀ n ∈ ns, n ≠ [] ∧ trim n = n) :
    joinCS ns ≠ [] ∧ ltrim (joinCS ns) = joinCS ns ∧ rtrim (joinCS ns) = joinCS ns := by
  induction ns with
  | nil => exact absurd rfl hne
  | cons n t ih =>
    obtain ⟨hn1, hn2⟩ := h n (List.mem_cons_self _ _)
    obtain ⟨c, t2, hct, hcs⟩ := head_nospace_of_trimmed n hn1 hn2
    cases t with
    | nil =>
      obtain ⟨hl, hr⟩ := trim_eq_self_split n hn2
      exact ⟨hn1, hl, hr⟩
    | cons m ts =>
      obtain ⟨hj1, hj2, hj3⟩ := ih (by simp) (fun x hx => h x (List.mem_cons_of_mem n hx))
      have hJne : rtrim (joinCS (m :: ts)) ≠ [] := by rw [hj3]; exact hj1
      have e1 : rtrim (' ' :: joinCS (m :: ts)) = ' ' :: joinCS (m :: ts) := by
        have e := rtrim_append [' '] (joinCS (m :: ts)) hJne
        rw [hj3] at e
        simpa using e
      have e2 : rtrim (',' :: ' ' :: joinCS (m :: ts)) = ',' :: ' ' :: joinCS (m :: ts) := by
        have e := rtrim_append [','] (' ' :: joinCS (m :: ts)) (by rw [e1]; simp)
        rw [e1] at e
        simpa using e
      have e3 : rtrim (n ++ ',' :: ' ' :: joinCS (m :: ts)) =
          n ++ ',' :: ' ' :: joinCS (m :: ts) := by
        have e := rtrim_append n (',' :: ' ' :: joinCS (m :: ts)) (by rw [e2]; simp)
        rw [e2] at e
        exact e
      rw [joinCS_cons₂ n _ (by simp)]
      refine ⟨by simp [hct], ?_, e3⟩
      rw [hct, List.cons_append, ltrim_cons_nospace _ _ hcs]


/-- Splitting a comma join on commas and stripping the pieces recovers
the parts (the parser's `[p.strip() for p in names_text.split(',')]`). -/
theorem splitCS_joinCS_trim (ns : List Str) (hne : ns ≠ [])
    (h : ∀ n ∈ ns, n ≠ [] ∧ trim n = n ∧ ',' ∉ n) :
    (splitOnChar ',' (joinCS ns)).map trim = ns := by
  induction ns with
  | nil => exact absurd rfl hne
  | cons n t ih =>
    obtain ⟨hn1, hn2, hn3⟩ := h n (List.mem_cons_self _ _)
    cases t with
    | nil =>
      rw [show joinCS [n] = n from rfl, splitOnChar_nosep ',' n hn3]
      simp [hn2]
    | cons m ts =>
      rw [joinCS_cons₂ n _ (by simp), splitOnChar_append ',' n _ hn3]
      rcases hJ : splitOnChar ',' (joinCS (m :: ts)) with _ | ⟨s0, ss⟩
      · exact absurd hJ (splitOnChar_ne_nil ',' _)
      · have hsp : splitOnChar ',' (' ' :: joinCS (m :: ts)) = (' ' :: s0) :: ss := by
          rw [splitOnChar, hJ]
          simp
        have ihe := ih (by simp) (fun x hx => h x (List.mem_cons_of_mem n hx))
        rw [hJ] at ihe
        simp only [List.map_cons] at ihe
        rw [hsp]
        simp only [List.map_cons, hn2, trim_cons_space ' ' s0 (by decide)]
        rw [List.cons.injEq]
        exact ⟨rfl, ihe⟩

/-- `afterFirst` cuts right after the first occurrence of the
separator. -/
theorem afterFirst_append (c : Char) (a b : Str) (h : c ∉ a) :
    afterFirst c (a ++ c :: b) = b := by
  induction a with
  | nil => simp [afterFirst]
  | cons d t ih =>
    have hdc : ¬(d = c) := fun he => h (by rw [he]; exact List.mem_cons_self _ _)
    rw [List.cons_append, afterFirst, if_neg (by simp [hdc])]
    exact ih (fun hm => h (List.mem_cons_of_mem d hm))

/-- `takeWhile` swallows a fully satisfying prefix. -/
theorem takeWhile_append_all (p : Char → Bool) (a b : Str) (h : ∀ c ∈ a, p c = true) :
    (a ++ b).takeWhile p = a ++ b.takeWhile p := by
  induction a with
  | nil => simp
  | cons c t ih =>
    rw [List.cons_append, List.takeWhile_cons, if_pos (h c (List.mem_cons_self _ _)),
      ih (fun x hx => h x (List.mem_cons_of_mem c hx)), List.cons_append]

/-- `takeWhile` stops at a failing head. -/
theorem takeWhile_cons_neg (p : Char → Bool) (c : Char) (t : Str) (h : p c = false) :
    (c :: t).takeWhile p = [] := by
  rw [List.takeWhile_cons, if_neg (by simp [h])]

/-- Every digit character rendered by `digitChar` is a decimal digit. -/
theorem digitChar_digit (d : Nat) : (digitChar d).isDigit = true := by
  unfold digitChar
  repeat' split
  all_goals decide

/-- The numeric value of a rendered digit. -/
theorem digitChar_val (d : Nat) (h : d < 10) : (digitChar d).toNat - 48 = d := by
  interval_cases d <;> decide

/-- A decimal digit is not Python whitespace. -/
theorem digit_not_space (c : Char) (h : c.isDigit = true) : pyIsSpace c = false := by
  by_cases h1 : c = ' '
  · rw [h1] at h; exact absurd h (by decide)
  by_cases h2 : c = '\t'
  · rw [h2] at h; exact absurd h (by decide)
  by_cases h3 : c = '\n'
  · rw [h3] at h; exact absurd h (by decide)
  by_cases h4 : c = '\r'
  · rw [h4] at h; exact absurd h (by decide)
  by_cases h5 : c = '\x0b'
  · rw [h5] at h; exact absurd h (by decide)
  by_cases h6 : c = '\x0c'
  · rw [h6] at h; exact absurd h (by decide)
  simp [pyIsSpace, h1, h2, h3, h4, h5, h6]

/-- All characters of the fuelled digit rendering are digits. -/
theorem natToStrAux_digits (fuel n : Nat) (c : Char) (h : c ∈ natToStrAux fuel n) :
    c.isDigit = true := by
  induction fuel generalizing n with
  | zero => simp [natToStrAux] at h
  | succ f ih =>
    rw [natToStrAux] at h
    by_cases h1 : n < 10
    · rw [if_pos h1] at h
      simp only [List.mem_singleton] at h
      rw [h]; exact digitChar_digit n
    · rw [if_neg h1] at h
      rcases List.mem_append.mp h with h2 | h2
      · exact ih _ h2
      · simp only [List.mem_singleton] at h2
        rw [h2]; exact digitChar_digit _

/-- All characters of `natToStr` are digits. -/
theorem natToStr_digits (n : Nat) (c : Char) (h : c ∈ natToStr n) : c.isDigit = true :=
  natToStrAux_digits (n + 1) n c h

/-- The fuelled digit rendering is non-empty under sufficient fuel. -/
theorem natToStrAux_ne_nil (fuel n : Nat) (h : n < fuel) : natToStrAux fuel n ≠ [] := by
  cases fuel with
  | zero => omega
  | succ f =>
    rw [natToStrAux]
    by_cases h1 : n < 10
    · rw [if_pos h1]; simp
    · rw [if_neg h1]; simp

/-- `natToStr` never renders an empty string. -/
theorem natToStr_ne_nil (n : Nat) : natToStr n ≠ [] :=
  natToStrAux_ne_nil (n + 1) n (by omega)

/-- Folding the decimal-digit accumulator over a rendering appends the
value to the accumulator positionally. -/
theorem natToStrAux_foldl (fuel : Nat) : ∀ n, n < fuel → ∀ i : Nat,
    (natToStrAux fuel n).foldl (fun a c => 10 * a + (c.toNat - 48)) i =
      i * 10 ^ (natToStrAux fuel n).length + n := by
  induction fuel with
  | zero => intro n h; omega
  | succ f ih =>
    intro n h i
    rw [natToStrAux]
    by_cases h1 : n < 10
    · rw [if_pos h1]
      simp only [List.foldl_cons, List.foldl_nil, List.length_cons, List.length_nil,
        digitChar_val n h1]
      ring
    · rw [if_neg h1]
      have h2 : n / 10 < f := by omega
      simp only [List.foldl_append, List.foldl_cons, List.foldl_nil, List.length_append,
        List.length_cons, List.length_nil, Nat.zero_add]
      rw [ih (n / 10) h2 i, digitChar_val (n % 10) (by omega)]
      generalize (natToStrAux f (n / 10)).length = L
      rw [pow_succ]
      have h3 : 10 * (n / 10) + n % 10 = n := by omega
      calc 10 * (i * 10 ^ L + n / 10) + n % 10
          = i * (10 ^ L * 10) + (10 * (n / 10) + n % 10) := by ring
        _ = i * (10 ^ L * 10) + n := by rw [h3]

/-- Reading back a decimal rendering recovers the number
(`int(str(n)) == n`). -/
theorem digitsToNat_natToStr (n : Nat) : digitsToNat (natToStr n) = n := by
  have h := natToStrAux_foldl (n + 1) n (by omega) 0
  simpa [digitsToNat, natToStr] using h


/-- A line headed by neither `#` nor a digit is not a round header. -/
theorem roundHeaderNum_cons_none (c : Char) (t : Str) (h1 : ¬ c = '#')
    (h2 : c.isDigit = false) : RS.roundHeaderNum (c :: t) = none := by
  rw [RS.roundHeaderNum]
  have hds : (c :: t).takeWhile Char.isDigit = [] := takeWhile_cons_neg _ c t h2
  split
  all_goals
    first
    | rfl
    | (intro rest he
       injection he with e1 e2
       exact absurd e1 h1)
    | (rename_i heq
       rw [hds] at heq
       exact absurd heq.1 (by simp))

/-- The rendered round header `## {n}차` parses back to `n`. -/
theorem roundHeaderNum_render (k : Nat) :
    RS.roundHeaderNum ("## ".data ++ natToStr k ++ "차".data) = some k := by
  obtain ⟨c, t, hct⟩ := List.exists_cons_of_ne_nil (natToStr_ne_nil k)
  have hc : c.isDigit = true := natToStr_digits k c (by rw [hct]; exact List.mem_cons_self _ _)
  have hshow : "## ".data ++ natToStr k ++ "차".data =
      '#' :: '#' :: (' ' :: (natToStr k ++ "차".data)) := by simp
  have hsp : (' ' :: (natToStr k ++ "차".data)).takeWhile pyIsSpace = [' '] := by
    rw [List.takeWhile_cons, if_pos (by decide)]
    rw [hct, List.cons_append, takeWhile_cons_neg _ _ _ (digit_not_space c hc)]
  have hds : (natToStr k ++ "차".data).takeWhile Char.isDigit = natToStr k := by
    rw [takeWhile_append_all _ _ _ (natToStr_digits k)]
    rw [show ("차".data.takeWhile Char.isDigit) = [] from by decide]
    simp
  rw [hshow, RS.roundHeaderNum]
  simp only [hsp, hds, List.length_cons, List.length_nil, List.drop_succ_cons, List.drop_zero,
    List.drop_left]
  rw [if_pos ⟨by simp, natToStr_ne_nil k, trivial⟩]
  rw [digitsToNat_natToStr]


/-- A string prefixes its own extension. -/
theorem isPre_refl_append (p b : Str) : isPre p (p ++ b) = true := by
  induction p with
  | nil => rfl
  | cons c t ih => simp [isPre, ih]

/-- A prefix of `a ++ b` restricted to the length of `a` prefixes `a`. -/
theorem isPre_take (p a b : Str) (h : isPre p (a ++ b) = true) :
    isPre (p.take a.length) a = true := by
  induction a generalizing p with
  | nil => simp [isPre]
  | cons c t ih =>
    cases p with
    | nil => simp [isPre]
    | cons x q =>
      simp only [List.cons_append, isPre, Bool.and_eq_true, beq_iff_eq] at h
      simp only [List.length_cons, List.take_succ_cons, isPre, Bool.and_eq_true, beq_iff_eq]
      exact ⟨h.1, ih q h.2⟩

/-- A prefix test fails on an extension when its truncation already
fails (used to refute the dispatcher's `startswith` probes). -/
theorem isPre_false_append (p a b : Str) (h : isPre (p.take a.length) a = false) :
    isPre p (a ++ b) = false := by
  cases hq : isPre p (a ++ b)
  · rfl
  · exact absurd (isPre_take p a b hq) (by simp [h])

/-- A prefix at least as long as the front block splits into the front
block and a prefix of the rest. -/
theorem isPre_long_split (t : Str) : ∀ p y : Str, isPre p (t ++ y) = true →
    t.length ≤ p.length → p.take t.length = t ∧ isPre (p.drop t.length) y = true := by
  induction t with
  | nil => intro p y h hl; exact ⟨by simp, by simpa using h⟩
  | cons c ts ih =>
    intro p y h hl
    cases p with
    | nil => simp at hl
    | cons x q =>
      simp only [List.cons_append, isPre, Bool.and_eq_true, beq_iff_eq] at h
      have hl2 : ts.length ≤ q.length := by simpa using hl
      obtain ⟨e1, e2⟩ := ih q y h.2 hl2
      have h1 := h.1
      subst h1
      exact ⟨by simp [List.take_succ_cons, e1], by simpa [List.drop_succ_cons] using e2⟩

/-- One unfolding of the containment scan. -/
theorem containsSub_cons (p : Str) (c : Char) (t : Str) :
    containsSub p (c :: t) = (isPre p (c :: t) || containsSub p t) := rfl

/-- A prefix is contained. -/
theorem containsSub_of_pre (p l : Str) (h : isPre p l = true) : containsSub p l = true := by
  cases l with
  | nil => simpa [containsSub] using h
  | cons c t => simp [containsSub_cons, h]

/-- Only the empty string prefixes the empty string. -/
theorem isPre_nil (p : Str) (h : isPre p [] = true) : p = [] := by
  cases p with
  | nil => rfl
  | cons c t => simp [isPre] at h

/-- A prefix extends along an append. -/
theorem isPre_ext (p : Str) : ∀ x b : Str, isPre p x = true → isPre p (x ++ b) = true := by
  induction p with
  | nil => intro x b h; cases x <;> rfl
  | cons c q ih =>
    intro x b h
    cases x with
    | nil => simp [isPre] at h
    | cons d t =>
      simp only [isPre, Bool.and_eq_true, beq_iff_eq] at h
      simp only [List.cons_append, isPre, Bool.and_eq_true, beq_iff_eq]
      exact ⟨h.1, ih t b h.2⟩

/-- Containment in the left part of an append. -/
theorem containsSub_append_left (p a b : Str) (h : containsSub p a = true) :
    containsSub p (a ++ b) = true := by
  induction a with
  | nil =>
    have hp : p = [] := isPre_nil p (by simpa [containsSub] using h)
    subst hp
    exact containsSub_of_pre [] b rfl
  | cons c t ih =>
    rw [List.cons_append, containsSub_cons]
    rw [containsSub_cons] at h
    simp only [Bool.or_eq_true] at h ⊢
    rcases h with h1 | h1
    · exact Or.inl (by simpa using isPre_ext p (c :: t) b h1)
    · exact Or.inr (ih h1)

/-- Containment in the right part of an append. -/
theorem containsSub_append_right (p a b : Str) (h : containsSub p b = true) :
    containsSub p (a ++ b) = true := by
  induction a with
  | nil => simpa using h
  | cons c t ih =>
    rw [List.cons_append, containsSub_cons]
    simp [ih]

/-- A single character is contained iff present. -/
theorem containsSub_single_of_mem (c : Char) (l : Str) (h : c ∈ l) :
    containsSub [c] l = true := by
  induction l with
  | nil => simp at h
  | cons d t ih =>
    rw [containsSub_cons]
    rcases List.mem_cons.mp h with h1 | h1
    · subst h1; simp [isPre]
    · simp [ih h1]

/-- A pattern prefixing a suffix is contained in the whole. -/
theorem containsSub_of_suffix_pre (p t n : Str) (hs : t <:+ n) (h : isPre p t = true) :
    containsSub p n = true := by
  obtain ⟨s, rfl⟩ := hs
  exact containsSub_append_right p s t (containsSub_of_pre p t h)

/-- A containment in an append starts in a suffix of the left part or
lies in the right part. -/
theorem containsSub_append_cases (p : Str) : ∀ x y : Str, containsSub p (x ++ y) = true →
    (∃ t, t <:+ x ∧ t ≠ [] ∧ isPre p (t ++ y) = true) ∨ containsSub p y = true := by
  intro x
  induction x with
  | nil => intro y h; right; simpa using h
  | cons c ts ih =>
    intro y h
    rw [List.cons_append, containsSub_cons] at h
    simp only [Bool.or_eq_true] at h
    rcases h with h1 | h1
    · left
      exact ⟨c :: ts, List.suffix_refl _, by simp, by simpa using h1⟩
    · rcases ih y h1 with ⟨t, hsuf, hne, hpre⟩ | h2
      · left
        exact ⟨t, hsuf.trans (List.suffix_cons c ts), hne, hpre⟩
      · right
        exact h2


/-- A pattern whose head character misses the left block entirely is
contained in an append only through the right block. -/
theorem noSub_of_head (c : Char) (q : Str) : ∀ a b : Str, c ∉ a →
    containsSub (c :: q) b = false → containsSub (c :: q) (a ++ b) = false := by
  intro a
  induction a with
  | nil => intro b _ hb; simpa using hb
  | cons d t ih =>
    intro b hca hb
    have hcd : ¬(c = d) := fun he => hca (by rw [he]; exact List.mem_cons_self _ _)
    have hct : c ∉ t := fun hm => hca (List.mem_cons_of_mem d hm)
    rw [List.cons_append, containsSub_cons]
    have h1 : isPre (c :: q) (d :: (t ++ b)) = false := by
      simp [isPre, hcd]
    rw [h1, ih b hct hb]
    rfl

/-- A comma-and-space join of clean parts does not contain a pattern
free of commas and spaces unless some part contains it. -/
theorem noSub_joinCS (c : Char) (q : Str) (hc : ',' ∉ c :: q) (hs : ' ' ∉ c :: q)
    (names : List Str) (h : ∀ n ∈ names, containsSub (c :: q) n = false) :
    containsSub (c :: q) (joinCS names) = false := by
  induction names with
  | nil => rfl
  | cons n rest ih =>
    cases rest with
    | nil => exact h n (List.mem_cons_self _ _)
    | cons m ts =>
      rw [joinCS_cons₂ n _ (by simp)]
      cases hcs : containsSub (c :: q) (n ++ ',' :: ' ' :: joinCS (m :: ts)) with
      | false => rfl
      | true =>
        exfalso
        rcases containsSub_append_cases (c :: q) n (',' :: ' ' :: joinCS (m :: ts)) hcs with
          ⟨t, hsuf, hne, hpre⟩ | h2
        · by_cases hlen : (c :: q).length ≤ t.length
          · have hp : isPre (c :: q) t = true := by
              have h3 := isPre_take (c :: q) t (',' :: ' ' :: joinCS (m :: ts)) hpre
              rwa [List.take_of_length_le hlen] at h3
            have h4 := containsSub_of_suffix_pre (c :: q) t n hsuf hp
            rw [h n (List.mem_cons_self _ _)] at h4
            exact absurd h4 (by simp)
          · push_neg at hlen
            obtain ⟨e1, e2⟩ := isPre_long_split t (c :: q) _ hpre (le_of_lt hlen)
            rcases hd : (c :: q).drop t.length with _ | ⟨x, xs⟩
            · rw [List.drop_eq_nil_iff] at hd
              omega
            · rw [hd] at e2
              have hx : x = ',' := by
                simp only [isPre, Bool.and_eq_true, beq_iff_eq] at e2
                exact e2.1
              have hxm : x ∈ c :: q := by
                have h5 : x ∈ (c :: q).drop t.length := by
                  rw [hd]; exact List.mem_cons_self _ _
                exact List.mem_of_mem_drop h5
              rw [hx] at hxm
              exact hc hxm
        · have hc1 : ¬(c = ',') := fun he => hc (by rw [← he]; exact List.mem_cons_self _ _)
          have hc2 : ¬(c = ' ') := fun he => hs (by rw [← he]; exact List.mem_cons_self _ _)
          rw [containsSub_cons, containsSub_cons] at h2
          have e1 : isPre (c :: q) (',' :: ' ' :: joinCS (m :: ts)) = false := by
            simp [isPre, hc1]
          have e2 : isPre (c :: q) (' ' :: joinCS (m :: ts)) = false := by
            simp [isPre, hc2]
          rw [e1, e2, ih (fun n2 hn2 => h n2 (List.mem_cons_of_mem n hn2))] at h2
          simp at h2


theorem parseLine_nil (st : RS.PState) : RS.parseLine st [] = st := rfl

theorem parseLine_who (st : RS.PState) (r : RS.RoundInfo)
    (hin : st.inRound = true) (hc : st.cur = some r) :
    RS.parseLine st "- who:".data = st := by
  simp +decide only [RS.parseLine, RS.parseLineCore, hin, hc, if_true, if_false,
    show RS.roundHeaderNum (trim "- who:".data) = none from by decide]

theorem parseLine_header (k : Nat) (st : RS.PState) :
    RS.parseLine st ("## ".data ++ (natToStr k ++ "차".data)) =
      ⟨true, some { name := natToStr k ++ "차".data }, RS.flushCur st.cur st.data⟩ := by
  have ha : "## ".data ++ (natToStr k ++ "차".data) =
      ("## ".data ++ natToStr k) ++ "차".data := by simp
  have hrt : rtrim ("## ".data ++ (natToStr k ++ "차".data)) =
      "## ".data ++ (natToStr k ++ "차".data) := by
    rw [ha]
    exact rtrim_snoc_nospace _ '차' (by decide)
  have hlt : ltrim ("## ".data ++ (natToStr k ++ "차".data)) =
      "## ".data ++ (natToStr k ++ "차".data) := by
    exact ltrim_cons_nospace '#' _ (by decide)
  have htr : trim ("## ".data ++ (natToStr k ++ "차".data)) =
      "## ".data ++ (natToStr k ++ "차".data) := by
    show ltrim (rtrim _) = _
    rw [hrt, hlt]
  have hrhn : RS.roundHeaderNum ("## ".data ++ (natToStr k ++ "차".data)) = some k := by
    have h2 := roundHeaderNum_render k
    rw [ha]
    exact h2
  rw [RS.parseLine, htr, RS.parseLineCore, if_neg (by simp), hrhn]

theorem parseLine_when (w : Str) (hw : trim w = w) (st : RS.PState) (r : RS.RoundInfo)
    (hin : st.inRound = true) (hc : st.cur = some r) :
    RS.parseLine st ("- when: ".data ++ w) = { st with cur := some { r with when := w } } := by
  rcases List.eq_nil_or_concat w with hwnil | ⟨t, cl, hwc⟩
  · subst hwnil
    simp +decide only [List.append_nil, RS.parseLine, RS.parseLineCore, hin, hc, if_true,
      if_false,
      show RS.roundHeaderNum (trim "- when: ".data) = none from by decide,
      show trim (List.drop 7 (trim "- when: ".data)) = [] from by decide]
  · have hwne : w ≠ [] := by rw [hwc]; simp
    obtain ⟨hlw, hrw⟩ := trim_eq_self_split w hw
    have hrt : rtrim ("- when: ".data ++ w) = "- when: ".data ++ w := by
      have h2 := rtrim_append "- when: ".data w (by rw [hrw]; exact hwne)
      rw [hrw] at h2
      exact h2
    have hlt : ltrim ("- when: ".data ++ w) = "- when: ".data ++ w :=
      ltrim_cons_nospace '-' _ (by decide)
    have htr : trim ("- when: ".data ++ w) = "- when: ".data ++ w := by
      show ltrim (rtrim _) = _
      rw [hrt, hlt]
    have hform : "- when: ".data ++ w = "- when:".data ++ (' ' :: w) := rfl
    have hrhn : RS.roundHeaderNum ("- when: ".data ++ w) = none :=
      roundHeaderNum_cons_none '-' _ (by decide) (by decide)
    have hpre : isPre "- when:".data ("- when: ".data ++ w) = true := by
      rw [hform]; exact isPre_refl_append _ _
    have hdrop : ("- when: ".data ++ w).drop 7 = ' ' :: w := by
      rw [hform, show (7:Nat) = ("- when:".data).length from rfl, List.drop_left]
    rw [RS.parseLine, htr, RS.parseLineCore, if_neg (by simp), hrhn]
    simp +decide only [hin, hc, if_true, if_false, hpre, hdrop,
      trim_cons_space ' ' w (by decide), hw]

theorem parseLine_note (t : Str) (ht : trim t = t)
    (hnos : containsSub "서포터".data t = false) (hnod : containsSub "딜러".data t = false)
    (st : RS.PState) (r : RS.RoundInfo)
    (hin : st.inRound = true) (hc : st.cur = some r) :
    RS.parseLine st ("- note: ".data ++ t) = { st with cur := some { r with note := t } } := by
  rcases List.eq_nil_or_concat t with htnil | ⟨t2, cl, htc⟩
  · subst htnil
    simp +decide only [List.append_nil, RS.parseLine, RS.parseLineCore, hin, hc, if_true,
      if_false,
      show RS.roundHeaderNum (trim "- note: ".data) = none from by decide,
      show trim (List.drop 7 (trim "- note: ".data)) = [] from by decide]
  · have htne : t ≠ [] := by rw [htc]; simp
    obtain ⟨hlw, hrw⟩ := trim_eq_self_split t ht
    have hrt : rtrim ("- note: ".data ++ t) = "- note: ".data ++ t := by
      have h2 := rtrim_append "- note: ".data t (by rw [hrw]; exact htne)
      rw [hrw] at h2
      exact h2
    have htr : trim ("- note: ".data ++ t) = "- note: ".data ++ t := by
      show ltrim (rtrim _) = _
      rw [hrt]
      exact ltrim_cons_nospace '-' _ (by decide)
    have hform : "- note: ".data ++ t = "- note:".data ++ (' ' :: t) := rfl
    have hrhn : RS.roundHeaderNum ("- note: ".data ++ t) = none :=
      roundHeaderNum_cons_none '-' _ (by decide) (by decide)
    have hw1 : isPre "- when:".data ("- note: ".data ++ t) = false :=
      isPre_false_append _ "- note: ".data _ (by decide)
    have hw2 : isPre "when:".data ("- note: ".data ++ t) = false :=
      isPre_false_append _ "- note: ".data _ (by decide)
    have hw3 : isPre "- who:".data ("- note: ".data ++ t) = false :=
      isPre_false_append _ "- note: ".data _ (by decide)
    have hw4 : isPre "who:".data ("- note: ".data ++ t) = false :=
      isPre_false_append _ "- note: ".data _ (by decide)
    have hs1 : containsSub "서포터".data ("- note: ".data ++ t) = false :=
      noSub_of_head '서' _ "- note: ".data t (by decide) hnos
    have hs2 : containsSub "딜러".data ("- note: ".data ++ t) = false :=
      noSub_of_head '딜' _ "- note: ".data t (by decide) hnod
    have hpre : isPre "- note:".data ("- note: ".data ++ t) = true := by
      rw [hform]; exact isPre_refl_append _ _
    have hdrop : ("- note: ".data ++ t).drop 7 = ' ' :: t := by
      rw [hform, show (7:Nat) = ("- note:".data).length from rfl, List.drop_left]
    rw [RS.parseLine, htr, RS.parseLineCore, if_neg (by simp), hrhn]
    simp +decide only [hin, hc, if_true, if_false, hw1, hw2, hw3, hw4, hs1, hs2, hpre, hdrop,
      trim_cons_space ' ' t (by decide), ht, Bool.false_eq_true, false_and, or_self]

theorem parseCore_sup_shape (P Q B : Str) (hPd : ∀ c ∈ P, c.isDigit = true)
    (hQd : ∀ c ∈ Q, c.isDigit = true)
    (st : RS.PState) (r : RS.RoundInfo) (hin : st.inRound = true) (hc : st.cur = some r) :
    RS.parseLineCore st ("- 서포터(".data ++ (P ++ '/' :: (Q ++ ')' :: ':' :: B))) =
      (if trim B ≠ [] then
        { st with
          cur := some { r with
                        confirmed_supporters :=
                          (splitOnChar ',' (trim B)).map (fun x => (trim x, ([] : Str))) } }
       else st) := by
  have hrhn : RS.roundHeaderNum ("- 서포터(".data ++ (P ++ '/' :: (Q ++ ')' :: ':' :: B))) =
      none := roundHeaderNum_cons_none '-' _ (by decide) (by decide)
  have hw1 : isPre "- when:".data ("- 서포터(".data ++ (P ++ '/' :: (Q ++ ')' :: ':' :: B))) =
      false :=
    isPre_false_append "- when:".data "- 서".data
      ('포' :: '터' :: '(' :: (P ++ '/' :: (Q ++ ')' :: ':' :: B))) (by decide)
  have hw2 : isPre "when:".data ("- 서포터(".data ++ (P ++ '/' :: (Q ++ ')' :: ':' :: B))) =
      false :=
    isPre_false_append "when:".data "- 서포터(".data (P ++ '/' :: (Q ++ ')' :: ':' :: B))
      (by decide)
  have hw3 : isPre "- who:".data ("- 서포터(".data ++ (P ++ '/' :: (Q ++ ')' :: ':' :: B))) =
      false :=
    isPre_false_append "- who:".data "- 서".data
      ('포' :: '터' :: '(' :: (P ++ '/' :: (Q ++ ')' :: ':' :: B))) (by decide)
  have hw4 : isPre "who:".data ("- 서포터(".data ++ (P ++ '/' :: (Q ++ ')' :: ':' :: B))) =
      false :=
    isPre_false_append "who:".data "- 서포터(".data (P ++ '/' :: (Q ++ ')' :: ':' :: B))
      (by decide)
  have hsup : containsSub "서포터".data
      ("- 서포터(".data ++ (P ++ '/' :: (Q ++ ')' :: ':' :: B))) = true :=
    containsSub_append_left _ "- 서포터(".data _ (by decide)
  have hcol : containsSub [':']
      ("- 서포터(".data ++ (P ++ '/' :: (Q ++ ')' :: ':' :: B))) = true :=
    containsSub_single_of_mem ':' _ (by simp)
  have hafter : afterFirst ':' ("- 서포터(".data ++ (P ++ '/' :: (Q ++ ')' :: ':' :: B))) =
      B := by
    have ha : "- 서포터(".data ++ (P ++ '/' :: (Q ++ ')' :: ':' :: B)) =
        ("- 서포터(".data ++ (P ++ '/' :: (Q ++ [')']))) ++ ':' :: B := by simp
    rw [ha]
    apply afterFirst_append
    intro hm
    rcases List.mem_append.mp hm with h | h
    · exact absurd h (by decide)
    · rcases List.mem_append.mp h with h2 | h2
      · exact absurd (hPd ':' h2) (by decide)
      · rcases List.mem_cons.mp h2 with h3 | h3
        · exact absurd h3 (by decide)
        · rcases List.mem_append.mp h3 with h4 | h4
          · exact absurd (hQd ':' h4) (by decide)
          · exact absurd h4 (by decide)
  rw [RS.parseLineCore, if_neg (by simp), hrhn]
  simp +decide only [hin, hc, if_true, if_false, hw1, hw2, hw3, hw4, hsup, hcol, hafter,
    and_self, and_true, true_and]

theorem parseCore_deal_shape (P Q B : Str) (hPd : ∀ c ∈ P, c.isDigit = true)
    (hQd : ∀ c ∈ Q, c.isDigit = true) (hB : containsSub "서포터".data B = false)
    (st : RS.PState) (r : RS.RoundInfo) (hin : st.inRound = true) (hc : st.cur = some r) :
    RS.parseLineCore st ("- 딜러(".data ++ (P ++ '/' :: (Q ++ ')' :: ':' :: B))) =
      (if trim B ≠ [] then
        { st with
          cur := some { r with
                        confirmed_dealers :=
                          (splitOnChar ',' (trim B)).map (fun x => (trim x, ([] : Str))) } }
       else st) := by
  have hrhn : RS.roundHeaderNum ("- 딜러(".data ++ (P ++ '/' :: (Q ++ ')' :: ':' :: B))) =
      none := roundHeaderNum_cons_none '-' _ (by decide) (by decide)
  have hw1 : isPre "- when:".data ("- 딜러(".data ++ (P ++ '/' :: (Q ++ ')' :: ':' :: B))) =
      false :=
    isPre_false_append "- when:".data "- 딜".data
      ('러' :: '(' :: (P ++ '/' :: (Q ++ ')' :: ':' :: B))) (by decide)
  have hw2 : isPre "when:".data ("- 딜러(".data ++ (P ++ '/' :: (Q ++ ')' :: ':' :: B))) =
      false :=
    isPre_false_append "when:".data "- 딜러(".data (P ++ '/' :: (Q ++ ')' :: ':' :: B))
      (by decide)
  have hw3 : isPre "- who:".data ("- 딜러(".data ++ (P ++ '/' :: (Q ++ ')' :: ':' :: B))) =
      false :=
    isPre_false_append "- who:".data "- 딜".data
      ('러' :: '(' :: (P ++ '/' :: (Q ++ ')' :: ':' :: B))) (by decide)
  have hw4 : isPre "who:".data ("- 딜러(".data ++ (P ++ '/' :: (Q ++ ')' :: ':' :: B))) =
      false :=
    isPre_false_append "who:".data "- 딜러(".data (P ++ '/' :: (Q ++ ')' :: ':' :: B))
      (by decide)
  have hnosup : containsSub "서포터".data
      ("- 딜러(".data ++ (P ++ '/' :: (Q ++ ')' :: ':' :: B))) = false := by
    have ha : "- 딜러(".data ++ (P ++ '/' :: (Q ++ ')' :: ':' :: B)) =
        ("- 딜러(".data ++ (P ++ '/' :: (Q ++ [')', ':']))) ++ B := by simp
    rw [ha]
    apply noSub_of_head '서' _ _ B ?hm hB
    intro hm
    rcases List.mem_append.mp hm with h | h
    · exact absurd h (by decide)
    · rcases List.mem_append.mp h with h2 | h2
      · exact absurd (hPd '서' h2) (by decide)
      · rcases List.mem_cons.mp h2 with h3 | h3
        · exact absurd h3 (by decide)
        · rcases List.mem_append.mp h3 with h4 | h4
          · exact absurd (hQd '서' h4) (by decide)
          · exact absurd h4 (by decide)
  have hdeal : containsSub "딜러".data
      ("- 딜러(".data ++ (P ++ '/' :: (Q ++ ')' :: ':' :: B))) = true :=
    containsSub_append_left _ "- 딜러(".data _ (by decide)
  have hcol : containsSub [':']
      ("- 딜러(".data ++ (P ++ '/' :: (Q ++ ')' :: ':' :: B))) = true :=
    containsSub_single_of_mem ':' _ (by simp)
  have hafter : afterFirst ':' ("- 딜러(".data ++ (P ++ '/' :: (Q ++ ')' :: ':' :: B))) =
      B := by
    have ha : "- 딜러(".data ++ (P ++ '/' :: (Q ++ ')' :: ':' :: B)) =
        ("- 딜러(".data ++ (P ++ '/' :: (Q ++ [')']))) ++ ':' :: B := by simp
    rw [ha]
    apply afterFirst_append
    intro hm
    rcases List.mem_append.mp hm with h | h
    · exact absurd h (by decide)
    · rcases List.mem_append.mp h with h2 | h2
      · exact absurd (hPd ':' h2) (by decide)
      · rcases List.mem_cons.mp h2 with h3 | h3
        · exact absurd h3 (by decide)
        · rcases List.mem_append.mp h3 with h4 | h4
          · exact absurd (hQd ':' h4) (by decide)
          · exact absurd h4 (by decide)
  rw [RS.parseLineCore, if_neg (by simp), hrhn]
  simp +decide only [hin, hc, if_true, if_false, hw1, hw2, hw3, hw4, hnosup, hdeal, hcol,
    hafter, and_self, and_true, true_and, Bool.false_eq_true, false_and]

theorem parseLine_sup (ns smax : Nat) (names : List Str)
    (hn : ∀ n ∈ names, n ≠ [] ∧ trim n = n ∧ ',' ∉ n)
    (st : RS.PState) (r : RS.RoundInfo) (hin : st.inRound = true) (hc : st.cur = some r) :
    RS.parseLine st ("  - 서포터(".data ++ (natToStr ns ++ ('/' :: (natToStr smax ++
        (')' :: ':' :: ' ' :: joinCS names))))) =
      (if names = [] then st
       else { st with
              cur := some { r with
                            confirmed_supporters :=
                              names.map (fun n => (n, ([] : Str))) } }) := by
  have hPd := natToStr_digits ns
  have hQd := natToStr_digits smax
  rcases hnames : names with _ | ⟨n0, nrest⟩
  · subst hnames
    have e12 : trim ("  - 서포터(".data ++ (natToStr ns ++ ('/' :: (natToStr smax ++
        (')' :: ':' :: ' ' :: joinCS ([] : List Str)))))) =
        trim ("- 서포터(".data ++ (natToStr ns ++ ('/' :: (natToStr smax ++
        (')' :: ':' :: ' ' :: joinCS ([] : List Str)))))) :=
      (trim_cons_space ' ' _ (by decide)).trans (trim_cons_space ' ' _ (by decide))
    have hm1 : "- 서포터(".data ++ (natToStr ns ++ ('/' :: (natToStr smax ++
        (')' :: ':' :: ' ' :: joinCS ([] : List Str))))) =
        ("- 서포터(".data ++ (natToStr ns ++ ('/' :: (natToStr smax ++ (')' :: ':' :: []))))) ++
          [' '] := by simp [joinCS]
    have hm2 : "- 서포터(".data ++ (natToStr ns ++ ('/' :: (natToStr smax ++
        (')' :: ':' :: [])))) =
        ("- 서포터(".data ++ (natToStr ns ++ ('/' :: (natToStr smax ++ [')'])))) ++ [':'] := by
      simp
    have hrt : rtrim ("- 서포터(".data ++ (natToStr ns ++ ('/' :: (natToStr smax ++
        (')' :: ':' :: ' ' :: joinCS ([] : List Str)))))) =
        "- 서포터(".data ++ (natToStr ns ++ ('/' :: (natToStr smax ++ (')' :: ':' :: [])))) := by
      rw [hm1, rtrim_snoc_space _ ' ' (by decide), hm2, rtrim_snoc_nospace _ ':' (by decide),
        ← hm2]
    have htr : trim ("  - 서포터(".data ++ (natToStr ns ++ ('/' :: (natToStr smax ++
        (')' :: ':' :: ' ' :: joinCS ([] : List Str)))))) =
        "- 서포터(".data ++ (natToStr ns ++ ('/' :: (natToStr smax ++ (')' :: ':' :: [])))) := by
      rw [e12]
      show ltrim (rtrim _) = _
      rw [hrt]
      exact ltrim_cons_nospace '-' _ (by decide)
    rw [RS.parseLine, htr,
      parseCore_sup_shape (natToStr ns) (natToStr smax) [] hPd hQd st r hin hc,
      if_neg (by decide), if_pos rfl]
  · subst hnames
    have hgood : ∀ n ∈ n0 :: nrest, n ≠ [] ∧ trim n = n :=
      fun n hm => ⟨(hn n hm).1, (hn n hm).2.1⟩
    obtain ⟨hJne, hJl, hJr⟩ := joinCS_trimmed (n0 :: nrest) (by simp) hgood
    have hJtr : trim (joinCS (n0 :: nrest)) = joinCS (n0 :: nrest) := by
      show ltrim (rtrim _) = _
      rw [hJr, hJl]
    obtain ⟨J0, cj, hJ0, hcj⟩ := concat_nospace_of_trimmed _ hJne hJtr
    have e12 : trim ("  - 서포터(".data ++ (natToStr ns ++ ('/' :: (natToStr smax ++
        (')' :: ':' :: ' ' :: joinCS (n0 :: nrest)))))) =
        trim ("- 서포터(".data ++ (natToStr ns ++ ('/' :: (natToStr smax ++
        (')' :: ':' :: ' ' :: joinCS (n0 :: nrest)))))) :=
      (trim_cons_space ' ' _ (by decide)).trans (trim_cons_space ' ' _ (by decide))
    have hm1 : "- 서포터(".data ++ (natToStr ns ++ ('/' :: (natToStr smax ++
        (')' :: ':' :: ' ' :: joinCS (n0 :: nrest))))) =
        ("- 서포터(".data ++ (natToStr ns ++ ('/' :: (natToStr smax ++
        (')' :: ':' :: ' ' :: J0))))) ++ [cj] := by
      rw [hJ0]; simp
    have hrt : rtrim ("- 서포터(".data ++ (natToStr ns ++ ('/' :: (natToStr smax ++
        (')' :: ':' :: ' ' :: joinCS (n0 :: nrest)))))) =
        "- 서포터(".data ++ (natToStr ns ++ ('/' :: (natToStr smax ++
        (')' :: ':' :: ' ' :: joinCS (n0 :: nrest))))) := by
      rw [hm1, rtrim_snoc_nospace _ cj hcj, ← hm1]
    have htr : trim ("  - 서포터(".data ++ (natToStr ns ++ ('/' :: (natToStr smax ++
        (')' :: ':' :: ' ' :: joinCS (n0 :: nrest)))))) =
        "- 서포터(".data ++ (natToStr ns ++ ('/' :: (natToStr smax ++
        (')' :: ':' :: ' ' :: joinCS (n0 :: nrest))))) := by
      rw [e12]
      show ltrim (rtrim _) = _
      rw [hrt]
      exact ltrim_cons_nospace '-' _ (by decide)
    have hmap : (splitOnChar ',' (joinCS (n0 :: nrest))).map (fun x => (trim x, ([] : Str))) =
        (n0 :: nrest).map (fun n => (n, ([] : Str))) := by
      have h2 := splitCS_joinCS_trim (n0 :: nrest) (by simp) hn
      calc (splitOnChar ',' (joinCS (n0 :: nrest))).map (fun x => (trim x, ([] : Str)))
          = ((splitOnChar ',' (joinCS (n0 :: nrest))).map trim).map
              (fun n => (n, ([] : Str))) := by
            rw [List.map_map]
            rfl
        _ = (n0 :: nrest).map (fun n => (n, ([] : Str))) := by rw [h2]
    rw [RS.parseLine, htr,
      parseCore_sup_shape (natToStr ns) (natToStr smax) (' ' :: joinCS (n0 :: nrest))
        hPd hQd st r hin hc,
      trim_cons_space ' ' _ (by decide), hJtr, if_pos hJne, if_neg (by simp), hmap]

theorem parseLine_deal (nd dmax : Nat) (names : List Str)
    (hn : ∀ n ∈ names, n ≠ [] ∧ trim n = n ∧ ',' ∉ n)
    (hns : ∀ n ∈ names, containsSub "서포터".data n = false)
    (st : RS.PState) (r : RS.RoundInfo) (hin : st.inRound = true) (hc : st.cur = some r) :
    RS.parseLine st ("  - 딜러(".data ++ (natToStr nd ++ ('/' :: (natToStr dmax ++
        (')' :: ':' :: ' ' :: joinCS names))))) =
      (if names = [] then st
       else { st with
              cur := some { r with
                            confirmed_dealers :=
                              names.map (fun n => (n, ([] : Str))) } }) := by
  have hPd := natToStr_digits nd
  have hQd := natToStr_digits dmax
  rcases hnames : names with _ | ⟨n0, nrest⟩
  · subst hnames
    have e12 : trim ("  - 딜러(".data ++ (natToStr nd ++ ('/' :: (natToStr dmax ++
        (')' :: ':' :: ' ' :: joinCS ([] : List Str)))))) =
        trim ("- 딜러(".data ++ (natToStr nd ++ ('/' :: (natToStr dmax ++
        (')' :: ':' :: ' ' :: joinCS ([] : List Str)))))) :=
      (trim_cons_space ' ' _ (by decide)).trans (trim_cons_space ' ' _ (by decide))
    have hm1 : "- 딜러(".data ++ (natToStr nd ++ ('/' :: (natToStr dmax ++
        (')' :: ':' :: ' ' :: joinCS ([] : List Str))))) =
        ("- 딜러(".data ++ (natToStr nd ++ ('/' :: (natToStr dmax ++ (')' :: ':' :: []))))) ++
          [' '] := by simp [joinCS]
    have hm2 : "- 딜러(".data ++ (natToStr nd ++ ('/' :: (natToStr dmax ++
        (')' :: ':' :: [])))) =
        ("- 딜러(".data ++ (natToStr nd ++ ('/' :: (natToStr dmax ++ [')'])))) ++ [':'] := by
      simp
    have hrt : rtrim ("- 딜러(".data ++ (natToStr nd ++ ('/' :: (natToStr dmax ++
        (')' :: ':' :: ' ' :: joinCS ([] : List Str)))))) =
        "- 딜러(".data ++ (natToStr nd ++ ('/' :: (natToStr dmax ++ (')' :: ':' :: [])))) := by
      rw [hm1, rtrim_snoc_space _ ' ' (by decide), hm2, rtrim_snoc_nospace _ ':' (by decide),
        ← hm2]
    have htr : trim ("  - 딜러(".data ++ (natToStr nd ++ ('/' :: (natToStr dmax ++
        (')' :: ':' :: ' ' :: joinCS ([] : List Str)))))) =
        "- 딜러(".data ++ (natToStr nd ++ ('/' :: (natToStr dmax ++ (')' :: ':' :: [])))) := by
      rw [e12]
      show ltrim (rtrim _) = _
      rw [hrt]
      exact ltrim_cons_nospace '-' _ (by decide)
    rw [RS.parseLine, htr,
      parseCore_deal_shape (natToStr nd) (natToStr dmax) [] hPd hQd rfl st r hin hc,
      if_neg (by decide), if_pos rfl]
  · subst hnames
    have hgood : ∀ n ∈ n0 :: nrest, n ≠ [] ∧ trim n = n :=
      fun n hm => ⟨(hn n hm).1, (hn n hm).2.1⟩
    obtain ⟨hJne, hJl, hJr⟩ := joinCS_trimmed (n0 :: nrest) (by simp) hgood
    have hJtr : trim (joinCS (n0 :: nrest)) = joinCS (n0 :: nrest) := by
      show ltrim (rtrim _) = _
      rw [hJr, hJl]
    obtain ⟨J0, cj, hJ0, hcj⟩ := concat_nospace_of_trimmed _ hJne hJtr
    have hBsup : containsSub "서포터".data (' ' :: joinCS (n0 :: nrest)) = false := by
      have e1 : isPre "서포터".data (' ' :: joinCS (n0 :: nrest)) = false := by
        simp [isPre]
      have e2 : containsSub "서포터".data (joinCS (n0 :: nrest)) = false :=
        noSub_joinCS '서' "포터".data (by decide) (by decide) _ hns
      rw [containsSub_cons, e1, e2]
      rfl
    have e12 : trim ("  - 딜러(".data ++ (natToStr nd ++ ('/' :: (natToStr dmax ++
        (')' :: ':' :: ' ' :: joinCS (n0 :: nrest)))))) =
        trim ("- 딜러(".data ++ (natToStr nd ++ ('/' :: (natToStr dmax ++
        (')' :: ':' :: ' ' :: joinCS (n0 :: nrest)))))) :=
      (trim_cons_space ' ' _ (by decide)).trans (trim_cons_space ' ' _ (by decide))
    have hm1 : "- 딜러(".data ++ (natToStr nd ++ ('/' :: (natToStr dmax ++
        (')' :: ':' :: ' ' :: joinCS (n0 :: nrest))))) =
        ("- 딜러(".data ++ (natToStr nd ++ ('/' :: (natToStr dmax ++
        (')' :: ':' :: ' ' :: J0))))) ++ [cj] := by
      rw [hJ0]; simp
    have hrt : rtrim ("- 딜러(".data ++ (natToStr nd ++ ('/' :: (natToStr dmax ++
        (')' :: ':' :: ' ' :: joinCS (n0 :: nrest)))))) =
        "- 딜러(".data ++ (natToStr nd ++ ('/' :: (natToStr dmax ++
        (')' :: ':' :: ' ' :: joinCS (n0 :: nrest))))) := by
      rw [hm1, rtrim_snoc_nospace _ cj hcj, ← hm1]
    have htr : trim ("  - 딜러(".data ++ (natToStr nd ++ ('/' :: (natToStr dmax ++
        (')' :: ':' :: ' ' :: joinCS (n0 :: nrest)))))) =
        "- 딜러(".data ++ (natToStr nd ++ ('/' :: (natToStr dmax ++
        (')' :: ':' :: ' ' :: joinCS (n0 :: nrest))))) := by
      rw [e12]
      show ltrim (rtrim _) = _
      rw [hrt]
      exact ltrim_cons_nospace '-' _ (by decide)
    have hmap : (splitOnChar ',' (joinCS (n0 :: nrest))).map (fun x => (trim x, ([] : Str))) =
        (n0 :: nrest).map (fun n => (n, ([] : Str))) := by
      have h2 := splitCS_joinCS_trim (n0 :: nrest) (by simp) hn
      calc (splitOnChar ',' (joinCS (n0 :: nrest))).map (fun x => (trim x, ([] : Str)))
          = ((splitOnChar ',' (joinCS (n0 :: nrest))).map trim).map
              (fun n => (n, ([] : Str))) := by
            rw [List.map_map]
            rfl
        _ = (n0 :: nrest).map (fun n => (n, ([] : Str))) := by rw [h2]
    rw [RS.parseLine, htr,
      parseCore_deal_shape (natToStr nd) (natToStr dmax) (' ' :: joinCS (n0 :: nrest))
        hPd hQd hBsup st r hin hc,
      trim_cons_space ' ' _ (by decide), hJtr, if_pos hJne, if_neg (by simp), hmap]


theorem parseLine_sup3 (ns smax : Nat) (names : List Str)
    (hn : ∀ n ∈ names, n ≠ [] ∧ trim n = n ∧ ',' ∉ n)
    (st : RS.PState) (r : RS.RoundInfo) (hin : st.inRound = true) (hc : st.cur = some r)
    (hr0 : r.confirmed_supporters = []) :
    RS.parseLine st ("  - 서포터(".data ++ (natToStr ns ++ ('/' :: (natToStr smax ++
        (')' :: ':' :: ' ' :: joinCS names))))) =
      { st with
        cur := some { r with
                      confirmed_supporters := names.map (fun n => (n, ([] : Str))) } } := by
  rw [parseLine_sup ns smax names hn st r hin hc]
  rcases hnm : names with _ | ⟨n0, nr⟩
  · rw [if_pos rfl]
    have h2 : ({ r with confirmed_supporters := ([] : List Str).map (fun n => (n, ([] : Str))) } :
        RS.RoundInfo) = r := by
      rw [List.map_nil, ← hr0]
    rw [h2, ← hc]
  · rw [if_neg (by simp)]

theorem parseLine_deal3 (nd dmax : Nat) (names : List Str)
    (hn : ∀ n ∈ names, n ≠ [] ∧ trim n = n ∧ ',' ∉ n)
    (hns : ∀ n ∈ names, containsSub "서포터".data n = false)
    (st : RS.PState) (r : RS.RoundInfo) (hin : st.inRound = true) (hc : st.cur = some r)
    (hr0 : r.confirmed_dealers = []) :
    RS.parseLine st ("  - 딜러(".data ++ (natToStr nd ++ ('/' :: (natToStr dmax ++
        (')' :: ':' :: ' ' :: joinCS names))))) =
      { st with
        cur := some { r with
                      confirmed_dealers := names.map (fun n => (n, ([] : Str))) } } := by
  rw [parseLine_deal nd dmax names hn hns st r hin hc]
  rcases hnm : names with _ | ⟨n0, nr⟩
  · rw [if_pos rfl]
    have h2 : ({ r with confirmed_dealers := ([] : List Str).map (fun n => (n, ([] : Str))) } :
        RS.RoundInfo) = r := by
      rw [List.map_nil, ← hr0]
    rw [h2, ← hc]
  · rw [if_neg (by simp)]

theorem parse_round_block (r : RS.RoundInfo) (hg : RS.RoundGood r) (st : RS.PState) :
    (RS.roundLines r).foldl RS.parseLine st =
      ⟨true, some (RS.parsedRound r), RS.flushCur st.cur st.data⟩ := by
  obtain ⟨⟨k, hk⟩, hpart, hwg, hng, hnos, hnod, hsg, hdg⟩ := hg
  have hwn : trim r.when = r.when := hwg.1
  have hnt : trim r.note = r.note := hng.1
  have hsup3 : ∀ n ∈ r.confirmed_supporters.map Prod.fst, n ≠ [] ∧ trim n = n ∧ ',' ∉ n :=
    fun n hm => ⟨(hsg n hm).1, (hsg n hm).2.1, (hsg n hm).2.2.1⟩
  have hdeal3 : ∀ n ∈ r.confirmed_dealers.map Prod.fst, n ≠ [] ∧ trim n = n ∧ ',' ∉ n :=
    fun n hm => ⟨(hdg n hm).1.1, (hdg n hm).1.2.1, (hdg n hm).1.2.2.1⟩
  have hdns : ∀ n ∈ r.confirmed_dealers.map Prod.fst, containsSub "서포터".data n = false :=
    fun n hm => (hdg n hm).2
  have hcs : "  - 서포터(".data ++ natToStr r.confirmed_supporters.length ++ ['/'] ++
      natToStr r.supporter_max ++ "): ".data ++ joinCS (r.confirmed_supporters.map Prod.fst) =
      "  - 서포터(".data ++ (natToStr r.confirmed_supporters.length ++ ('/' ::
        (natToStr r.supporter_max ++ (')' :: ':' :: ' ' ::
          joinCS (r.confirmed_supporters.map Prod.fst))))) := by simp
  have hcd : "  - 딜러(".data ++ natToStr r.confirmed_dealers.length ++ ['/'] ++
      natToStr r.dealer_max ++ "): ".data ++ joinCS (r.confirmed_dealers.map Prod.fst) =
      "  - 딜러(".data ++ (natToStr r.confirmed_dealers.length ++ ('/' ::
        (natToStr r.dealer_max ++ (')' :: ':' :: ' ' ::
          joinCS (r.confirmed_dealers.map Prod.fst))))) := by simp
  simp only [RS.roundLines, List.foldl_cons, List.foldl_nil]
  rw [parseLine_nil st, hk, parseLine_header k st, hcs, hcd]
  rw [parseLine_when r.when hwn ⟨true, some { name := natToStr k ++ "차".data },
    RS.flushCur st.cur st.data⟩ { name := natToStr k ++ "차".data } rfl rfl]
  dsimp only
  rw [parseLine_who ⟨true, some { name := natToStr k ++ "차".data, when := r.when },
    RS.flushCur st.cur st.data⟩ { name := natToStr k ++ "차".data, when := r.when } rfl rfl]
  rw [parseLine_sup3 r.confirmed_supporters.length r.supporter_max
    (r.confirmed_supporters.map Prod.fst) hsup3
    ⟨true,
      some { name := natToStr k ++ "차".data, when := r.when },
      RS.flushCur st.cur st.data⟩
    { name := natToStr k ++ "차".data, when := r.when } rfl rfl rfl]
  dsimp only
  rw [parseLine_deal3 r.confirmed_dealers.length r.dealer_max
    (r.confirmed_dealers.map Prod.fst) hdeal3 hdns
    ⟨true,
      some { name := natToStr k ++ "차".data, when := r.when,
             confirmed_supporters :=
               (r.confirmed_supporters.map Prod.fst).map (fun n => (n, ([] : Str))) },
      RS.flushCur st.cur st.data⟩
    { name := natToStr k ++ "차".data, when := r.when,
      confirmed_supporters :=
        (r.confirmed_supporters.map Prod.fst).map (fun n => (n, ([] : Str))) } rfl rfl rfl]
  dsimp only
  rw [parseLine_note r.note hnt hnos hnod
    ⟨true,
      some { name := natToStr k ++ "차".data, when := r.when,
             confirmed_supporters :=
               (r.confirmed_supporters.map Prod.fst).map (fun n => (n, ([] : Str))),
             confirmed_dealers :=
               (r.confirmed_dealers.map Prod.fst).map (fun n => (n, ([] : Str))) },
      RS.flushCur st.cur st.data⟩
    { name := natToStr k ++ "차".data, when := r.when,
      confirmed_supporters :=
        (r.confirmed_supporters.map Prod.fst).map (fun n => (n, ([] : Str))),
      confirmed_dealers :=
        (r.confirmed_dealers.map Prod.fst).map (fun n => (n, ([] : Str))) } rfl rfl]
  dsimp only
  simp [RS.parsedRound, hk, List.map_map, Function.comp]


theorem parseLine_rtrim (st : RS.PState) (l : Str) :
    RS.parseLine st (rtrim l) = RS.parseLine st l := by
  rw [RS.parseLine, RS.parseLine, trim_rtrim]

theorem roundGood_not_empty (r : RS.RoundInfo) (hg : RS.RoundGood r) :
    RS.is_empty_round r = false := by
  rcases hg.2.1 with h | h
  · simp [RS.is_empty_round, List.isEmpty_iff, h]
  · simp [RS.is_empty_round, List.isEmpty_iff, h]

theorem nl_not_mem_natToStr (n : Nat) : ¬ '\n' ∈ natToStr n :=
  fun hm => absurd (natToStr_digits n _ hm) (by decide)

theorem parse_rounds (rl : List RS.RoundInfo) : ∀ st : RS.PState,
    (∀ r ∈ rl, RS.RoundGood r) →
    RS.flushCur (((rl.map RS.roundLines).flatten).foldl RS.parseLine st).cur
        (((rl.map RS.roundLines).flatten).foldl RS.parseLine st).data =
      { RS.flushCur st.cur st.data with
        rounds := (RS.flushCur st.cur st.data).rounds ++ rl.map RS.parsedRound } := by
  induction rl with
  | nil =>
    intro st h
    simp
  | cons r rest ih =>
    intro st h
    have hgr := h r (List.mem_cons_self _ _)
    simp only [List.map_cons, List.flatten_cons, List.foldl_append]
    rw [parse_round_block r hgr st]
    rw [ih ⟨true, some (RS.parsedRound r), RS.flushCur st.cur st.data⟩
      (fun x hx => h x (List.mem_cons_of_mem r hx))]
    have hcond : 0 < (RS.parsedRound r).confirmed_supporters.length ∨
        0 < (RS.parsedRound r).confirmed_dealers.length := by
      rcases hgr.2.1 with h1 | h1
      · left
        simp [RS.parsedRound, List.length_pos, h1]
      · right
        simp [RS.parsedRound, List.length_pos, h1]
    have hflush : RS.flushCur (some (RS.parsedRound r)) (RS.flushCur st.cur st.data) =
        { RS.flushCur st.cur st.data with
          rounds := (RS.flushCur st.cur st.data).rounds ++ [RS.parsedRound r] } := by
      rw [RS.flushCur, if_pos hcond]
    rw [hflush]
    simp [List.append_assoc]

theorem parse_info (ls : List Str) : ∀ st : RS.PState,
    (∀ l ∈ ls, RS.roundHeaderNum (trim l) = none) →
    st.inRound = false → st.cur = none →
    ∃ d2, ls.foldl RS.parseLine st = ⟨false, none, d2⟩ ∧ d2.rounds = st.data.rounds := by
  induction ls with
  | nil =>
    intro st h h1 h2
    refine ⟨st.data, ?_, rfl⟩
    rw [List.foldl_nil]
    rcases st with ⟨i, c, d⟩
    dsimp only at h1 h2 ⊢
    rw [h1, h2]
  | cons l rest ih =>
    intro st h h1 h2
    have hl := h l (List.mem_cons_self _ _)
    rw [List.foldl_cons]
    have hstep : ∃ d3, RS.parseLine st l = ⟨false, none, d3⟩ ∧ d3.rounds = st.data.rounds := by
      rw [RS.parseLine]
      rcases htl : trim l with _ | ⟨c, t⟩
      · refine ⟨st.data, ?_, rfl⟩
        rcases st with ⟨i, cu, d⟩
        dsimp only at h1 h2 ⊢
        rw [h1, h2, RS.parseLineCore, if_pos rfl]
      · rw [htl] at hl
        rw [RS.parseLineCore, if_neg (by simp), hl]
        by_cases hpre : isPre "🔹".data (c :: t) = true
        · refine ⟨{ st.data with info := st.data.info ++ [c :: t] }, ?_, rfl⟩
          rw [if_pos (by simp [h1]), if_pos hpre, h1, h2]
        · refine ⟨st.data, ?_, rfl⟩
          rw [if_pos (by simp [h1]), if_neg hpre]
          rcases st with ⟨i, cu, d⟩
          dsimp only at h1 h2 ⊢
          rw [h1, h2]
    obtain ⟨d3, he, hr3⟩ := hstep
    rw [he]
    obtain ⟨d4, he4, hr4⟩ :=
      ih ⟨false, none, d3⟩ (fun x hx => h x (List.mem_cons_of_mem l hx)) rfl rfl
    exact ⟨d4, he4, hr4.trans hr3⟩


theorem formatLines_no_nl (d : RS.RaidData) (hh2 : ¬ '\n' ∈ d.header)
    (hinfo : ∀ l ∈ d.info, ¬ '\n' ∈ l) (hr : ∀ r ∈ d.rounds, RS.RoundGood r) :
    ∀ l ∈ RS.formatLines d, ¬ '\n' ∈ l := by
  intro l hl
  simp only [RS.formatLines] at hl
  rcases List.mem_append.mp hl with h1 | h1
  · rcases List.mem_append.mp h1 with h2 | h2
    · rw [List.mem_singleton] at h2
      subst h2
      exact hh2
    · by_cases hie : d.info.isEmpty
      · rw [if_pos hie] at h2
        simp at h2
      · rw [if_neg hie] at h2
        rcases List.mem_cons.mp h2 with h3 | h3
        · subst h3
          simp
        · exact hinfo l h3
  · obtain ⟨ls, hls, hlin⟩ := List.mem_flatten.mp h1
    obtain ⟨r, hrm, hre⟩ := List.mem_map.mp hls
    have hgr := hr r hrm
    rw [← hre] at hlin
    rw [roundGood_not_empty r hgr] at hlin
    rw [if_neg (by simp)] at hlin
    obtain ⟨⟨k, hk⟩, hpart, hwg, hng, hno1, hno2, hsg, hdg⟩ := hgr
    have hjs : ¬ '\n' ∈ joinCS (r.confirmed_supporters.map Prod.fst) := by
      intro hm
      rcases mem_joinCS '\n' _ hm with h | h | ⟨n2, hn2, hc2⟩
      · exact absurd h (by decide)
      · exact absurd h (by decide)
      · exact (hsg n2 hn2).2.2.2 hc2
    have hjd : ¬ '\n' ∈ joinCS (r.confirmed_dealers.map Prod.fst) := by
      intro hm
      rcases mem_joinCS '\n' _ hm with h | h | ⟨n2, hn2, hc2⟩
      · exact absurd h (by decide)
      · exact absurd h (by decide)
      · exact (hdg n2 hn2).1.2.2.2 hc2
    have hnm : ¬ '\n' ∈ r.name := by
      rw [hk]
      intro hm
      rcases List.mem_append.mp hm with h | h
      · exact nl_not_mem_natToStr k h
      · exact absurd h (by decide)
    simp only [RS.roundLines, List.mem_cons, List.not_mem_nil, or_false] at hlin
    rcases hlin with h|h|h|h|h|h|h
    · subst h; simp
    · subst h
      intro hm
      rcases List.mem_append.mp hm with h2 | h2
      · exact absurd h2 (by decide)
      · exact hnm h2
    · subst h
      intro hm
      rcases List.mem_append.mp hm with h2 | h2
      · exact absurd h2 (by decide)
      · exact hwg.2 h2
    · subst h
      decide
    · subst h
      intro hm
      rcases List.mem_append.mp hm with h2 | h2
      · rcases List.mem_append.mp h2 with h3 | h3
        · rcases List.mem_append.mp h3 with h4 | h4
          · rcases List.mem_append.mp h4 with h5 | h5
            · rcases List.mem_append.mp h5 with h6 | h6
              · exact absurd h6 (by decide)
              · exact nl_not_mem_natToStr _ h6
            · exact absurd h5 (by decide)
          · exact nl_not_mem_natToStr _ h4
        · exact absurd h3 (by decide)
      · exact hjs h2
    · subst h
      intro hm
      rcases List.mem_append.mp hm with h2 | h2
      · rcases List.mem_append.mp h2 with h3 | h3
        · rcases List.mem_append.mp h3 with h4 | h4
          · rcases List.mem_append.mp h4 with h5 | h5
            · rcases List.mem_append.mp h5 with h6 | h6
              · exact absurd h6 (by decide)
              · exact nl_not_mem_natToStr _ h6
            · exact absurd h5 (by decide)
          · exact nl_not_mem_natToStr _ h4
        · exact absurd h3 (by decide)
      · exact hjd h2
    · subst h
      intro hm
      rcases List.mem_append.mp hm with h2 | h2
      · exact absurd h2 (by decide)
      · exact hng.2 h2


theorem parse_format_glue (hd : Str) (B1L : List Str) (lastl : Str)
    (hh1 : ltrim hd ≠ []) (hh2 : ¬ '\n' ∈ hd)
    (hB : ∀ l ∈ B1L, ¬ '\n' ∈ l) (hlast : ¬ '\n' ∈ lastl) (hlne : rtrim lastl ≠ []) :
    RS.parse_message_to_data (joinNL (hd :: (B1L ++ [lastl]))) =
      RS.flushCur
        (((B1L ++ [lastl]).foldl RS.parseLine
          ⟨false, none, { header := ltrim hd }⟩).cur)
        (((B1L ++ [lastl]).foldl RS.parseLine
          ⟨false, none, { header := ltrim hd }⟩).data) := by
  have ht1 : trim (joinNL (hd :: (B1L ++ [lastl]))) =
      joinNL (ltrim hd :: (B1L ++ [rtrim lastl])) := by
    have e1 : hd :: (B1L ++ [lastl]) = (hd :: B1L) ++ [lastl] := by simp
    have e2 : rtrim (joinNL ((hd :: B1L) ++ [lastl])) =
        joinNL ((hd :: B1L) ++ [rtrim lastl]) :=
      rtrim_joinNL_concat _ _ hlne
    show ltrim (rtrim _) = _
    rw [e1, e2]
    have e3 : (hd :: B1L) ++ [rtrim lastl] = hd :: (B1L ++ [rtrim lastl]) := by simp
    rw [e3, joinNL_cons₂ _ _ (by simp), ltrim_append _ _ hh1,
      ← joinNL_cons₂ (ltrim hd) _ (by simp)]
  have hlines : splitOnChar '\n' (trim (joinNL (hd :: (B1L ++ [lastl])))) =
      ltrim hd :: (B1L ++ [rtrim lastl]) := by
    rw [ht1]
    apply splitNL_joinNL _ (by simp)
    intro x hx
    rcases List.mem_cons.mp hx with h | h
    · subst h
      exact fun hm => hh2 (mem_of_mem_ltrim _ _ hm)
    · rcases List.mem_append.mp h with h2 | h2
      · exact hB x h2
      · rw [List.mem_singleton] at h2
        subst h2
        exact fun hm => hlast (mem_of_mem_rtrim _ _ hm)
  have hfold : (B1L ++ [rtrim lastl]).foldl RS.parseLine
      ⟨false, none, { header := ltrim hd }⟩ =
      (B1L ++ [lastl]).foldl RS.parseLine ⟨false, none, { header := ltrim hd }⟩ := by
    rw [List.foldl_append, List.foldl_append]
    simp only [List.foldl_cons, List.foldl_nil]
    rw [parseLine_rtrim]
  rw [RS.parse_message_to_data, hlines]
  show RS.flushCur
      (((B1L ++ [rtrim lastl]).foldl RS.parseLine
        ⟨false, none, { header := ltrim hd }⟩).cur)
      (((B1L ++ [rtrim lastl]).foldl RS.parseLine
        ⟨false, none, { header := ltrim hd }⟩).data) = _
  rw [hfold]


theorem roundtrip_rounds (d : RS.RaidData)
    (hh1 : ltrim d.header ≠ []) (hh2 : ¬ '\n' ∈ d.header)
    (hinfo : ∀ l ∈ d.info, ¬ '\n' ∈ l ∧ RS.roundHeaderNum (trim l) = none)
    (hie : d.rounds = [] → d.info = [])
    (hr : ∀ r ∈ d.rounds, RS.RoundGood r) :
    (RS.parse_message_to_data (RS.format_data_to_message d)).rounds =
      d.rounds.map RS.parsedRound := by
  rcases List.eq_nil_or_concat d.rounds with hnil | ⟨rinit, rl, hrd⟩
  · have hi0 : d.info = [] := hie hnil
    have hfl : RS.formatLines d = [d.header] := by
      simp [RS.formatLines, hi0, hnil]
    rw [RS.format_data_to_message, hfl,
      show joinNL [d.header] = d.header from rfl]
    have hsp : splitOnChar '\n' (trim d.header) = [trim d.header] :=
      splitOnChar_nosep _ _ (fun hm => hh2 (mem_of_mem_trim _ _ hm))
    rw [RS.parse_message_to_data, hsp, hnil]
    rfl
  · rw [List.concat_eq_append] at hrd
    have hinfo1 : ∀ l ∈ d.info, ¬ '\n' ∈ l := fun l hl => (hinfo l hl).1
    have hnl := formatLines_no_nl d hh2 hinfo1 hr
    have hmapc : d.rounds.map (fun r => if RS.is_empty_round r then [] else RS.roundLines r) =
        d.rounds.map RS.roundLines := by
      apply List.map_congr_left
      intro r hrm
      rw [roundGood_not_empty r (hr r hrm), if_neg (by simp)]
    have hfl : RS.formatLines d = d.header ::
        ((if d.info.isEmpty then [] else ([] : Str) :: d.info) ++
          (d.rounds.map RS.roundLines).flatten) := by
      simp only [RS.formatLines, hmapc]
      rfl
    have hbody : (if d.info.isEmpty then [] else ([] : Str) :: d.info) ++
        (d.rounds.map RS.roundLines).flatten =
        ((if d.info.isEmpty then [] else ([] : Str) :: d.info) ++
          ((rinit.map RS.roundLines).flatten ++
            [[],
             "## ".data ++ rl.name,
             "- when: ".data ++ rl.when,
             "- who:".data,
             "  - 서포터(".data ++ natToStr rl.confirmed_supporters.length ++ ['/'] ++
               natToStr rl.supporter_max ++ "): ".data ++
               joinCS (rl.confirmed_supporters.map Prod.fst),
             "  - 딜러(".data ++ natToStr rl.confirmed_dealers.length ++ ['/'] ++
               natToStr rl.dealer_max ++ "): ".data ++
               joinCS (rl.confirmed_dealers.map Prod.fst)])) ++
          ["- note: ".data ++ rl.note] := by
      rw [hrd]
      simp [RS.roundLines]
    have hflb : RS.formatLines d = d.header ::
        (((if d.info.isEmpty then [] else ([] : Str) :: d.info) ++
          ((rinit.map RS.roundLines).flatten ++
            [[],
             "## ".data ++ rl.name,
             "- when: ".data ++ rl.when,
             "- who:".data,
             "  - 서포터(".data ++ natToStr rl.confirmed_supporters.length ++ ['/'] ++
               natToStr rl.supporter_max ++ "): ".data ++
               joinCS (rl.confirmed_supporters.map Prod.fst),
             "  - 딜러(".data ++ natToStr rl.confirmed_dealers.length ++ ['/'] ++
               natToStr rl.dealer_max ++ "): ".data ++
               joinCS (rl.confirmed_dealers.map Prod.fst)])) ++
          ["- note: ".data ++ rl.note]) := by
      rw [hfl, hbody]
    have hBmem : ∀ l ∈ (if d.info.isEmpty then [] else ([] : Str) :: d.info) ++
        ((rinit.map RS.roundLines).flatten ++
          [[],
           "## ".data ++ rl.name,
           "- when: ".data ++ rl.when,
           "- who:".data,
           "  - 서포터(".data ++ natToStr rl.confirmed_supporters.length ++ ['/'] ++
             natToStr rl.supporter_max ++ "): ".data ++
             joinCS (rl.confirmed_supporters.map Prod.fst),
           "  - 딜러(".data ++ natToStr rl.confirmed_dealers.length ++ ['/'] ++
             natToStr rl.dealer_max ++ "): ".data ++
             joinCS (rl.confirmed_dealers.map Prod.fst)]), ¬ '\n' ∈ l := by
      intro l hl
      apply hnl l
      rw [hflb]
      exact List.mem_cons_of_mem _ (List.mem_append.mpr (Or.inl hl))
    have hlastnl : ¬ '\n' ∈ "- note: ".data ++ rl.note := by
      apply hnl
      rw [hflb]
      exact List.mem_cons_of_mem _
        (List.mem_append.mpr (Or.inr (List.mem_singleton.mpr rfl)))
    have hlastne : rtrim ("- note: ".data ++ rl.note) ≠ [] :=
      rtrim_ne_nil_of_mem _ '-' (List.mem_append.mpr (Or.inl (by decide))) (by decide)
    rw [RS.format_data_to_message, hflb,
      parse_format_glue d.header _ _ hh1 hh2 hBmem hlastnl hlastne, ← hbody,
      List.foldl_append]
    obtain ⟨d2, hst1, hd2r⟩ : ∃ d2,
        (if d.info.isEmpty then [] else ([] : Str) :: d.info).foldl RS.parseLine
          ⟨false, none, { header := ltrim d.header }⟩ = ⟨false, none, d2⟩ ∧
          d2.rounds = [] := by
      by_cases hiem : d.info.isEmpty
      · rw [if_pos hiem, List.foldl_nil]
        exact ⟨{ header := ltrim d.header }, rfl, rfl⟩
      · rw [if_neg hiem]
        have hcond : ∀ x ∈ ([] : Str) :: d.info, RS.roundHeaderNum (trim x) = none := by
          intro x hx
          rcases List.mem_cons.mp hx with h | h
          · subst h
            decide
          · exact (hinfo x h).2
        obtain ⟨d2, he, hrr⟩ := parse_info (([] : Str) :: d.info)
          ⟨false, none, { header := ltrim d.header }⟩ hcond rfl rfl
        exact ⟨d2, he, hrr⟩
    rw [hst1, parse_rounds d.rounds ⟨false, none, d2⟩ hr]
    dsimp only [RS.flushCur]
    rw [hd2r, List.nil_append]


/-- C5 (amended): for raid data whose rounds each have at least one
confirmed participant and whose strings are well formed for the
line-oriented format (round names of the form `{n}차`; participant names
non-empty, stripped and free of commas and newlines; dealer names not
containing `서포터`; `when`/`note` stripped and newline-free; the note
containing neither `서포터` nor `딜러`; a header with a non-whitespace
character and no newline; info lines newline-free and not shaped like
round headers; no info lines when there are no rounds),
`parse_message_to_data (format_data_to_message data)` yields the same
number of rounds, the same participant name lists per round, and the
same `when` and `note` text per round. -/
theorem c5_roundtrip_amended (d : RS.RaidData)
    (hh1 : ltrim d.header ≠ []) (hh2 : ¬ '\n' ∈ d.header)
    (hinfo : ∀ l ∈ d.info, ¬ '\n' ∈ l ∧ RS.roundHeaderNum (trim l) = none)
    (hie : d.rounds = [] → d.info = [])
    (hr : ∀ r ∈ d.rounds, RS.RoundGood r) :
    (RS.parse_message_to_data (RS.format_data_to_message d)).rounds.length =
      d.rounds.length ∧
    (RS.parse_message_to_data (RS.format_data_to_message d)).rounds.map
        (fun r => r.confirmed_supporters.map Prod.fst) =
      d.rounds.map (fun r => r.confirmed_supporters.map Prod.fst) ∧
    (RS.parse_message_to_data (RS.format_data_to_message d)).rounds.map
        (fun r => r.confirmed_dealers.map Prod.fst) =
      d.rounds.map (fun r => r.confirmed_dealers.map Prod.fst) ∧
    (RS.parse_message_to_data (RS.format_data_to_message d)).rounds.map
        (fun r => r.when) = d.rounds.map (fun r => r.when) ∧
    (RS.parse_message_to_data (RS.format_data_to_message d)).rounds.map
        (fun r => r.note) = d.rounds.map (fun r => r.note) := by
  have h := roundtrip_rounds d hh1 hh2 hinfo hie hr
  rw [h]
  refine ⟨by rw [List.length_map], ?_, ?_, ?_, ?_⟩
  all_goals
    rw [List.map_map]
    apply List.map_congr_left
    intro r hrm
    simp [RS.parsedRound, List.map_map]

/-- C5 witness: a concrete one-round data set with one supporter and one
dealer survives the round trip with its round count, participant name
lists, `when` and `note` intact. -/
theorem c5_witness :
    (RS.parse_message_to_data (RS.format_data_to_message
      { header := "h".data,
        rounds := [{ name := "1차".data, when := "w".data, note := "n".data,
                     confirmed_supporters := [("A".data, "x".data)],
                     confirmed_dealers := [("B".data, "y".data)] }] })).rounds.length = 1 ∧
    (RS.parse_message_to_data (RS.format_data_to_message
      { header := "h".data,
        rounds := [{ name := "1차".data, when := "w".data, note := "n".data,
                     confirmed_supporters := [("A".data, "x".data)],
                     confirmed_dealers := [("B".data, "y".data)] }] })).rounds.map
        (fun r => r.confirmed_supporters.map Prod.fst) = [["A".data]] ∧
    (RS.parse_message_to_data (RS.format_data_to_message
      { header := "h".data,
        rounds := [{ name := "1차".data, when := "w".data, note := "n".data,
                     confirmed_supporters := [("A".data, "x".data)],
                     confirmed_dealers := [("B".data, "y".data)] }] })).rounds.map
        (fun r => r.confirmed_dealers.map Prod.fst) = [["B".data]] ∧
    (RS.parse_message_to_data (RS.format_data_to_message
      { header := "h".data,
        rounds := [{ name := "1차".data, when := "w".data, note := "n".data,
                     confirmed_supporters := [("A".data, "x".data)],
                     confirmed_dealers := [("B".data, "y".data)] }] })).rounds.map
        (fun r => r.when) = ["w".data] ∧
    (RS.parse_message_to_data (RS.format_data_to_message
      { header := "h".data,
        rounds := [{ name := "1차".data, when := "w".data, note := "n".data,
                     confirmed_supporters := [("A".data, "x".data)],
                     confirmed_dealers := [("B".data, "y".data)] }] })).rounds.map
        (fun r => r.note) = ["n".data] :=
  c5_roundtrip_amended
    { header := "h".data,
      rounds := [{ name := "1차".data, when := "w".data, note := "n".data,
                   confirmed_supporters := [("A".data, "x".data)],
                   confirmed_dealers := [("B".data, "y".data)] }] }
    (by decide) (by decide) (by decide) (by decide)
    (fun r hrm => by
      rw [List.mem_singleton] at hrm
      subst hrm
      exact ⟨⟨1, by decide⟩, Or.inl (by decide), ⟨by decide, by decide⟩,
        ⟨by decide, by decide⟩, by decide, by decide,
        fun n hn => by
          simp at hn
          subst hn
          exact ⟨by decide, by decide, by decide, by decide⟩,
        fun n hn => by
          simp at hn
          subst hn
          exact ⟨⟨by decide, by decide, by decide, by decide⟩, by decide⟩⟩)

end RaidSpec
